import Mathlib

/-!
Shallow embedding of the configuration-file library of `cpputils`
(`src/conf.cpp`, `src/conf.hpp`, helpers from `src/string.hpp`).

Modelling conventions:
* Text is `List Char`; byte offsets are `Nat`.
* The C++ lexer peeks `text[cur]` even when `cur` equals the buffer size.
  In the deployed code the buffer is a NUL-terminated `std::string`, so that
  read yields `'\0'`; scanning loops that stop on `'\0'` are modelled by the
  structural end of the list.  The one loop that does *not* stop on `'\0'`
  (the `#`-comment loop in `Lexer::skip`) keeps reading past the buffer and
  never terminates inside it; this is modelled by returning `none`
  (`LexRes.diverge` at top level).
* `throw ParseError` is the `PRes.thrown` outcome; a `ParseError` escaping
  `Parser::parse` (never caught by any caller) is `TopRes.escaped`.
* `std::optional::value()` on an empty optional raises
  `std::bad_optional_access`, which no catch clause in `conf.cpp` handles;
  it is the distinguished outcome `badopt`.
* Bounded loops take explicit fuel; fuel is always instantiated large enough
  at top level, and `fuelOut` is proven unreachable where theorems need it.
* `float` payloads are kept as the literal text of the token: IEEE semantics
  are outside this embedding, and no theorem below depends on the numeric
  value of a float.
-/

namespace Conf

/-! ## Character classes (string.hpp) -/

/-- string::is_alpha. -/
def is_alpha (c : Char) : Bool := ('a' ≤ c && c ≤ 'z') || ('A' ≤ c && c ≤ 'Z')

/-- string::is_digit. -/
def is_digit (c : Char) : Bool := '0' ≤ c && c ≤ '9'

/-- conf.cpp: `bool is_ident_char(char c) { return string::is_alpha(c) || c == '_' || c == '-'; }` -/
def is_ident_char (c : Char) : Bool := is_alpha c || c = '_' || c = '-'

/-! ## Numeric conversions (string.hpp `to_number`, `std::to_string`) -/

/-- Value of a decimal digit character. -/
def digitVal (c : Char) : Nat := c.toNat - '0'.toNat

/-- Accumulating decimal evaluation of a digit string (the arithmetic
`std::from_chars` performs while it scans). -/
def digitsToNat (acc : Nat) : List Char → Nat
  | [] => acc
  | c :: cs => digitsToNat (acc * 10 + digitVal c) cs

/-- string::to_number<int>: `std::from_chars` over the whole token text;
empty optional when the text is not all digits (after an optional minus)
or the value overflows the 32-bit `int`.  Lexer `Int` tokens are always
plain digit runs. -/
def to_number_int (cs : List Char) : Option Int :=
  match cs with
  | '-' :: ds =>
      if ds ≠ [] && ds.all is_digit && digitsToNat 0 ds ≤ 2147483648 then
        some (-(digitsToNat 0 ds : Int))
      else none
  | ds =>
      if ds ≠ [] && ds.all is_digit && digitsToNat 0 ds ≤ 2147483647 then
        some ((digitsToNat 0 ds : Int))
      else none

/-- string::to_number<float> via `strtod`: on the float literals the lexer
produces (digits, a dot, digits) the conversion always consumes the whole
text and succeeds; the IEEE value is abstracted as the literal itself. -/
def to_number_float (cs : List Char) : Option (List Char) := some cs

/-- Decimal digit to character. -/
def digitChar (d : Nat) : Char := Char.ofNat ('0'.toNat + d)

/-- Digits of a natural number, most significant first (fuelled division
loop of `std::to_string`). -/
def natToDigitsF (fuel : Nat) : Nat → List Char :=
  Nat.rec (motive := fun _ => Nat → List Char)
    (fun _ => [])
    (fun _ ih n => if n < 10 then [digitChar n] else ih (n / 10) ++ [digitChar (n % 10)])
    fuel

/-- Decimal digits of a natural number. -/
def natToDigits (n : Nat) : List Char := natToDigitsF (n + 1) n

/-- std::to_string on the 32-bit `int` payload. -/
def int_to_string (n : Int) : List Char :=
  if n < 0 then '-' :: natToDigits n.natAbs else natToDigits n.toNat

/-! ## Value (conf.hpp) -/

/-- conf.hpp `Value`: `std::variant<int, float, bool, std::string, ValueList>`.
The `int` alternative is the C++ 32-bit `int` (modelled as unbounded `Int`;
every constructed value goes through `to_number_int`, which enforces the
32-bit range).  The `float` payload is the literal text (see header note). -/
inductive Value where
  | vInt (n : Int)
  | vFloat (lit : List Char)
  | vBool (b : Bool)
  | vStr (s : List Char)
  | vList (l : List Value)
  deriving Repr

/-- conf.hpp `enum class Type { Int, Float, Bool, String, List }`. -/
inductive VType where
  | int | float | bool | string | list
  deriving DecidableEq, Repr

/-- `Value::type()` = `static_cast<Type>(value.index())`. -/
def Value.vtype : Value → VType
  | .vInt _ => .int
  | .vFloat _ => .float
  | .vBool _ => .bool
  | .vStr _ => .string
  | .vList _ => .list

/-- `Value v{}`: the variant default-constructs its first alternative,
`int` 0. -/
def defaultValue : Value := .vInt 0

instance : Inhabited Value := ⟨defaultValue⟩

mutual

/-- Decidable equality for `Value` (written by hand: the nested `List`
payload defeats the automatic derivation). -/
def decEqV : (a b : Value) → Decidable (a = b)
  | .vInt a, .vInt b =>
      match decEq a b with
      | isTrue h => isTrue (h ▸ rfl)
      | isFalse h => isFalse fun hh => h (Value.vInt.inj hh)
  | .vFloat a, .vFloat b =>
      match decEq a b with
      | isTrue h => isTrue (h ▸ rfl)
      | isFalse h => isFalse fun hh => h (Value.vFloat.inj hh)
  | .vBool a, .vBool b =>
      match decEq a b with
      | isTrue h => isTrue (h ▸ rfl)
      | isFalse h => isFalse fun hh => h (Value.vBool.inj hh)
  | .vStr a, .vStr b =>
      match decEq a b with
      | isTrue h => isTrue (h ▸ rfl)
      | isFalse h => isFalse fun hh => h (Value.vStr.inj hh)
  | .vList a, .vList b =>
      match decEqVL a b with
      | isTrue h => isTrue (h ▸ rfl)
      | isFalse h => isFalse fun hh => h (Value.vList.inj hh)
  | .vInt _, .vFloat _ => isFalse fun h => Value.noConfusion h
  | .vInt _, .vBool _ => isFalse fun h => Value.noConfusion h
  | .vInt _, .vStr _ => isFalse fun h => Value.noConfusion h
  | .vInt _, .vList _ => isFalse fun h => Value.noConfusion h
  | .vFloat _, .vInt _ => isFalse fun h => Value.noConfusion h
  | .vFloat _, .vBool _ => isFalse fun h => Value.noConfusion h
  | .vFloat _, .vStr _ => isFalse fun h => Value.noConfusion h
  | .vFloat _, .vList _ => isFalse fun h => Value.noConfusion h
  | .vBool _, .vInt _ => isFalse fun h => Value.noConfusion h
  | .vBool _, .vFloat _ => isFalse fun h => Value.noConfusion h
  | .vBool _, .vStr _ => isFalse fun h => Value.noConfusion h
  | .vBool _, .vList _ => isFalse fun h => Value.noConfusion h
  | .vStr _, .vInt _ => isFalse fun h => Value.noConfusion h
  | .vStr _, .vFloat _ => isFalse fun h => Value.noConfusion h
  | .vStr _, .vBool _ => isFalse fun h => Value.noConfusion h
  | .vStr _, .vList _ => isFalse fun h => Value.noConfusion h
  | .vList _, .vInt _ => isFalse fun h => Value.noConfusion h
  | .vList _, .vFloat _ => isFalse fun h => Value.noConfusion h
  | .vList _, .vBool _ => isFalse fun h => Value.noConfusion h
  | .vList _, .vStr _ => isFalse fun h => Value.noConfusion h

/-- Decidable equality for lists of `Value`s. -/
def decEqVL : (a b : List Value) → Decidable (a = b)
  | [], [] => isTrue rfl
  | [], _ :: _ => isFalse fun h => List.noConfusion h
  | _ :: _, [] => isFalse fun h => List.noConfusion h
  | a :: as, b :: bs =>
      match decEqV a b, decEqVL as bs with
      | isTrue h1, isTrue h2 => isTrue (h1 ▸ h2 ▸ rfl)
      | isFalse h1, _ => isFalse fun hh => h1 (List.cons.inj hh).1
      | _, isFalse h2 => isFalse fun hh => h2 (List.cons.inj hh).2

end

instance : DecidableEq Value := decEqV

mutual

/-- `Value::to_string()`.  Case 4 renders `[`, the first element, then
`, `-prefixed remaining elements, then `]`. -/
def Value.to_string : Value → List Char
  | .vInt n => int_to_string n
  | .vFloat lit => lit
  | .vBool b => if b then "true".toList else "false".toList
  | .vStr s => '"' :: s ++ ['"']
  | .vList l => '[' :: elemsString l ++ [']']

/-- The `if (l.size() > 0) s += l[0].to_string()` part of list rendering. -/
def elemsString : List Value → List Char
  | [] => []
  | v :: vs => v.to_string ++ restString vs

/-- The `for (i = 1; ...) s += ", " + l[i].to_string()` part. -/
def restString : List Value → List Char
  | [] => []
  | v :: vs => ',' :: ' ' :: v.to_string ++ restString vs

end

/-! ## Data (std::map<std::string, Value>) -/

/-- Map keys (std::string). -/
abbrev Key := List Char

/-- `std::string operator<`: lexicographic comparison by character. -/
def keyLt : Key → Key → Bool
  | [], [] => false
  | [], _ :: _ => true
  | _ :: _, [] => false
  | a :: as, b :: bs => if a < b then true else if b < a then false else keyLt as bs

/-- conf.hpp: `using Data = std::map<std::string, Value>;`, modelled as an
association list kept strictly sorted by `keyLt` (the map's iteration
order). -/
abbrev Data := List (Key × Value)

/-- `std::map::find`. -/
def find? : Data → Key → Option Value
  | [], _ => none
  | (k', v) :: t, k => if k' = k then some v else find? t k

/-- `std::map` insertion/assignment (`data[k] = v`), keeping sorted order. -/
def insertD : Data → Key → Value → Data
  | [], k, v => [(k, v)]
  | (k', v') :: t, k, v =>
      if keyLt k k' then (k, v) :: (k', v') :: t
      else if k = k' then (k, v) :: t
      else (k', v') :: insertD t k v

/-- `std::map::erase(key)`. -/
def eraseD : Data → Key → Data
  | [], _ => []
  | (k', v') :: t, k => if k' = k then t else (k', v') :: eraseD t k

/-! ## Tokens and lexer (conf.cpp) -/

/-- conf.cpp `Token::Type`. -/
inductive TokType where
  | tIdent | tInt | tFloat | tTrue | tFalse | tString | tEqual | tNewline
  | tLBracket | tRBracket | tComma | tUnterminated | tInvalidChar | tEnd
  deriving DecidableEq, Repr

/-- conf.cpp `Token`: kind, text slice, byte offset. -/
structure Tok where
  type : TokType
  text : List Char
  pos : Nat
  deriving DecidableEq, Repr

/-- The `#`-comment loop of `Lexer::skip`:
`while (peek() != '\n') advance();`.  It stops at the newline (which stays
significant).  When no newline remains it keeps advancing past the end of
the buffer, reading out of bounds and never terminating inside it: that is
the `none` result. -/
def scan_comment : List Char → Option (List Char)
  | [] => none
  | c :: cs => if c = '\n' then some (c :: cs) else scan_comment cs

/-- `Lexer::skip`.  Spaces, carriage returns and tabs are consumed one by
one; on `#` the comment loop runs (consuming the `#` first, since `#` is
not a newline), after which the outer `for (;;)` re-inspects the character
under the cursor — necessarily the `'\n'` the comment loop stopped at — and
returns through the `default` branch.  At the end of the buffer `peek()`
reads the NUL terminator and returns through `default` as well. -/
def skip : List Char → Option (List Char)
  | [] => some []
  | c :: cs =>
      if c = ' ' || c = '\r' || c = '\t' then skip cs
      else if c = '#' then scan_comment cs
      else some (c :: cs)

/-- `Lexer::number` after the first digit: `while (is_digit) advance()`
(stops at the NUL sentinel at the end of the buffer). -/
def scan_digits : List Char → List Char × List Char
  | [] => ([], [])
  | c :: cs =>
      if is_digit c then
        let (d, r) := scan_digits cs
        (c :: d, r)
      else ([], c :: cs)

/-- `Lexer::ident` after the first character:
`while (is_ident_char(peek()) || is_digit(peek())) advance()`. -/
def scan_ident : List Char → List Char × List Char
  | [] => ([], [])
  | c :: cs =>
      if is_ident_char c || is_digit c then
        let (w, r) := scan_ident cs
        (c :: w, r)
      else ([], c :: cs)

/-- `Lexer::string_token` body after the opening quote:
`while (peek() != '"' && !at_end()) advance();` — `none` when the end of
input is reached first (Unterminated), otherwise the consumed characters
including the closing quote, and the rest. -/
def scan_string_body : List Char → Option (List Char × List Char)
  | [] => none
  | c :: cs =>
      if c = '"' then some ([c], cs)
      else match scan_string_body cs with
        | none => none
        | some (body, r) => some (c :: body, r)

/-- `Lexer::lex`: skip, then one-character dispatch.  `pos` is the byte
offset of `rem`'s head in the whole text.  Returns the token, the offset
after it, and the remaining text; `none` when `skip` diverges. -/
def lex1 (pos : Nat) (rem : List Char) : Option (Tok × Nat × List Char) :=
  match skip rem with
  | none => none
  | some rem' =>
    let start := pos + (rem.length - rem'.length)
    match rem' with
    | [] => some (⟨.tEnd, [], start⟩, start, [])
    | c :: cs =>
      if c = '=' then some (⟨.tEqual, [c], start⟩, start + 1, cs)
      else if c = '\n' then some (⟨.tNewline, [c], start⟩, start + 1, cs)
      else if c = '[' then some (⟨.tLBracket, [c], start⟩, start + 1, cs)
      else if c = ']' then some (⟨.tRBracket, [c], start⟩, start + 1, cs)
      else if c = ',' then some (⟨.tComma, [c], start⟩, start + 1, cs)
      else if c = '"' then
        match scan_string_body cs with
        | none =>
            some (⟨.tUnterminated, c :: cs, start⟩, start + 1 + cs.length, [])
        | some (body, r) =>
            some (⟨.tString, c :: body, start⟩, start + 1 + body.length, r)
      else if is_digit c then
        let (d1, r1) := scan_digits cs
        match r1 with
        | '.' :: r2 =>
            let (d2, r3) := scan_digits r2
            some (⟨.tFloat, c :: d1 ++ '.' :: d2, start⟩,
                  start + 1 + d1.length + 1 + d2.length, r3)
        | _ => some (⟨.tInt, c :: d1, start⟩, start + 1 + d1.length, r1)
      else if is_ident_char c then
        let (w, r) := scan_ident cs
        let word := c :: w
        let ty : TokType :=
          if word = "true".toList then .tTrue
          else if word = "false".toList then .tFalse
          else .tIdent
        some (⟨ty, word, start⟩, start + 1 + w.length, r)
      else some (⟨.tInvalidChar, [c], start⟩, start + 1, cs)

/-- Result of running the lexer to the end of input. -/
inductive LexRes where
  | toks (l : List (Tok × Bool))
  | diverge
  | fuelOut
  deriving DecidableEq, Repr

/-- Repeated `lex()` until the `End` token, pairing each token with the
value of `lexer.at_end()` right after it was produced. -/
def lexAllF (fuel : Nat) : Nat → List Char → LexRes :=
  Nat.rec (motive := fun _ => Nat → List Char → LexRes)
    (fun _ _ => .fuelOut)
    (fun _ ih pos rem =>
      match lex1 pos rem with
      | none => .diverge
      | some (t, pos', rem') =>
        let b := rem'.isEmpty
        if t.type = .tEnd then .toks [(t, b)]
        else
          match ih pos' rem' with
          | .toks l => .toks ((t, b) :: l)
          | r => r)
    fuel

/-- The token stream of a text.  Every token but `End` consumes at least one
character, so `length + 1` lexing steps always suffice. -/
def tokenize (text : List Char) : LexRes := lexAllF (text.length + 1) 0 text

/-- `std::string_view::npos`. -/
def npos : Nat := 18446744073709551615

/-- `find_last_of('\n')` on a prefix: index of the last newline, as the
C++ call returns it (`npos` when absent). -/
def find_last_nl : List Char → Option Nat
  | [] => none
  | c :: cs =>
      match find_last_nl cs with
      | some i => some (i + 1)
      | none => if c = '\n' then some 0 else none

/-- `Lexer::position_of`: count newlines in the prefix before the offset
(1-based line), and subtract the index of the last newline from the offset
in `size_t` arithmetic (wrapping past `npos` when there is none, which
makes the first-line column `pos + 1`). -/
def position_of (text : List Char) (pos : Nat) : Nat × Nat :=
  let tmp := text.take pos
  let line := tmp.count '\n' + 1
  let r := (find_last_nl tmp).getD npos
  let column := (pos + (18446744073709551616 - r)) % 18446744073709551616
  (line, column)

/-! ## Parse errors (conf.cpp `ParseError`) -/

/-- The `ParseError::...` error-condition constants. -/
inductive EKind where
  | noIdent | noEqualAfterIdent | noValueAfterEqual | noNewlineAfterValue
  | unterminatedString | unexpectedCharacter | expectedComma
  deriving DecidableEq, Repr

/-- The fields of a thrown `ParseError` that `Parser::error` fills:
error condition, line, column, previous-token text, current-token text
(`"end"` for the End token). -/
structure PError where
  kind : EKind
  line : Nat
  col : Nat
  prev : List Char
  cur : List Char
  deriving DecidableEq, Repr

/-! ## Parser (conf.cpp `Parser`) -/

/-- Parser state: previously consumed token, one-token lookahead (with the
lexer's `at_end()` value after it was lexed), pending tokens, the source
text (for `position_of`), and the `Data` under construction. -/
structure St where
  prev : Tok
  cur : Tok
  curAtEnd : Bool
  rest : List (Tok × Bool)
  text : List Char
  data : Data
  deriving DecidableEq, Repr

/-- Outcome of a parser step: normal return, a thrown `ParseError`
(carrying the state at the throw point, which the catch clause resumes
from), or an uncaught `std::bad_optional_access`; `fuelOut` is the fuel
artifact. -/
inductive PRes (α : Type) where
  | ok (a : α) (s : St)
  | thrown (e : PError) (s : St)
  | badopt
  | fuelOut
  deriving DecidableEq

/-- Sequencing of parser steps (exceptions propagate). -/
def PRes.bind : PRes α → (α → St → PRes β) → PRes β
  | .ok a s, k => k a s
  | .thrown e s, _ => .thrown e s
  | .badopt, _ => .badopt
  | .fuelOut, _ => .fuelOut

/-- `Parser::error(t, err)`: build the `ParseError` from `position_of(t)`,
the previous token's text and the offending token's text. -/
def mk_error (s : St) (t : Tok) (k : EKind) : PError :=
  let lc := position_of s.text t.pos
  { kind := k, line := lc.1, col := lc.2, prev := s.prev.text,
    cur := if t.type = .tEnd then "end".toList else t.text }

/-- Pull the next token of the pre-lexed stream (lexing after the end of
input keeps yielding `End` with `at_end()` true). -/
def popTok (s : St) : St :=
  match s.rest with
  | [] => { s with prev := s.cur, cur := ⟨.tEnd, [], s.text.length⟩, curAtEnd := true }
  | (t, b) :: r => { s with prev := s.cur, cur := t, curAtEnd := b, rest := r }

/-- `Parser::advance`: `prev = cur, cur = lexer.lex();` then immediately
throw on the two lexical error tokens. -/
def padvance (s : St) : PRes Unit :=
  let s' := popTok s
  if s'.cur.type = .tUnterminated then
    .thrown (mk_error s' s'.cur .unterminatedString) s'
  else if s'.cur.type = .tInvalidChar then
    .thrown (mk_error s' s'.cur .unexpectedCharacter) s'
  else .ok () s'

/-- `Parser::consume`: advance on a kind match, otherwise raise `err`
against the *previous* token. -/
def pconsume (ty : TokType) (k : EKind) (s : St) : PRes Unit :=
  if s.cur.type = ty then padvance s else .thrown (mk_error s s.prev k) s

/-- `Parser::match`. -/
def pmatch (ty : TokType) (s : St) : PRes Bool :=
  if s.cur.type ≠ ty then .ok false s
  else (padvance s).bind fun _ s' => .ok true s'

/-- Call descriptor for the mutually recursive `parse_value` /
`parse_list` / list-loop trio (they share one fuel index). -/
inductive PVIn where
  | value (s : St)
  | list (s : St)
  | listLoop (acc : List Value) (s : St)

/-- Result of such a call (constructor mirrors the descriptor). -/
inductive PVOut where
  | value (r : PRes (Option Value))
  | list (r : PRes Value)
  | listLoop (r : PRes (List Value))

/-- The `parse_value` / `parse_list` / list-loop trio as one fuelled
dispatcher (`ih` is the whole trio one fuel level down).

`.value` is `Parser::parse_value`: literal cases in order, then `[` for a
list; `none` when no case applies.  The `.value()` calls on the numeric
conversions surface `badopt` when the conversion failed.

`.list` is `Parser::parse_list`: the do/while over `parse_value` and
`Comma`, then `consume(RightSquareBracket, ExpectedComma)`; `.listLoop` is
that do/while body (parse a value, pushing it when present, repeat while a
comma matches). -/
def parseVLF (fuel : Nat) : PVIn → PVOut :=
  Nat.rec (motive := fun _ => PVIn → PVOut)
    (fun a =>
      match a with
      | .value _ => .value .fuelOut
      | .list _ => .list .fuelOut
      | .listLoop _ _ => .listLoop .fuelOut)
    (fun _ ih a =>
      match a with
      | .value s =>
          .value (
            (pmatch .tInt s).bind fun mInt s₁ =>
            if mInt then
              match to_number_int s₁.prev.text with
              | some n => .ok (some (.vInt n)) s₁
              | none => .badopt
            else
              (pmatch .tFloat s₁).bind fun mFloat s₂ =>
              if mFloat then
                match to_number_float s₂.prev.text with
                | some lit => .ok (some (.vFloat lit)) s₂
                | none => .badopt
              else
                (pmatch .tString s₂).bind fun mStr s₃ =>
                if mStr then
                  .ok (some (.vStr ((s₃.prev.text.drop 1).dropLast))) s₃
                else
                  (pmatch .tTrue s₃).bind fun mT s₄ =>
                  if mT then .ok (some (.vBool (s₄.prev.type = .tTrue))) s₄
                  else
                    (pmatch .tFalse s₄).bind fun mF s₅ =>
                    if mF then .ok (some (.vBool (s₅.prev.type = .tTrue))) s₅
                    else
                      (pmatch .tLBracket s₅).bind fun mL s₆ =>
                      if mL then
                        (match ih (.list s₆) with
                         | .list r => r
                         | _ => .fuelOut).bind fun v s₇ => .ok (some v) s₇
                      else .ok none s₆)
      | .list s =>
          .list (
            (match ih (.listLoop [] s) with
             | .listLoop r => r
             | _ => .fuelOut).bind fun vs s' =>
            (pconsume .tRBracket .expectedComma s').bind fun _ s'' =>
            .ok (.vList vs) s'')
      | .listLoop acc s =>
          .listLoop (
            (match ih (.value s) with
             | .value r => r
             | _ => .fuelOut).bind fun v? s₁ =>
            let acc' := match v? with
              | some v => acc ++ [v]
              | none => acc
            (pmatch .tComma s₁).bind fun m s₂ =>
            if m then
              (match ih (.listLoop acc' s₂) with
               | .listLoop r => r
               | _ => .fuelOut)
            else .ok acc' s₂))
    fuel

/-- `Parser::parse_value` with fuel. -/
def parse_valueF (fuel : Nat) (s : St) : PRes (Option Value) :=
  match parseVLF fuel (.value s) with
  | .value r => r
  | _ => .fuelOut

/-- `Parser::parse_list` with fuel. -/
def parse_listF (fuel : Nat) (s : St) : PRes Value :=
  match parseVLF fuel (.list s) with
  | .list r => r
  | _ => .fuelOut

/-- The do/while loop of `Parser::parse_list` with fuel. -/
def parse_list_loopF (fuel : Nat) (acc : List Value) (s : St) : PRes (List Value) :=
  match parseVLF fuel (.listLoop acc s) with
  | .listLoop r => r
  | _ => .fuelOut

/-- One iteration of the `while (!lexer.at_end())` body inside the `try`:
skip a blank line, or parse `ident = value newline`.  Note `data[ident]`
default-inserts `Value{}` (an `int` 0) *before* the value is parsed. -/
def entryF (f : Nat) (s : St) : PRes Unit :=
  (pmatch .tNewline s).bind fun m s₁ =>
  if m then .ok () s₁
  else
    (pconsume .tIdent .noIdent s₁).bind fun _ s₂ =>
    let identTok := s₂.prev
    (pconsume .tEqual .noEqualAfterIdent s₂).bind fun _ s₃ =>
    let s₄ := { s₃ with data :=
      (if (find? s₃.data identTok.text).isSome then s₃.data
       else insertD s₃.data identTok.text defaultValue) }
    (parse_valueF f s₄).bind fun v? s₅ =>
    match v? with
    | some v =>
        let s₆ := { s₅ with data := insertD s₅.data identTok.text v }
        (pconsume .tNewline .noNewlineAfterValue s₆).bind fun _ s₇ => .ok () s₇
    | none => .thrown (mk_error s₅ s₅.prev .noValueAfterEqual) s₅

/-- The catch clause's recovery loop:
`while (cur != End && cur != Newline) advance(); advance();`.
The advances re-raise lexical errors, which then escape `parse`. -/
def recoverF (fuel : Nat) : St → PRes Unit :=
  Nat.rec (motive := fun _ => St → PRes Unit)
    (fun _ => .fuelOut)
    (fun _ ih s =>
      if s.cur.type ≠ .tEnd && s.cur.type ≠ .tNewline then
        (padvance s).bind fun _ s' => ih s'
      else padvance s)
    fuel

/-- Outcome of `Parser::parse`: normal completion with the accumulated
error list and final state, or a `ParseError` escaping the function
(uncaught by any caller of `conf::parse`), or `bad_optional_access`. -/
inductive TopRes where
  | done (errs : List PError) (s : St)
  | escaped (e : PError) (s : St)
  | badopt
  | fuelOut
  deriving DecidableEq, Repr

/-- The `while (!lexer.at_end())` loop with its try/catch.  The error is
pushed *before* recovery runs, but an error thrown during recovery escapes
the whole parse. -/
def parse_loopF (fuel : Nat) : List PError → St → TopRes :=
  Nat.rec (motive := fun _ => List PError → St → TopRes)
    (fun _ _ => .fuelOut)
    (fun _ ih errs s =>
      if s.curAtEnd then .done errs s
      else
        match entryF (2 * s.rest.length + 8) s with
        | .ok _ s' => ih errs s'
        | .thrown e s' =>
            match recoverF (s'.rest.length + 2) s' with
            | .ok _ s'' => ih (errs ++ [e]) s''
            | .thrown e₂ s₂ => .escaped e₂ s₂
            | .badopt => .badopt
            | .fuelOut => .fuelOut
        | .badopt => .badopt
        | .fuelOut => .fuelOut)
    fuel

/-- Fresh parser state over a pre-lexed token stream.  `cur`/`prev` are the
default-initialised `Token`s of the C++ `Parser` (empty text; their kind is
never inspected before being overwritten). -/
def initSt (text : List Char) (ts : List (Tok × Bool)) : St :=
  { prev := ⟨.tIdent, [], 0⟩, cur := ⟨.tIdent, [], 0⟩, curAtEnd := false,
    rest := ts, text := text, data := [] }

/-- `Parser::parse` body: the initial `advance()` (outside the try/catch:
a lexical error on the very first token escapes), then the loop. -/
def parse_toks (text : List Char) (ts : List (Tok × Bool)) : TopRes :=
  match padvance (initSt text ts) with
  | .ok _ s₁ => parse_loopF (s₁.rest.length + 2) [] s₁
  | .thrown e s₁ => .escaped e s₁
  | .badopt => .badopt
  | .fuelOut => .fuelOut

/-- Result of `conf::parse` (`ParseResult` =
`tl::expected<Data, std::vector<ParseError>>`), with the abnormal
terminations kept apart. -/
inductive ParseOut where
  | ok (d : Data)
  | errs (es : List PError)
  | escaped (e : PError)
  | badopt
  | diverge
  | fuelOut
  deriving DecidableEq, Repr

/-- `conf::parse`: lex and parse; with a non-empty error list the function
returns `tl::unexpected(errors)`, *discarding* the accumulated data. -/
def parse (text : List Char) : ParseOut :=
  match tokenize text with
  | .diverge => .diverge
  | .fuelOut => .fuelOut
  | .toks ts =>
    match parse_toks text ts with
    | .done errs s => if errs.isEmpty then .ok s.data else .errs errs
    | .escaped e _ => .escaped e
    | .badopt => .badopt
    | .fuelOut => .fuelOut

/-- The data and error list accumulated by `Parser::parse` just before it
decides what to return (`none` on the abnormal outcomes). -/
def parse_accum (text : List Char) : Option (Data × List PError) :=
  match tokenize text with
  | .toks ts =>
    match parse_toks text ts with
    | .done errs s => some (s.data, errs)
    | _ => none
  | _ => none

/-! ## Validation (conf.cpp `validate`) -/

/-- conf.cpp `Warning::Type` (the subset `validate` emits). -/
inductive WKind where
  | invalidKey | missingKey | mismatchedTypes
  deriving DecidableEq, Repr

/-- A `Warning`: kind, key, schema value (`newval`) and offending value
(`orig`); fields not set by the designated initialisers default-construct
to `Value{}`. -/
structure Warning where
  type : WKind
  key : Key
  newval : Value := defaultValue
  orig : Value := defaultValue
  deriving DecidableEq, Repr

/-- Phase 1 of `validate` (`// remove invalid keys`): a range-for over
`data` whose body, on a key the schema does not contain, pushes an
`InvalidKey` warning and calls `data.erase(k)` — erasing the very element
the loop's hidden iterator points at.  `std::map::erase` invalidates the
iterator to the erased node, and the loop's next `++it` increments that
invalidated iterator: undefined behaviour (here `none`) the moment any
such key exists, taking the warning pushed and the erase with it.  On the
defined path (every data key present in the schema) nothing is erased and
no warning is emitted. -/
def pruneF (schema : Data) : List (Key × Value) → Data → Option (List Warning × Data)
  | [], d => some ([], d)
  | (k, _) :: items, d =>
      match find? schema k with
      | none => none
      | some _ => pruneF schema items d

/-- Phase 2 of `validate` (`// find missing keys and type match existing
ones`): iterate over the schema, inserting defaults for missing keys and
overwriting entries whose type discriminant differs. -/
def fillF : List (Key × Value) → Data → List Warning × Data
  | [], d => ([], d)
  | (k, v) :: items, d =>
      match find? d k with
      | none =>
          let r := fillF items (insertD d k v)
          ({ type := .missingKey, key := k, newval := v } :: r.1, r.2)
      | some w =>
          if v.vtype ≠ w.vtype then
            let r := fillF items (insertD d k v)
            ({ type := .mismatchedTypes, key := k, newval := v, orig := w } :: r.1, r.2)
          else fillF items d

/-- conf.cpp `validate(Data&, const Data&)`: prune, then fill/repair;
returns the warnings in emission order and the reconciled data — when it
returns at all: the prune loop's erase-during-iteration makes the whole
call undefined behaviour (`none`) whenever the data holds a key outside
the schema. -/
def validate (d valid_data : Data) : Option (List Warning × Data) :=
  match pruneF valid_data d d with
  | none => none
  | some p =>
      let f := fillF valid_data p.2
      some (p.1 ++ f.1, f.2)

/-! ## Serialization (conf.cpp `create`) -/

/-- The width computed by `create`:
`std::max_element(begin, end, size-compare)->first.size()`.  On an empty
map `max_element` returns `end()` and the dereference is undefined: that is
the `none` case. -/
def max_key_width (d : Data) : Option Nat :=
  match d with
  | [] => none
  | _ => some ((d.map fun kv => kv.1.length).foldl max 0)

/-- `fmt::print(f, "... {:{}} ...", k, width)`: left-align the key in a
field of `width`, space-filled (never truncating). -/
def pad_key (k : Key) (w : Nat) : List Char := k ++ List.replicate (w - k.length) ' '

/-- One output line of `create`: `key = value\n` with the key padded. -/
def entry_line (w : Nat) (kv : Key × Value) : List Char :=
  pad_key kv.1 w ++ " = ".toList ++ kv.2.to_string ++ ['\n']

/-- The text `create(path, data)` writes (the `io::File` sink is external
I/O and is abstracted away); `none` models the undefined width computation
on an empty map. -/
def create_text (d : Data) : Option (List Char) :=
  (max_key_width d).map fun w => (d.map (entry_line w)).flatten

/-! ## Well-formedness (the round-trippable fragment) -/

/-- Keys that serialize to text the lexer reads back as one `Ident` token:
non-empty, an identifier-start character followed by identifier characters
or digits, and not the keywords `true` / `false`. -/
def identKeyB (k : Key) : Bool :=
  match k with
  | [] => false
  | c :: cs =>
      is_ident_char c && cs.all (fun d => is_ident_char d || is_digit d) &&
      !(k == "true".toList) && !(k == "false".toList)

/-- Values the serializer renders to text the parser reads back exactly:
non-negative 32-bit integers (a sign would lex as an identifier), booleans,
strings without `"` or `\n` (no escape mechanism exists), and lists of such
values.  Floats are excluded: their rendering goes through
`std::to_string`'s fixed six-decimal format, outside this embedding. -/
inductive WFVal : Value → Prop where
  | int (n : Int) : 0 ≤ n → n ≤ 2147483647 → WFVal (.vInt n)
  | bool (b : Bool) : WFVal (.vBool b)
  | str (s : List Char) : (∀ c ∈ s, c ≠ '"' ∧ c ≠ '\n') → WFVal (.vStr s)
  | list (l : List Value) : (∀ v ∈ l, WFVal v) → WFVal (.vList l)

/-- Strict key-sortedness: the `std::map` iteration-order invariant
(pairwise, as produced by iterating a map ordered by `operator<`). -/
def KSorted (d : Data) : Prop := List.Pairwise (fun a b => keyLt a.1 b.1 = true) d

/-- A `Data` in the round-trippable fragment. -/
def WFData (d : Data) : Prop :=
  KSorted d ∧ ∀ kv ∈ d, identKeyB kv.1 = true ∧ WFVal kv.2

/-- Key uniqueness (what the `validate` proofs need from the map). -/
def NoDupKeys (d : Data) : Prop := (d.map Prod.fst).Nodup

instance (d : Data) : Decidable (NoDupKeys d) :=
  inferInstanceAs (Decidable (d.map Prod.fst).Nodup)

instance (d : Data) : Decidable (KSorted d) :=
  inferInstanceAs (Decidable (List.Pairwise _ d))

/-! ## Token patterns of serialized values -/

mutual

/-- The (kind, text) pattern of the token stream `Value::to_string`'s
output lexes to. -/
def valPats : Value → List (TokType × List Char)
  | .vInt n => [(.tInt, int_to_string n)]
  | .vFloat lit => [(.tFloat, lit)]
  | .vBool b => if b then [(.tTrue, "true".toList)] else [(.tFalse, "false".toList)]
  | .vStr s => [(.tString, '"' :: s ++ ['"'])]
  | .vList l => (.tLBracket, ['[']) :: elemsPats l ++ [(.tRBracket, [']'])]

/-- Patterns of a rendered element list. -/
def elemsPats : List Value → List (TokType × List Char)
  | [] => []
  | v :: vs => valPats v ++ restPats vs

/-- Patterns of the `, `-prefixed tail elements. -/
def restPats : List Value → List (TokType × List Char)
  | [] => []
  | v :: vs => (.tComma, [',']) :: valPats v ++ restPats vs

end

/-- The lookahead-inclusive token stream of a parser state. -/
def toksOf (s : St) : List (Tok × Bool) := (s.cur, s.curAtEnd) :: s.rest

/-- A token list realises a pattern list mid-stream: kinds and texts line
up and every flag is false (more input follows). -/
def patsMatch (tl : List (Tok × Bool)) (ps : List (TokType × List Char)) : Prop :=
  tl.map (fun tb => (tb.1.type, tb.1.text)) = ps ∧ ∀ tb ∈ tl, tb.2 = false

/-- The dispatch part of `Lexer::lex` after `skip` has run: `start` is the
byte offset of the character under the cursor. -/
def lex1Core (start : Nat) (rem' : List Char) : Option (Tok × Nat × List Char) :=
  match rem' with
  | [] => some (⟨.tEnd, [], start⟩, start, [])
  | c :: cs =>
    if c = '=' then some (⟨.tEqual, [c], start⟩, start + 1, cs)
    else if c = '\n' then some (⟨.tNewline, [c], start⟩, start + 1, cs)
    else if c = '[' then some (⟨.tLBracket, [c], start⟩, start + 1, cs)
    else if c = ']' then some (⟨.tRBracket, [c], start⟩, start + 1, cs)
    else if c = ',' then some (⟨.tComma, [c], start⟩, start + 1, cs)
    else if c = '"' then
      match scan_string_body cs with
      | none =>
          some (⟨.tUnterminated, c :: cs, start⟩, start + 1 + cs.length, [])
      | some (body, r) =>
          some (⟨.tString, c :: body, start⟩, start + 1 + body.length, r)
    else if is_digit c then
      let (d1, r1) := scan_digits cs
      match r1 with
      | '.' :: r2 =>
          let (d2, r3) := scan_digits r2
          some (⟨.tFloat, c :: d1 ++ '.' :: d2, start⟩,
                start + 1 + d1.length + 1 + d2.length, r3)
      | _ => some (⟨.tInt, c :: d1, start⟩, start + 1 + d1.length, r1)
    else if is_ident_char c then
      let (w, r) := scan_ident cs
      let word := c :: w
      let ty : TokType :=
        if word = "true".toList then .tTrue
        else if word = "false".toList then .tFalse
        else .tIdent
      some (⟨ty, word, start⟩, start + 1 + w.length, r)
    else some (⟨.tInvalidChar, [c], start⟩, start + 1, cs)

/-- `lex()` steps matching a pattern list: from each intermediate text a
single `lex()` yields exactly the next pattern's kind and text (for any
start offset: token positions are irrelevant to the happy path) with input
left over, finishing in a text satisfying `k`. -/
def LexSteps (k : List Char → Prop) :
    List (TokType × List Char) → List Char → Prop
  | [], rem => k rem
  | (ty, tx) :: ps, rem =>
      ∃ rem', (∀ pos, ∃ st pos', lex1 pos rem = some (⟨ty, tx, st⟩, pos', rem')) ∧
        rem' ≠ [] ∧ LexSteps k ps rem'

/-- What follows a rendered value inside a line: the newline, a `, `
separator, or the closing bracket of a list. -/
def sepHead (r : List Char) : Prop :=
  ∃ c t, r = c :: t ∧ (c = '\n' ∨ c = ',' ∨ c = ']')

/-- Shape of the token stream of a serialized entry list: for each entry
an `Ident`, an `Equal`, the value's tokens (`valPats`), a `Newline`; then
the `End` token.  Byte positions and the newline flags are existential:
the parser reads a flag only on the token under the cursor at the top of
its loop (each entry's `Ident`, and `End`). -/
def EntryToks : List (Key × Value) → List (Tok × Bool) → Prop
  | [], ts => ∃ p, ts = [(⟨.tEnd, [], p⟩, true)]
  | (k, v) :: es, ts =>
      ∃ p1 p2 tsV pNl bNl ts',
        ts = (⟨.tIdent, k, p1⟩, false) :: (⟨.tEqual, ['='], p2⟩, false) ::
          (tsV ++ (⟨.tNewline, ['\n'], pNl⟩, bNl) :: ts') ∧
        tsV.map (fun tb => (tb.1.type, tb.1.text)) = valPats v ∧
        (∀ tb ∈ tsV, tb.2 = false) ∧ EntryToks es ts'

/-- The parser state whose cursor sits at the head of `ts ++ (ta, ba) :: aft`
(the lookahead-buffer view of a mid-stream position). -/
def stream_st (prev : Tok) (ts : List (Tok × Bool)) (ta : Tok) (ba : Bool)
    (aft : List (Tok × Bool)) (tx : List Char) (d : Data) : St :=
  match ts with
  | [] => ⟨prev, ta, ba, aft, tx, d⟩
  | (t0, b0) :: ts' => ⟨prev, t0, b0, ts' ++ (ta, ba) :: aft, tx, d⟩

/-- Number of tokens the serialization of an entry list lexes to
(including `End`). -/
def entryTokCount : List (Key × Value) → Nat
  | [] => 1
  | (_, v) :: es => 2 + (valPats v).length + 1 + entryTokCount es

mutual

/-- Fuel sufficient for `parse_value` on a rendered value. -/
def vfuel : Value → Nat
  | .vInt _ => 1
  | .vFloat _ => 1
  | .vBool _ => 1
  | .vStr _ => 1
  | .vList l => lfuel l + 2

/-- Fuel sufficient for the list-loop on rendered elements. -/
def lfuel : List Value → Nat
  | [] => 2
  | v :: vs => max (vfuel v) (lfuel vs) + 1

end

/-! # Theorems

Machine-step equations first: every lemma's left-hand side keeps its `St`
(or list) argument in constructor form, so rewriting fires only on
materialised states. -/


/-! Machine-step equations for concrete evaluation.  Every lemma's
left-hand side requires its `St` (and token/list) arguments in
constructor form, so rewriting only happens on materialised states and
never inside unreached continuations. -/

theorem bind_ok {α β : Type} (a : α) (s : St) (k : α → St → PRes β) :
    (PRes.ok a s).bind k = k a s := rfl

theorem bind_thrown {α β : Type} (e : PError) (s : St) (k : α → St → PRes β) :
    (PRes.thrown e s).bind k = .thrown e s := rfl

theorem bind_badopt {α β : Type} (k : α → St → PRes β) :
    (PRes.badopt : PRes α).bind k = .badopt := rfl

theorem bind_fuelOut {α β : Type} (k : α → St → PRes β) :
    (PRes.fuelOut : PRes α).bind k = .fuelOut := rfl

theorem popTok_cons (p c : Tok) (b : Bool) (t : Tok) (b' : Bool)
    (r : List (Tok × Bool)) (tx : List Char) (d : Data) :
    popTok ⟨p, c, b, (t, b') :: r, tx, d⟩ = ⟨c, t, b', r, tx, d⟩ := rfl

theorem popTok_nil (p c : Tok) (b : Bool) (tx : List Char) (d : Data) :
    popTok ⟨p, c, b, [], tx, d⟩ = ⟨c, ⟨.tEnd, [], tx.length⟩, true, [], tx, d⟩ := rfl

theorem padvance_eq (p c : Tok) (b : Bool) (r : List (Tok × Bool))
    (tx : List Char) (d : Data) :
    padvance ⟨p, c, b, r, tx, d⟩ =
      (let s' := popTok ⟨p, c, b, r, tx, d⟩
      if s'.cur.type = .tUnterminated then
        .thrown (mk_error s' s'.cur .unterminatedString) s'
      else if s'.cur.type = .tInvalidChar then
        .thrown (mk_error s' s'.cur .unexpectedCharacter) s'
      else .ok () s') := rfl

theorem pconsume_eq (ty : TokType) (k : EKind) (p : Tok) (cty : TokType)
    (ctx : List Char) (cpos : Nat) (b : Bool) (r : List (Tok × Bool))
    (tx : List Char) (d : Data) :
    pconsume ty k ⟨p, ⟨cty, ctx, cpos⟩, b, r, tx, d⟩ =
      (if cty = ty then padvance ⟨p, ⟨cty, ctx, cpos⟩, b, r, tx, d⟩
      else .thrown (mk_error ⟨p, ⟨cty, ctx, cpos⟩, b, r, tx, d⟩ p k)
        ⟨p, ⟨cty, ctx, cpos⟩, b, r, tx, d⟩) := rfl

theorem pmatch_eq (ty : TokType) (p : Tok) (cty : TokType)
    (ctx : List Char) (cpos : Nat) (b : Bool) (r : List (Tok × Bool))
    (tx : List Char) (d : Data) :
    pmatch ty ⟨p, ⟨cty, ctx, cpos⟩, b, r, tx, d⟩ =
      (if cty ≠ ty then .ok false ⟨p, ⟨cty, ctx, cpos⟩, b, r, tx, d⟩
      else (padvance ⟨p, ⟨cty, ctx, cpos⟩, b, r, tx, d⟩).bind fun _ s' => .ok true s') := rfl

theorem mk_error_eq (ppty : TokType) (pptx : List Char) (pppos : Nat) (c : Tok)
    (b : Bool) (r : List (Tok × Bool)) (tx : List Char) (d : Data)
    (tty : TokType) (ttx : List Char) (tpos : Nat) (k : EKind) :
    mk_error ⟨⟨ppty, pptx, pppos⟩, c, b, r, tx, d⟩ ⟨tty, ttx, tpos⟩ k =
      { kind := k, line := (position_of tx tpos).1, col := (position_of tx tpos).2,
        prev := pptx,
        cur := if tty = .tEnd then "end".toList else ttx } := rfl

theorem position_of_eq (text : List Char) (pos : Nat) :
    position_of text pos =
      ((text.take pos).count '\n' + 1,
       (pos + (18446744073709551616 - ((find_last_nl (text.take pos)).getD npos))) %
         18446744073709551616) := rfl

theorem parse_valueF_succ (f : Nat) (p : Tok) (cty : TokType) (ctx : List Char)
    (cpos : Nat) (b : Bool) (r : List (Tok × Bool)) (tx : List Char) (d : Data) :
    parse_valueF (f + 1) ⟨p, ⟨cty, ctx, cpos⟩, b, r, tx, d⟩ =
      ((pmatch .tInt ⟨p, ⟨cty, ctx, cpos⟩, b, r, tx, d⟩).bind fun mInt s₁ =>
      if mInt then
        match to_number_int s₁.prev.text with
        | some n => .ok (some (.vInt n)) s₁
        | none => .badopt
      else
        (pmatch .tFloat s₁).bind fun mFloat s₂ =>
        if mFloat then
          match to_number_float s₂.prev.text with
          | some lit => .ok (some (.vFloat lit)) s₂
          | none => .badopt
        else
          (pmatch .tString s₂).bind fun mStr s₃ =>
          if mStr then
            .ok (some (.vStr ((s₃.prev.text.drop 1).dropLast))) s₃
          else
            (pmatch .tTrue s₃).bind fun mT s₄ =>
            if mT then .ok (some (.vBool (s₄.prev.type = .tTrue))) s₄
            else
              (pmatch .tFalse s₄).bind fun mF s₅ =>
              if mF then .ok (some (.vBool (s₅.prev.type = .tTrue))) s₅
              else
                (pmatch .tLBracket s₅).bind fun mL s₆ =>
                if mL then
                  (parse_listF f s₆).bind fun v s₇ => .ok (some v) s₇
                else .ok none s₆) := rfl

theorem parse_listF_succ (f : Nat) (p c : Tok) (b : Bool)
    (r : List (Tok × Bool)) (tx : List Char) (d : Data) :
    parse_listF (f + 1) ⟨p, c, b, r, tx, d⟩ =
      ((parse_list_loopF f [] ⟨p, c, b, r, tx, d⟩).bind fun vs s' =>
      (pconsume .tRBracket .expectedComma s').bind fun _ s'' =>
      .ok (.vList vs) s'') := rfl

theorem parse_list_loopF_succ (f : Nat) (acc : List Value) (p c : Tok) (b : Bool)
    (r : List (Tok × Bool)) (tx : List Char) (d : Data) :
    parse_list_loopF (f + 1) acc ⟨p, c, b, r, tx, d⟩ =
      ((parse_valueF f ⟨p, c, b, r, tx, d⟩).bind fun v? s₁ =>
      let acc' := match v? with
        | some v => acc ++ [v]
        | none => acc
      (pmatch .tComma s₁).bind fun m s₂ =>
      if m then parse_list_loopF f acc' s₂ else .ok acc' s₂) := rfl

theorem entryF_eq (f : Nat) (p : Tok) (cty : TokType) (ctx : List Char)
    (cpos : Nat) (b : Bool) (r : List (Tok × Bool)) (tx : List Char) (d : Data) :
    entryF f ⟨p, ⟨cty, ctx, cpos⟩, b, r, tx, d⟩ =
      ((pmatch .tNewline ⟨p, ⟨cty, ctx, cpos⟩, b, r, tx, d⟩).bind fun m s₁ =>
      if m then .ok () s₁
      else
        (pconsume .tIdent .noIdent s₁).bind fun _ s₂ =>
        let identTok := s₂.prev
        (pconsume .tEqual .noEqualAfterIdent s₂).bind fun _ s₃ =>
        let s₄ := { s₃ with data :=
          (if (find? s₃.data identTok.text).isSome then s₃.data
           else insertD s₃.data identTok.text defaultValue) }
        (parse_valueF f s₄).bind fun v? s₅ =>
        match v? with
        | some v =>
            let s₆ := { s₅ with data := insertD s₅.data identTok.text v }
            (pconsume .tNewline .noNewlineAfterValue s₆).bind fun _ s₇ => .ok () s₇
        | none => .thrown (mk_error s₅ s₅.prev .noValueAfterEqual) s₅) := rfl

theorem recoverF_succ (f : Nat) (p : Tok) (cty : TokType) (ctx : List Char)
    (cpos : Nat) (b : Bool) (r : List (Tok × Bool)) (tx : List Char) (d : Data) :
    recoverF (f + 1) ⟨p, ⟨cty, ctx, cpos⟩, b, r, tx, d⟩ =
      (if cty ≠ .tEnd && cty ≠ .tNewline then
        (padvance ⟨p, ⟨cty, ctx, cpos⟩, b, r, tx, d⟩).bind fun _ s' => recoverF f s'
      else padvance ⟨p, ⟨cty, ctx, cpos⟩, b, r, tx, d⟩) := rfl

theorem parse_loopF_succ (f : Nat) (errs : List PError) (p c : Tok) (b : Bool)
    (r : List (Tok × Bool)) (tx : List Char) (d : Data) :
    parse_loopF (f + 1) errs ⟨p, c, b, r, tx, d⟩ =
      (if b then .done errs ⟨p, c, b, r, tx, d⟩
      else
        match entryF (2 * r.length + 8) ⟨p, c, b, r, tx, d⟩ with
        | .ok _ s' => parse_loopF f errs s'
        | .thrown e s' =>
            match recoverF (s'.rest.length + 2) s' with
            | .ok _ s'' => parse_loopF f (errs ++ [e]) s''
            | .thrown e₂ s₂ => .escaped e₂ s₂
            | .badopt => .badopt
            | .fuelOut => .fuelOut
        | .badopt => .badopt
        | .fuelOut => .fuelOut) := rfl

theorem lexAllF_succ (f pos : Nat) (c : Char) (cs : List Char) :
    lexAllF (f + 1) pos (c :: cs) =
      (match lex1 pos (c :: cs) with
      | none => .diverge
      | some (t, pos', rem') =>
        let b := rem'.isEmpty
        if t.type = .tEnd then .toks [(t, b)]
        else
          match lexAllF f pos' rem' with
          | .toks l => .toks ((t, b) :: l)
          | r => r) := rfl

theorem lexAllF_succ_nil (f pos : Nat) :
    lexAllF (f + 1) pos [] = .toks [(⟨.tEnd, [], pos⟩, true)] := rfl

theorem lex1_cons (pos : Nat) (c : Char) (cs : List Char) :
    lex1 pos (c :: cs) =
      (match skip (c :: cs) with
      | none => none
      | some rem' =>
        let start := pos + ((c :: cs).length - rem'.length)
        match rem' with
        | [] => some (⟨.tEnd, [], start⟩, start, [])
        | c' :: cs' =>
          if c' = '=' then some (⟨.tEqual, [c'], start⟩, start + 1, cs')
          else if c' = '\n' then some (⟨.tNewline, [c'], start⟩, start + 1, cs')
          else if c' = '[' then some (⟨.tLBracket, [c'], start⟩, start + 1, cs')
          else if c' = ']' then some (⟨.tRBracket, [c'], start⟩, start + 1, cs')
          else if c' = ',' then some (⟨.tComma, [c'], start⟩, start + 1, cs')
          else if c' = '"' then
            match scan_string_body cs' with
            | none =>
                some (⟨.tUnterminated, c' :: cs', start⟩, start + 1 + cs'.length, [])
            | some (body, r) =>
                some (⟨.tString, c' :: body, start⟩, start + 1 + body.length, r)
          else if is_digit c' then
            let (d1, r1) := scan_digits cs'
            match r1 with
            | '.' :: r2 =>
                let (d2, r3) := scan_digits r2
                some (⟨.tFloat, c' :: d1 ++ '.' :: d2, start⟩,
                      start + 1 + d1.length + 1 + d2.length, r3)
            | _ => some (⟨.tInt, c' :: d1, start⟩, start + 1 + d1.length, r1)
          else if is_ident_char c' then
            let (w, r) := scan_ident cs'
            let word := c' :: w
            let ty : TokType :=
              if word = "true".toList then .tTrue
              else if word = "false".toList then .tFalse
              else .tIdent
            some (⟨ty, word, start⟩, start + 1 + w.length, r)
          else some (⟨.tInvalidChar, [c'], start⟩, start + 1, cs')) := rfl

/-! ## Generic facts used across claims -/

theorem find_last_nl_lt {cs : List Char} {q : Nat} (h : find_last_nl cs = some q) :
    q < cs.length := by
  induction cs generalizing q with
  | nil => simp [find_last_nl] at h
  | cons c cs ih =>
      simp only [find_last_nl] at h
      cases hq : find_last_nl cs with
      | some i =>
          rw [hq] at h
          have hqi : i + 1 = q := Option.some.inj h
          have h2 := ih hq
          simp only [List.length_cons]
          omega
      | none =>
          rw [hq] at h
          by_cases hc : c = '\n' <;> simp [hc] at h
          simp only [List.length_cons]
          omega

/-! ## C9: position_of -/

/-- C9 (confirmed): for a token at byte offset `pos` (with `pos + 1` in
`size_t` range), `position_of` returns line = 1 + number of newlines at
offsets strictly before `pos`, and column = `pos` minus the offset of the
last newline before `pos`, or `pos + 1` when no newline precedes it. -/
theorem C9_position_of (text : List Char) (pos : Nat)
    (h : pos + 1 < 18446744073709551616) :
    (position_of text pos).1 = (text.take pos).count '\n' + 1 ∧
    (position_of text pos).2 =
      (match find_last_nl (text.take pos) with
       | some q => pos - q
       | none => pos + 1) := by
  refine ⟨rfl, ?_⟩
  unfold position_of npos
  cases hq : find_last_nl (text.take pos) with
  | some q =>
      have hlt : q < (text.take pos).length := find_last_nl_lt hq
      have hle : (text.take pos).length ≤ pos := by
        simp [List.length_take]
      simp only [hq, Option.getD_some]
      have e1 : pos + (18446744073709551616 - q) =
          18446744073709551616 + (pos - q) := by omega
      rw [e1, Nat.add_mod_left]
      exact Nat.mod_eq_of_lt (by omega)
  | none =>
      simp only [hq, Option.getD_none]
      have e1 : 18446744073709551616 - 18446744073709551615 = 1 := by norm_num
      rw [e1]
      exact Nat.mod_eq_of_lt h

/-- Witness for C9 at a concrete offset on the second line. -/
theorem C9_position_of_witness :
    (4 + 1 < 18446744073709551616) ∧
    ((position_of "ab\ncd".toList 4).1 = ("ab\ncd".toList.take 4).count '\n' + 1 ∧
    (position_of "ab\ncd".toList 4).2 =
      (match find_last_nl ("ab\ncd".toList.take 4) with
       | some q => 4 - q
       | none => 4 + 1)) :=
  ⟨by norm_num, C9_position_of "ab\ncd".toList 4 (by norm_num)⟩

/-! ## C4: lexer termination and in-buffer reads -/

/-- C4 (code bug): on input ending inside a `#`-comment with no closing
newline, `Lexer::skip`'s comment loop reads past the end of the buffer and
never returns (modelled as `diverge`), contradicting the guarantee that
`lex()` always advances or returns `End` reading only in-buffer bytes.
With the newline present the lexer terminates normally. -/
theorem C4_comment_at_eof_diverges :
    tokenize "#x".toList = .diverge ∧
    scan_comment "x".toList = none ∧
    tokenize "#x\n".toList =
      .toks [(⟨.tNewline, ['\n'], 2⟩, true), (⟨.tEnd, [], 3⟩, true)] := by
  refine ⟨rfl, rfl, rfl⟩

/-! ## C3: errors escaping Parser::parse -/

/-- C3 (code bug): a lexical error at the very first token is raised by
the `advance()` *outside* the try block and escapes `parse` as an uncaught
exception, and an error raised while discarding tokens during recovery
escapes as well — instead of being appended to the error list. -/
theorem C3_error_escapes_parse :
    parse "\"x".toList =
      .escaped { kind := .unterminatedString, line := 1, col := 1,
                 prev := [], cur := ['"', 'x'] } ∧
    parse "a = $ \"xy".toList =
      .escaped { kind := .unterminatedString, line := 1, col := 7,
                 prev := ['$'], cur := ['"', 'x', 'y'] } := by
  constructor
  · rfl
  ·
    have htok : tokenize ['a', ' ', '=', ' ', '$', ' ', '"', 'x', 'y'] = LexRes.toks [({ type := Conf.TokType.tIdent, text := ['a'], pos := 0 }, false), ({ type := Conf.TokType.tEqual, text := ['='], pos := 2 }, false), ({ type := Conf.TokType.tInvalidChar, text := ['$'], pos := 4 }, false), ({ type := Conf.TokType.tUnterminated, text := ['\"', 'x', 'y'], pos := 6 }, true), ({ type := Conf.TokType.tEnd, text := [], pos := 9 }, true)] := rfl
    have h0 : padvance (initSt ['a', ' ', '=', ' ', '$', ' ', '"', 'x', 'y'] [({ type := Conf.TokType.tIdent, text := ['a'], pos := 0 }, false), ({ type := Conf.TokType.tEqual, text := ['='], pos := 2 }, false), ({ type := Conf.TokType.tInvalidChar, text := ['$'], pos := 4 }, false), ({ type := Conf.TokType.tUnterminated, text := ['\"', 'x', 'y'], pos := 6 }, true), ({ type := Conf.TokType.tEnd, text := [], pos := 9 }, true)]) = PRes.ok () { prev := { type := Conf.TokType.tIdent, text := [], pos := 0 }, cur := { type := Conf.TokType.tIdent, text := ['a'], pos := 0 }, curAtEnd := false, rest := [({ type := Conf.TokType.tEqual, text := ['='], pos := 2 }, false), ({ type := Conf.TokType.tInvalidChar, text := ['$'], pos := 4 }, false), ({ type := Conf.TokType.tUnterminated, text := ['\"', 'x', 'y'], pos := 6 }, true), ({ type := Conf.TokType.tEnd, text := [], pos := 9 }, true)], text := ['a', ' ', '=', ' ', '$', ' ', '\"', 'x', 'y'], data := [] } := by
      rfl
    have h1 : parse_loopF 6 [] { prev := { type := Conf.TokType.tIdent, text := [], pos := 0 }, cur := { type := Conf.TokType.tIdent, text := ['a'], pos := 0 }, curAtEnd := false, rest := [({ type := Conf.TokType.tEqual, text := ['='], pos := 2 }, false), ({ type := Conf.TokType.tInvalidChar, text := ['$'], pos := 4 }, false), ({ type := Conf.TokType.tUnterminated, text := ['\"', 'x', 'y'], pos := 6 }, true), ({ type := Conf.TokType.tEnd, text := [], pos := 9 }, true)], text := ['a', ' ', '=', ' ', '$', ' ', '\"', 'x', 'y'], data := [] } = (Conf.TopRes.escaped { kind := Conf.EKind.unterminatedString, line := 1, col := 7, prev := ['$'], cur := ['\"', 'x', 'y'] } { prev := { type := Conf.TokType.tInvalidChar, text := ['$'], pos := 4 }, cur := { type := Conf.TokType.tUnterminated, text := ['\"', 'x', 'y'], pos := 6 }, curAtEnd := true, rest := [({ type := Conf.TokType.tEnd, text := [], pos := 9 }, true)], text := ['a', ' ', '=', ' ', '$', ' ', '\"', 'x', 'y'], data := [] }) := rfl
    simp [parse, parse_accum, parse_toks, htok, h0, h1]

/-! ## C7: leading minus -/

/-- C7 counterexample: the lexer does *not* classify a leading `-` as
`InvalidChar` — `is_ident_char` accepts `-`, so `-5` lexes as a single
`Ident` token, and the parser reports `NoValueAfterEqual` (never
`UnexpectedCharacter`) on `a = -5`. -/
theorem C7_leading_minus_counterexample :
    lex1 0 "-5\n".toList = some (⟨.tIdent, ['-', '5'], 0⟩, 2, ['\n']) ∧
    parse "a = -5\n".toList =
      .errs [{ kind := .noValueAfterEqual, line := 1, col := 3,
               prev := ['='], cur := ['='] }] := by
  constructor
  · rfl
  ·
    have htok : tokenize ['a', ' ', '=', ' ', '-', '5', '\n'] = LexRes.toks [({ type := Conf.TokType.tIdent, text := ['a'], pos := 0 }, false), ({ type := Conf.TokType.tEqual, text := ['='], pos := 2 }, false), ({ type := Conf.TokType.tIdent, text := ['-', '5'], pos := 4 }, false), ({ type := Conf.TokType.tNewline, text := ['\n'], pos := 6 }, true), ({ type := Conf.TokType.tEnd, text := [], pos := 7 }, true)] := rfl
    have h0 : padvance (initSt ['a', ' ', '=', ' ', '-', '5', '\n'] [({ type := Conf.TokType.tIdent, text := ['a'], pos := 0 }, false), ({ type := Conf.TokType.tEqual, text := ['='], pos := 2 }, false), ({ type := Conf.TokType.tIdent, text := ['-', '5'], pos := 4 }, false), ({ type := Conf.TokType.tNewline, text := ['\n'], pos := 6 }, true), ({ type := Conf.TokType.tEnd, text := [], pos := 7 }, true)]) = PRes.ok () { prev := { type := Conf.TokType.tIdent, text := [], pos := 0 }, cur := { type := Conf.TokType.tIdent, text := ['a'], pos := 0 }, curAtEnd := false, rest := [({ type := Conf.TokType.tEqual, text := ['='], pos := 2 }, false), ({ type := Conf.TokType.tIdent, text := ['-', '5'], pos := 4 }, false), ({ type := Conf.TokType.tNewline, text := ['\n'], pos := 6 }, true), ({ type := Conf.TokType.tEnd, text := [], pos := 7 }, true)], text := ['a', ' ', '=', ' ', '-', '5', '\n'], data := [] } := by
      rfl
    have h1 : parse_loopF 6 [] { prev := { type := Conf.TokType.tIdent, text := [], pos := 0 }, cur := { type := Conf.TokType.tIdent, text := ['a'], pos := 0 }, curAtEnd := false, rest := [({ type := Conf.TokType.tEqual, text := ['='], pos := 2 }, false), ({ type := Conf.TokType.tIdent, text := ['-', '5'], pos := 4 }, false), ({ type := Conf.TokType.tNewline, text := ['\n'], pos := 6 }, true), ({ type := Conf.TokType.tEnd, text := [], pos := 7 }, true)], text := ['a', ' ', '=', ' ', '-', '5', '\n'], data := [] } = parse_loopF 5 [{ kind := Conf.EKind.noValueAfterEqual, line := 1, col := 3, prev := ['='], cur := ['='] }] { prev := { type := Conf.TokType.tNewline, text := ['\n'], pos := 6 }, cur := { type := Conf.TokType.tEnd, text := [], pos := 7 }, curAtEnd := true, rest := [], text := ['a', ' ', '=', ' ', '-', '5', '\n'], data := [(['a'], Conf.Value.vInt 0)] } := rfl
    have h2 : parse_loopF 5 [{ kind := Conf.EKind.noValueAfterEqual, line := 1, col := 3, prev := ['='], cur := ['='] }] { prev := { type := Conf.TokType.tNewline, text := ['\n'], pos := 6 }, cur := { type := Conf.TokType.tEnd, text := [], pos := 7 }, curAtEnd := true, rest := [], text := ['a', ' ', '=', ' ', '-', '5', '\n'], data := [(['a'], Conf.Value.vInt 0)] } = (Conf.TopRes.done [{ kind := Conf.EKind.noValueAfterEqual, line := 1, col := 3, prev := ['='], cur := ['='] }] { prev := { type := Conf.TokType.tNewline, text := ['\n'], pos := 6 }, cur := { type := Conf.TokType.tEnd, text := [], pos := 7 }, curAtEnd := true, rest := [], text := ['a', ' ', '=', ' ', '-', '5', '\n'], data := [(['a'], Conf.Value.vInt 0)] }) := rfl
    simp [parse, parse_accum, parse_toks, htok, h0, h1, h2]

/-- C7 (corrected): a `-` at the start of a would-be numeric literal does
not begin a numeric token, but it is an identifier character, not an
`InvalidChar`: any `-`-led run lexes as one `Ident` token, and on
`a = -5` the parser reports `NoValueAfterEqual` against the `=` sign. -/
theorem C7_leading_minus :
    (∀ pos rest, ∃ w r, lex1 pos ('-' :: rest) =
        some (⟨.tIdent, '-' :: w, pos⟩, pos + 1 + w.length, r)) ∧
    is_digit '-' = false ∧
    parse "a = -5\n".toList =
      .errs [{ kind := .noValueAfterEqual, line := 1, col := 3,
               prev := ['='], cur := ['='] }] := by
  refine ⟨?_, rfl, ?_⟩
  · intro pos rest
    refine ⟨(scan_ident rest).1, (scan_ident rest).2, ?_⟩
    simp [lex1, skip, is_ident_char, is_alpha, is_digit]
  ·
    have htok : tokenize ['a', ' ', '=', ' ', '-', '5', '\n'] = LexRes.toks [({ type := Conf.TokType.tIdent, text := ['a'], pos := 0 }, false), ({ type := Conf.TokType.tEqual, text := ['='], pos := 2 }, false), ({ type := Conf.TokType.tIdent, text := ['-', '5'], pos := 4 }, false), ({ type := Conf.TokType.tNewline, text := ['\n'], pos := 6 }, true), ({ type := Conf.TokType.tEnd, text := [], pos := 7 }, true)] := rfl
    have h0 : padvance (initSt ['a', ' ', '=', ' ', '-', '5', '\n'] [({ type := Conf.TokType.tIdent, text := ['a'], pos := 0 }, false), ({ type := Conf.TokType.tEqual, text := ['='], pos := 2 }, false), ({ type := Conf.TokType.tIdent, text := ['-', '5'], pos := 4 }, false), ({ type := Conf.TokType.tNewline, text := ['\n'], pos := 6 }, true), ({ type := Conf.TokType.tEnd, text := [], pos := 7 }, true)]) = PRes.ok () { prev := { type := Conf.TokType.tIdent, text := [], pos := 0 }, cur := { type := Conf.TokType.tIdent, text := ['a'], pos := 0 }, curAtEnd := false, rest := [({ type := Conf.TokType.tEqual, text := ['='], pos := 2 }, false), ({ type := Conf.TokType.tIdent, text := ['-', '5'], pos := 4 }, false), ({ type := Conf.TokType.tNewline, text := ['\n'], pos := 6 }, true), ({ type := Conf.TokType.tEnd, text := [], pos := 7 }, true)], text := ['a', ' ', '=', ' ', '-', '5', '\n'], data := [] } := by
      rfl
    have h1 : parse_loopF 6 [] { prev := { type := Conf.TokType.tIdent, text := [], pos := 0 }, cur := { type := Conf.TokType.tIdent, text := ['a'], pos := 0 }, curAtEnd := false, rest := [({ type := Conf.TokType.tEqual, text := ['='], pos := 2 }, false), ({ type := Conf.TokType.tIdent, text := ['-', '5'], pos := 4 }, false), ({ type := Conf.TokType.tNewline, text := ['\n'], pos := 6 }, true), ({ type := Conf.TokType.tEnd, text := [], pos := 7 }, true)], text := ['a', ' ', '=', ' ', '-', '5', '\n'], data := [] } = parse_loopF 5 [{ kind := Conf.EKind.noValueAfterEqual, line := 1, col := 3, prev := ['='], cur := ['='] }] { prev := { type := Conf.TokType.tNewline, text := ['\n'], pos := 6 }, cur := { type := Conf.TokType.tEnd, text := [], pos := 7 }, curAtEnd := true, rest := [], text := ['a', ' ', '=', ' ', '-', '5', '\n'], data := [(['a'], Conf.Value.vInt 0)] } := rfl
    have h2 : parse_loopF 5 [{ kind := Conf.EKind.noValueAfterEqual, line := 1, col := 3, prev := ['='], cur := ['='] }] { prev := { type := Conf.TokType.tNewline, text := ['\n'], pos := 6 }, cur := { type := Conf.TokType.tEnd, text := [], pos := 7 }, curAtEnd := true, rest := [], text := ['a', ' ', '=', ' ', '-', '5', '\n'], data := [(['a'], Conf.Value.vInt 0)] } = (Conf.TopRes.done [{ kind := Conf.EKind.noValueAfterEqual, line := 1, col := 3, prev := ['='], cur := ['='] }] { prev := { type := Conf.TokType.tNewline, text := ['\n'], pos := 6 }, cur := { type := Conf.TokType.tEnd, text := [], pos := 7 }, curAtEnd := true, rest := [], text := ['a', ' ', '=', ' ', '-', '5', '\n'], data := [(['a'], Conf.Value.vInt 0)] }) := rfl
    simp [parse, parse_accum, parse_toks, htok, h0, h1, h2]

/-! ## C2: partial data on errors -/

/-- C2 counterexample: on `width =\nheight = 20\nflag =\n` the parser
does produce exactly two errors, but it returns `tl::unexpected(errors)`
(no `Data` at all), and the internally accumulated `Data` is not
`{height: 20}`: the two erroring lines left default-initialised `Int 0`
entries behind. -/
theorem C2_partial_data_counterexample :
    parse "width =\nheight = 20\nflag =\n".toList = .errs [{ kind := EKind.noValueAfterEqual, line := 1, col := 7, prev := ['='], cur := ['='] }, { kind := EKind.noValueAfterEqual, line := 3, col := 6, prev := ['='], cur := ['='] }] ∧
    parse_accum "width =\nheight = 20\nflag =\n".toList =
      some ([("flag".toList, Value.vInt 0), ("height".toList, Value.vInt 20), ("width".toList, Value.vInt 0)], [{ kind := EKind.noValueAfterEqual, line := 1, col := 7, prev := ['='], cur := ['='] }, { kind := EKind.noValueAfterEqual, line := 3, col := 6, prev := ['='], cur := ['='] }]) ∧
    [("flag".toList, Value.vInt 0), ("height".toList, Value.vInt 20), ("width".toList, Value.vInt 0)] ≠ [("height".toList, Value.vInt 20)] := by
  have htok : tokenize ['w', 'i', 'd', 't', 'h', ' ', '=', '\n', 'h', 'e', 'i', 'g', 'h', 't', ' ', '=', ' ', '2', '0', '\n', 'f', 'l', 'a', 'g', ' ', '=', '\n'] = LexRes.toks [({ type := Conf.TokType.tIdent, text := ['w', 'i', 'd', 't', 'h'], pos := 0 }, false), ({ type := Conf.TokType.tEqual, text := ['='], pos := 6 }, false), ({ type := Conf.TokType.tNewline, text := ['\n'], pos := 7 }, false), ({ type := Conf.TokType.tIdent, text := ['h', 'e', 'i', 'g', 'h', 't'], pos := 8 }, false), ({ type := Conf.TokType.tEqual, text := ['='], pos := 15 }, false), ({ type := Conf.TokType.tInt, text := ['2', '0'], pos := 17 }, false), ({ type := Conf.TokType.tNewline, text := ['\n'], pos := 19 }, false), ({ type := Conf.TokType.tIdent, text := ['f', 'l', 'a', 'g'], pos := 20 }, false), ({ type := Conf.TokType.tEqual, text := ['='], pos := 25 }, false), ({ type := Conf.TokType.tNewline, text := ['\n'], pos := 26 }, true), ({ type := Conf.TokType.tEnd, text := [], pos := 27 }, true)] := rfl
  have h0 : padvance (initSt ['w', 'i', 'd', 't', 'h', ' ', '=', '\n', 'h', 'e', 'i', 'g', 'h', 't', ' ', '=', ' ', '2', '0', '\n', 'f', 'l', 'a', 'g', ' ', '=', '\n'] [({ type := Conf.TokType.tIdent, text := ['w', 'i', 'd', 't', 'h'], pos := 0 }, false), ({ type := Conf.TokType.tEqual, text := ['='], pos := 6 }, false), ({ type := Conf.TokType.tNewline, text := ['\n'], pos := 7 }, false), ({ type := Conf.TokType.tIdent, text := ['h', 'e', 'i', 'g', 'h', 't'], pos := 8 }, false), ({ type := Conf.TokType.tEqual, text := ['='], pos := 15 }, false), ({ type := Conf.TokType.tInt, text := ['2', '0'], pos := 17 }, false), ({ type := Conf.TokType.tNewline, text := ['\n'], pos := 19 }, false), ({ type := Conf.TokType.tIdent, text := ['f', 'l', 'a', 'g'], pos := 20 }, false), ({ type := Conf.TokType.tEqual, text := ['='], pos := 25 }, false), ({ type := Conf.TokType.tNewline, text := ['\n'], pos := 26 }, true), ({ type := Conf.TokType.tEnd, text := [], pos := 27 }, true)]) = PRes.ok () { prev := { type := Conf.TokType.tIdent, text := [], pos := 0 }, cur := { type := Conf.TokType.tIdent, text := ['w', 'i', 'd', 't', 'h'], pos := 0 }, curAtEnd := false, rest := [({ type := Conf.TokType.tEqual, text := ['='], pos := 6 }, false), ({ type := Conf.TokType.tNewline, text := ['\n'], pos := 7 }, false), ({ type := Conf.TokType.tIdent, text := ['h', 'e', 'i', 'g', 'h', 't'], pos := 8 }, false), ({ type := Conf.TokType.tEqual, text := ['='], pos := 15 }, false), ({ type := Conf.TokType.tInt, text := ['2', '0'], pos := 17 }, false), ({ type := Conf.TokType.tNewline, text := ['\n'], pos := 19 }, false), ({ type := Conf.TokType.tIdent, text := ['f', 'l', 'a', 'g'], pos := 20 }, false), ({ type := Conf.TokType.tEqual, text := ['='], pos := 25 }, false), ({ type := Conf.TokType.tNewline, text := ['\n'], pos := 26 }, true), ({ type := Conf.TokType.tEnd, text := [], pos := 27 }, true)], text := ['w', 'i', 'd', 't', 'h', ' ', '=', '\n', 'h', 'e', 'i', 'g', 'h', 't', ' ', '=', ' ', '2', '0', '\n', 'f', 'l', 'a', 'g', ' ', '=', '\n'], data := [] } := by
    rfl
  have h1 : parse_loopF 12 [] { prev := { type := Conf.TokType.tIdent, text := [], pos := 0 }, cur := { type := Conf.TokType.tIdent, text := ['w', 'i', 'd', 't', 'h'], pos := 0 }, curAtEnd := false, rest := [({ type := Conf.TokType.tEqual, text := ['='], pos := 6 }, false), ({ type := Conf.TokType.tNewline, text := ['\n'], pos := 7 }, false), ({ type := Conf.TokType.tIdent, text := ['h', 'e', 'i', 'g', 'h', 't'], pos := 8 }, false), ({ type := Conf.TokType.tEqual, text := ['='], pos := 15 }, false), ({ type := Conf.TokType.tInt, text := ['2', '0'], pos := 17 }, false), ({ type := Conf.TokType.tNewline, text := ['\n'], pos := 19 }, false), ({ type := Conf.TokType.tIdent, text := ['f', 'l', 'a', 'g'], pos := 20 }, false), ({ type := Conf.TokType.tEqual, text := ['='], pos := 25 }, false), ({ type := Conf.TokType.tNewline, text := ['\n'], pos := 26 }, true), ({ type := Conf.TokType.tEnd, text := [], pos := 27 }, true)], text := ['w', 'i', 'd', 't', 'h', ' ', '=', '\n', 'h', 'e', 'i', 'g', 'h', 't', ' ', '=', ' ', '2', '0', '\n', 'f', 'l', 'a', 'g', ' ', '=', '\n'], data := [] } = parse_loopF 11 [{ kind := Conf.EKind.noValueAfterEqual, line := 1, col := 7, prev := ['='], cur := ['='] }] { prev := { type := Conf.TokType.tNewline, text := ['\n'], pos := 7 }, cur := { type := Conf.TokType.tIdent, text := ['h', 'e', 'i', 'g', 'h', 't'], pos := 8 }, curAtEnd := false, rest := [({ type := Conf.TokType.tEqual, text := ['='], pos := 15 }, false), ({ type := Conf.TokType.tInt, text := ['2', '0'], pos := 17 }, false), ({ type := Conf.TokType.tNewline, text := ['\n'], pos := 19 }, false), ({ type := Conf.TokType.tIdent, text := ['f', 'l', 'a', 'g'], pos := 20 }, false), ({ type := Conf.TokType.tEqual, text := ['='], pos := 25 }, false), ({ type := Conf.TokType.tNewline, text := ['\n'], pos := 26 }, true), ({ type := Conf.TokType.tEnd, text := [], pos := 27 }, true)], text := ['w', 'i', 'd', 't', 'h', ' ', '=', '\n', 'h', 'e', 'i', 'g', 'h', 't', ' ', '=', ' ', '2', '0', '\n', 'f', 'l', 'a', 'g', ' ', '=', '\n'], data := [(['w', 'i', 'd', 't', 'h'], Conf.Value.vInt 0)] } := rfl
  have h2 : parse_loopF 11 [{ kind := Conf.EKind.noValueAfterEqual, line := 1, col := 7, prev := ['='], cur := ['='] }] { prev := { type := Conf.TokType.tNewline, text := ['\n'], pos := 7 }, cur := { type := Conf.TokType.tIdent, text := ['h', 'e', 'i', 'g', 'h', 't'], pos := 8 }, curAtEnd := false, rest := [({ type := Conf.TokType.tEqual, text := ['='], pos := 15 }, false), ({ type := Conf.TokType.tInt, text := ['2', '0'], pos := 17 }, false), ({ type := Conf.TokType.tNewline, text := ['\n'], pos := 19 }, false), ({ type := Conf.TokType.tIdent, text := ['f', 'l', 'a', 'g'], pos := 20 }, false), ({ type := Conf.TokType.tEqual, text := ['='], pos := 25 }, false), ({ type := Conf.TokType.tNewline, text := ['\n'], pos := 26 }, true), ({ type := Conf.TokType.tEnd, text := [], pos := 27 }, true)], text := ['w', 'i', 'd', 't', 'h', ' ', '=', '\n', 'h', 'e', 'i', 'g', 'h', 't', ' ', '=', ' ', '2', '0', '\n', 'f', 'l', 'a', 'g', ' ', '=', '\n'], data := [(['w', 'i', 'd', 't', 'h'], Conf.Value.vInt 0)] } = parse_loopF 10 [{ kind := Conf.EKind.noValueAfterEqual, line := 1, col := 7, prev := ['='], cur := ['='] }] { prev := { type := Conf.TokType.tNewline, text := ['\n'], pos := 19 }, cur := { type := Conf.TokType.tIdent, text := ['f', 'l', 'a', 'g'], pos := 20 }, curAtEnd := false, rest := [({ type := Conf.TokType.tEqual, text := ['='], pos := 25 }, false), ({ type := Conf.TokType.tNewline, text := ['\n'], pos := 26 }, true), ({ type := Conf.TokType.tEnd, text := [], pos := 27 }, true)], text := ['w', 'i', 'd', 't', 'h', ' ', '=', '\n', 'h', 'e', 'i', 'g', 'h', 't', ' ', '=', ' ', '2', '0', '\n', 'f', 'l', 'a', 'g', ' ', '=', '\n'], data := [(['h', 'e', 'i', 'g', 'h', 't'], Conf.Value.vInt 20), (['w', 'i', 'd', 't', 'h'], Conf.Value.vInt 0)] } := rfl
  have h3 : parse_loopF 10 [{ kind := Conf.EKind.noValueAfterEqual, line := 1, col := 7, prev := ['='], cur := ['='] }] { prev := { type := Conf.TokType.tNewline, text := ['\n'], pos := 19 }, cur := { type := Conf.TokType.tIdent, text := ['f', 'l', 'a', 'g'], pos := 20 }, curAtEnd := false, rest := [({ type := Conf.TokType.tEqual, text := ['='], pos := 25 }, false), ({ type := Conf.TokType.tNewline, text := ['\n'], pos := 26 }, true), ({ type := Conf.TokType.tEnd, text := [], pos := 27 }, true)], text := ['w', 'i', 'd', 't', 'h', ' ', '=', '\n', 'h', 'e', 'i', 'g', 'h', 't', ' ', '=', ' ', '2', '0', '\n', 'f', 'l', 'a', 'g', ' ', '=', '\n'], data := [(['h', 'e', 'i', 'g', 'h', 't'], Conf.Value.vInt 20), (['w', 'i', 'd', 't', 'h'], Conf.Value.vInt 0)] } = parse_loopF 9 [{ kind := Conf.EKind.noValueAfterEqual, line := 1, col := 7, prev := ['='], cur := ['='] }, { kind := Conf.EKind.noValueAfterEqual, line := 3, col := 6, prev := ['='], cur := ['='] }] { prev := { type := Conf.TokType.tNewline, text := ['\n'], pos := 26 }, cur := { type := Conf.TokType.tEnd, text := [], pos := 27 }, curAtEnd := true, rest := [], text := ['w', 'i', 'd', 't', 'h', ' ', '=', '\n', 'h', 'e', 'i', 'g', 'h', 't', ' ', '=', ' ', '2', '0', '\n', 'f', 'l', 'a', 'g', ' ', '=', '\n'], data := [(['f', 'l', 'a', 'g'], Conf.Value.vInt 0), (['h', 'e', 'i', 'g', 'h', 't'], Conf.Value.vInt 20), (['w', 'i', 'd', 't', 'h'], Conf.Value.vInt 0)] } := rfl
  have h4 : parse_loopF 9 [{ kind := Conf.EKind.noValueAfterEqual, line := 1, col := 7, prev := ['='], cur := ['='] }, { kind := Conf.EKind.noValueAfterEqual, line := 3, col := 6, prev := ['='], cur := ['='] }] { prev := { type := Conf.TokType.tNewline, text := ['\n'], pos := 26 }, cur := { type := Conf.TokType.tEnd, text := [], pos := 27 }, curAtEnd := true, rest := [], text := ['w', 'i', 'd', 't', 'h', ' ', '=', '\n', 'h', 'e', 'i', 'g', 'h', 't', ' ', '=', ' ', '2', '0', '\n', 'f', 'l', 'a', 'g', ' ', '=', '\n'], data := [(['f', 'l', 'a', 'g'], Conf.Value.vInt 0), (['h', 'e', 'i', 'g', 'h', 't'], Conf.Value.vInt 20), (['w', 'i', 'd', 't', 'h'], Conf.Value.vInt 0)] } = (Conf.TopRes.done [{ kind := Conf.EKind.noValueAfterEqual, line := 1, col := 7, prev := ['='], cur := ['='] }, { kind := Conf.EKind.noValueAfterEqual, line := 3, col := 6, prev := ['='], cur := ['='] }] { prev := { type := Conf.TokType.tNewline, text := ['\n'], pos := 26 }, cur := { type := Conf.TokType.tEnd, text := [], pos := 27 }, curAtEnd := true, rest := [], text := ['w', 'i', 'd', 't', 'h', ' ', '=', '\n', 'h', 'e', 'i', 'g', 'h', 't', ' ', '=', ' ', '2', '0', '\n', 'f', 'l', 'a', 'g', ' ', '=', '\n'], data := [(['f', 'l', 'a', 'g'], Conf.Value.vInt 0), (['h', 'e', 'i', 'g', 'h', 't'], Conf.Value.vInt 20), (['w', 'i', 'd', 't', 'h'], Conf.Value.vInt 0)] }) := rfl
  refine ⟨?_, ?_, by decide⟩ <;>
  simp [parse, parse_accum, parse_toks, htok, h0, h1, h2, h3, h4]

/-- C2 (corrected): `parse` accumulates entries and errors, but when the
error list is non-empty it returns only the error list, discarding the
accumulated `Data`; a `Data` is returned exactly when the error list is
empty.  Moreover each erroring `ident =` line has already default-inserted
`Int 0` for its key, so the accumulated `Data` of the example is
`{width: 0, height: 20, flag: 0}`, not `{height: 20}`, alongside
exactly two errors (lines 1 and 3). -/
theorem C2_partial_data :
    (∀ text d, parse text = .ok d → parse_accum text = some (d, [])) ∧
    parse "width =\nheight = 20\nflag =\n".toList = .errs [{ kind := EKind.noValueAfterEqual, line := 1, col := 7, prev := ['='], cur := ['='] }, { kind := EKind.noValueAfterEqual, line := 3, col := 6, prev := ['='], cur := ['='] }] ∧
    parse_accum "width =\nheight = 20\nflag =\n".toList =
      some ([("flag".toList, Value.vInt 0), ("height".toList, Value.vInt 20), ("width".toList, Value.vInt 0)], [{ kind := EKind.noValueAfterEqual, line := 1, col := 7, prev := ['='], cur := ['='] }, { kind := EKind.noValueAfterEqual, line := 3, col := 6, prev := ['='], cur := ['='] }]) ∧
    find? [("flag".toList, Value.vInt 0), ("height".toList, Value.vInt 20), ("width".toList, Value.vInt 0)] "height".toList = some (.vInt 20) ∧
    find? [("flag".toList, Value.vInt 0), ("height".toList, Value.vInt 20), ("width".toList, Value.vInt 0)] "width".toList = some (.vInt 0) ∧
    find? [("flag".toList, Value.vInt 0), ("height".toList, Value.vInt 20), ("width".toList, Value.vInt 0)] "flag".toList = some (.vInt 0) := by
  refine ⟨?_, ?_⟩
  · intro text d hok
    unfold parse at hok
    cases htk : tokenize text with
    | diverge => rw [htk] at hok; exact absurd hok (by simp)
    | fuelOut => rw [htk] at hok; exact absurd hok (by simp)
    | toks ts =>
        rw [htk] at hok
        simp only [] at hok
        cases hpt : parse_toks text ts with
        | done errs s =>
            rw [hpt] at hok
            simp only [] at hok
            by_cases he : errs.isEmpty
            · rw [if_pos he] at hok
              have hd : d = s.data := (ParseOut.ok.inj hok).symm
              have he' : errs = [] := by simpa [List.isEmpty_iff] using he
              subst hd; subst he'
              simp [parse_accum, htk, hpt]
            · rw [if_neg he] at hok; exact absurd hok (by simp)
        | escaped e s => rw [hpt] at hok; exact absurd hok (by simp)
        | badopt => rw [hpt] at hok; exact absurd hok (by simp)
        | fuelOut => rw [hpt] at hok; exact absurd hok (by simp)
  ·
    have htok : tokenize ['w', 'i', 'd', 't', 'h', ' ', '=', '\n', 'h', 'e', 'i', 'g', 'h', 't', ' ', '=', ' ', '2', '0', '\n', 'f', 'l', 'a', 'g', ' ', '=', '\n'] = LexRes.toks [({ type := Conf.TokType.tIdent, text := ['w', 'i', 'd', 't', 'h'], pos := 0 }, false), ({ type := Conf.TokType.tEqual, text := ['='], pos := 6 }, false), ({ type := Conf.TokType.tNewline, text := ['\n'], pos := 7 }, false), ({ type := Conf.TokType.tIdent, text := ['h', 'e', 'i', 'g', 'h', 't'], pos := 8 }, false), ({ type := Conf.TokType.tEqual, text := ['='], pos := 15 }, false), ({ type := Conf.TokType.tInt, text := ['2', '0'], pos := 17 }, false), ({ type := Conf.TokType.tNewline, text := ['\n'], pos := 19 }, false), ({ type := Conf.TokType.tIdent, text := ['f', 'l', 'a', 'g'], pos := 20 }, false), ({ type := Conf.TokType.tEqual, text := ['='], pos := 25 }, false), ({ type := Conf.TokType.tNewline, text := ['\n'], pos := 26 }, true), ({ type := Conf.TokType.tEnd, text := [], pos := 27 }, true)] := rfl
    have h0 : padvance (initSt ['w', 'i', 'd', 't', 'h', ' ', '=', '\n', 'h', 'e', 'i', 'g', 'h', 't', ' ', '=', ' ', '2', '0', '\n', 'f', 'l', 'a', 'g', ' ', '=', '\n'] [({ type := Conf.TokType.tIdent, text := ['w', 'i', 'd', 't', 'h'], pos := 0 }, false), ({ type := Conf.TokType.tEqual, text := ['='], pos := 6 }, false), ({ type := Conf.TokType.tNewline, text := ['\n'], pos := 7 }, false), ({ type := Conf.TokType.tIdent, text := ['h', 'e', 'i', 'g', 'h', 't'], pos := 8 }, false), ({ type := Conf.TokType.tEqual, text := ['='], pos := 15 }, false), ({ type := Conf.TokType.tInt, text := ['2', '0'], pos := 17 }, false), ({ type := Conf.TokType.tNewline, text := ['\n'], pos := 19 }, false), ({ type := Conf.TokType.tIdent, text := ['f', 'l', 'a', 'g'], pos := 20 }, false), ({ type := Conf.TokType.tEqual, text := ['='], pos := 25 }, false), ({ type := Conf.TokType.tNewline, text := ['\n'], pos := 26 }, true), ({ type := Conf.TokType.tEnd, text := [], pos := 27 }, true)]) = PRes.ok () { prev := { type := Conf.TokType.tIdent, text := [], pos := 0 }, cur := { type := Conf.TokType.tIdent, text := ['w', 'i', 'd', 't', 'h'], pos := 0 }, curAtEnd := false, rest := [({ type := Conf.TokType.tEqual, text := ['='], pos := 6 }, false), ({ type := Conf.TokType.tNewline, text := ['\n'], pos := 7 }, false), ({ type := Conf.TokType.tIdent, text := ['h', 'e', 'i', 'g', 'h', 't'], pos := 8 }, false), ({ type := Conf.TokType.tEqual, text := ['='], pos := 15 }, false), ({ type := Conf.TokType.tInt, text := ['2', '0'], pos := 17 }, false), ({ type := Conf.TokType.tNewline, text := ['\n'], pos := 19 }, false), ({ type := Conf.TokType.tIdent, text := ['f', 'l', 'a', 'g'], pos := 20 }, false), ({ type := Conf.TokType.tEqual, text := ['='], pos := 25 }, false), ({ type := Conf.TokType.tNewline, text := ['\n'], pos := 26 }, true), ({ type := Conf.TokType.tEnd, text := [], pos := 27 }, true)], text := ['w', 'i', 'd', 't', 'h', ' ', '=', '\n', 'h', 'e', 'i', 'g', 'h', 't', ' ', '=', ' ', '2', '0', '\n', 'f', 'l', 'a', 'g', ' ', '=', '\n'], data := [] } := by
      rfl
    have h1 : parse_loopF 12 [] { prev := { type := Conf.TokType.tIdent, text := [], pos := 0 }, cur := { type := Conf.TokType.tIdent, text := ['w', 'i', 'd', 't', 'h'], pos := 0 }, curAtEnd := false, rest := [({ type := Conf.TokType.tEqual, text := ['='], pos := 6 }, false), ({ type := Conf.TokType.tNewline, text := ['\n'], pos := 7 }, false), ({ type := Conf.TokType.tIdent, text := ['h', 'e', 'i', 'g', 'h', 't'], pos := 8 }, false), ({ type := Conf.TokType.tEqual, text := ['='], pos := 15 }, false), ({ type := Conf.TokType.tInt, text := ['2', '0'], pos := 17 }, false), ({ type := Conf.TokType.tNewline, text := ['\n'], pos := 19 }, false), ({ type := Conf.TokType.tIdent, text := ['f', 'l', 'a', 'g'], pos := 20 }, false), ({ type := Conf.TokType.tEqual, text := ['='], pos := 25 }, false), ({ type := Conf.TokType.tNewline, text := ['\n'], pos := 26 }, true), ({ type := Conf.TokType.tEnd, text := [], pos := 27 }, true)], text := ['w', 'i', 'd', 't', 'h', ' ', '=', '\n', 'h', 'e', 'i', 'g', 'h', 't', ' ', '=', ' ', '2', '0', '\n', 'f', 'l', 'a', 'g', ' ', '=', '\n'], data := [] } = parse_loopF 11 [{ kind := Conf.EKind.noValueAfterEqual, line := 1, col := 7, prev := ['='], cur := ['='] }] { prev := { type := Conf.TokType.tNewline, text := ['\n'], pos := 7 }, cur := { type := Conf.TokType.tIdent, text := ['h', 'e', 'i', 'g', 'h', 't'], pos := 8 }, curAtEnd := false, rest := [({ type := Conf.TokType.tEqual, text := ['='], pos := 15 }, false), ({ type := Conf.TokType.tInt, text := ['2', '0'], pos := 17 }, false), ({ type := Conf.TokType.tNewline, text := ['\n'], pos := 19 }, false), ({ type := Conf.TokType.tIdent, text := ['f', 'l', 'a', 'g'], pos := 20 }, false), ({ type := Conf.TokType.tEqual, text := ['='], pos := 25 }, false), ({ type := Conf.TokType.tNewline, text := ['\n'], pos := 26 }, true), ({ type := Conf.TokType.tEnd, text := [], pos := 27 }, true)], text := ['w', 'i', 'd', 't', 'h', ' ', '=', '\n', 'h', 'e', 'i', 'g', 'h', 't', ' ', '=', ' ', '2', '0', '\n', 'f', 'l', 'a', 'g', ' ', '=', '\n'], data := [(['w', 'i', 'd', 't', 'h'], Conf.Value.vInt 0)] } := rfl
    have h2 : parse_loopF 11 [{ kind := Conf.EKind.noValueAfterEqual, line := 1, col := 7, prev := ['='], cur := ['='] }] { prev := { type := Conf.TokType.tNewline, text := ['\n'], pos := 7 }, cur := { type := Conf.TokType.tIdent, text := ['h', 'e', 'i', 'g', 'h', 't'], pos := 8 }, curAtEnd := false, rest := [({ type := Conf.TokType.tEqual, text := ['='], pos := 15 }, false), ({ type := Conf.TokType.tInt, text := ['2', '0'], pos := 17 }, false), ({ type := Conf.TokType.tNewline, text := ['\n'], pos := 19 }, false), ({ type := Conf.TokType.tIdent, text := ['f', 'l', 'a', 'g'], pos := 20 }, false), ({ type := Conf.TokType.tEqual, text := ['='], pos := 25 }, false), ({ type := Conf.TokType.tNewline, text := ['\n'], pos := 26 }, true), ({ type := Conf.TokType.tEnd, text := [], pos := 27 }, true)], text := ['w', 'i', 'd', 't', 'h', ' ', '=', '\n', 'h', 'e', 'i', 'g', 'h', 't', ' ', '=', ' ', '2', '0', '\n', 'f', 'l', 'a', 'g', ' ', '=', '\n'], data := [(['w', 'i', 'd', 't', 'h'], Conf.Value.vInt 0)] } = parse_loopF 10 [{ kind := Conf.EKind.noValueAfterEqual, line := 1, col := 7, prev := ['='], cur := ['='] }] { prev := { type := Conf.TokType.tNewline, text := ['\n'], pos := 19 }, cur := { type := Conf.TokType.tIdent, text := ['f', 'l', 'a', 'g'], pos := 20 }, curAtEnd := false, rest := [({ type := Conf.TokType.tEqual, text := ['='], pos := 25 }, false), ({ type := Conf.TokType.tNewline, text := ['\n'], pos := 26 }, true), ({ type := Conf.TokType.tEnd, text := [], pos := 27 }, true)], text := ['w', 'i', 'd', 't', 'h', ' ', '=', '\n', 'h', 'e', 'i', 'g', 'h', 't', ' ', '=', ' ', '2', '0', '\n', 'f', 'l', 'a', 'g', ' ', '=', '\n'], data := [(['h', 'e', 'i', 'g', 'h', 't'], Conf.Value.vInt 20), (['w', 'i', 'd', 't', 'h'], Conf.Value.vInt 0)] } := rfl
    have h3 : parse_loopF 10 [{ kind := Conf.EKind.noValueAfterEqual, line := 1, col := 7, prev := ['='], cur := ['='] }] { prev := { type := Conf.TokType.tNewline, text := ['\n'], pos := 19 }, cur := { type := Conf.TokType.tIdent, text := ['f', 'l', 'a', 'g'], pos := 20 }, curAtEnd := false, rest := [({ type := Conf.TokType.tEqual, text := ['='], pos := 25 }, false), ({ type := Conf.TokType.tNewline, text := ['\n'], pos := 26 }, true), ({ type := Conf.TokType.tEnd, text := [], pos := 27 }, true)], text := ['w', 'i', 'd', 't', 'h', ' ', '=', '\n', 'h', 'e', 'i', 'g', 'h', 't', ' ', '=', ' ', '2', '0', '\n', 'f', 'l', 'a', 'g', ' ', '=', '\n'], data := [(['h', 'e', 'i', 'g', 'h', 't'], Conf.Value.vInt 20), (['w', 'i', 'd', 't', 'h'], Conf.Value.vInt 0)] } = parse_loopF 9 [{ kind := Conf.EKind.noValueAfterEqual, line := 1, col := 7, prev := ['='], cur := ['='] }, { kind := Conf.EKind.noValueAfterEqual, line := 3, col := 6, prev := ['='], cur := ['='] }] { prev := { type := Conf.TokType.tNewline, text := ['\n'], pos := 26 }, cur := { type := Conf.TokType.tEnd, text := [], pos := 27 }, curAtEnd := true, rest := [], text := ['w', 'i', 'd', 't', 'h', ' ', '=', '\n', 'h', 'e', 'i', 'g', 'h', 't', ' ', '=', ' ', '2', '0', '\n', 'f', 'l', 'a', 'g', ' ', '=', '\n'], data := [(['f', 'l', 'a', 'g'], Conf.Value.vInt 0), (['h', 'e', 'i', 'g', 'h', 't'], Conf.Value.vInt 20), (['w', 'i', 'd', 't', 'h'], Conf.Value.vInt 0)] } := rfl
    have h4 : parse_loopF 9 [{ kind := Conf.EKind.noValueAfterEqual, line := 1, col := 7, prev := ['='], cur := ['='] }, { kind := Conf.EKind.noValueAfterEqual, line := 3, col := 6, prev := ['='], cur := ['='] }] { prev := { type := Conf.TokType.tNewline, text := ['\n'], pos := 26 }, cur := { type := Conf.TokType.tEnd, text := [], pos := 27 }, curAtEnd := true, rest := [], text := ['w', 'i', 'd', 't', 'h', ' ', '=', '\n', 'h', 'e', 'i', 'g', 'h', 't', ' ', '=', ' ', '2', '0', '\n', 'f', 'l', 'a', 'g', ' ', '=', '\n'], data := [(['f', 'l', 'a', 'g'], Conf.Value.vInt 0), (['h', 'e', 'i', 'g', 'h', 't'], Conf.Value.vInt 20), (['w', 'i', 'd', 't', 'h'], Conf.Value.vInt 0)] } = (Conf.TopRes.done [{ kind := Conf.EKind.noValueAfterEqual, line := 1, col := 7, prev := ['='], cur := ['='] }, { kind := Conf.EKind.noValueAfterEqual, line := 3, col := 6, prev := ['='], cur := ['='] }] { prev := { type := Conf.TokType.tNewline, text := ['\n'], pos := 26 }, cur := { type := Conf.TokType.tEnd, text := [], pos := 27 }, curAtEnd := true, rest := [], text := ['w', 'i', 'd', 't', 'h', ' ', '=', '\n', 'h', 'e', 'i', 'g', 'h', 't', ' ', '=', ' ', '2', '0', '\n', 'f', 'l', 'a', 'g', ' ', '=', '\n'], data := [(['f', 'l', 'a', 'g'], Conf.Value.vInt 0), (['h', 'e', 'i', 'g', 'h', 't'], Conf.Value.vInt 20), (['w', 'i', 'd', 't', 'h'], Conf.Value.vInt 0)] }) := rfl
    refine ⟨?_, ?_, by decide, by decide, by decide⟩ <;>
    simp [parse, parse_accum, parse_toks, htok, h0, h1, h2, h3, h4]

/-- Witness for C2's universal part at a clean one-entry input. -/
theorem C2_partial_data_witness :
    parse "a = 1\n".toList = .ok [(['a'], .vInt 1)] ∧
    parse_accum "a = 1\n".toList = some ([(['a'], .vInt 1)], []) :=
  ⟨rfl, C2_partial_data.1 "a = 1\n".toList [(['a'], .vInt 1)] rfl⟩

/-! ## C8: integer width -/

/-- C8 counterexample: `4294967296` fits a signed 64-bit integer, but the
`Value` payload is the 32-bit C++ `int`: `string::to_number<int>` fails
and the `.value()` call raises an uncaught `bad_optional_access` — the
literal does not parse to an `Int` value at all. -/
theorem C8_int_width_counterexample :
    to_number_int "4294967296".toList = none ∧
    parse "a = 4294967296\n".toList = .badopt ∧
    (4294967296 : Int) ≤ 9223372036854775807 := by
  refine ⟨rfl, ?_, by norm_num⟩
  have htok : tokenize ['a', ' ', '=', ' ', '4', '2', '9', '4', '9', '6', '7', '2', '9', '6', '\n'] = LexRes.toks [({ type := Conf.TokType.tIdent, text := ['a'], pos := 0 }, false), ({ type := Conf.TokType.tEqual, text := ['='], pos := 2 }, false), ({ type := Conf.TokType.tInt, text := ['4', '2', '9', '4', '9', '6', '7', '2', '9', '6'], pos := 4 }, false), ({ type := Conf.TokType.tNewline, text := ['\n'], pos := 14 }, true), ({ type := Conf.TokType.tEnd, text := [], pos := 15 }, true)] := rfl
  have h0 : padvance (initSt ['a', ' ', '=', ' ', '4', '2', '9', '4', '9', '6', '7', '2', '9', '6', '\n'] [({ type := Conf.TokType.tIdent, text := ['a'], pos := 0 }, false), ({ type := Conf.TokType.tEqual, text := ['='], pos := 2 }, false), ({ type := Conf.TokType.tInt, text := ['4', '2', '9', '4', '9', '6', '7', '2', '9', '6'], pos := 4 }, false), ({ type := Conf.TokType.tNewline, text := ['\n'], pos := 14 }, true), ({ type := Conf.TokType.tEnd, text := [], pos := 15 }, true)]) = PRes.ok () { prev := { type := Conf.TokType.tIdent, text := [], pos := 0 }, cur := { type := Conf.TokType.tIdent, text := ['a'], pos := 0 }, curAtEnd := false, rest := [({ type := Conf.TokType.tEqual, text := ['='], pos := 2 }, false), ({ type := Conf.TokType.tInt, text := ['4', '2', '9', '4', '9', '6', '7', '2', '9', '6'], pos := 4 }, false), ({ type := Conf.TokType.tNewline, text := ['\n'], pos := 14 }, true), ({ type := Conf.TokType.tEnd, text := [], pos := 15 }, true)], text := ['a', ' ', '=', ' ', '4', '2', '9', '4', '9', '6', '7', '2', '9', '6', '\n'], data := [] } := by
    rfl
  have h1 : parse_loopF 6 [] { prev := { type := Conf.TokType.tIdent, text := [], pos := 0 }, cur := { type := Conf.TokType.tIdent, text := ['a'], pos := 0 }, curAtEnd := false, rest := [({ type := Conf.TokType.tEqual, text := ['='], pos := 2 }, false), ({ type := Conf.TokType.tInt, text := ['4', '2', '9', '4', '9', '6', '7', '2', '9', '6'], pos := 4 }, false), ({ type := Conf.TokType.tNewline, text := ['\n'], pos := 14 }, true), ({ type := Conf.TokType.tEnd, text := [], pos := 15 }, true)], text := ['a', ' ', '=', ' ', '4', '2', '9', '4', '9', '6', '7', '2', '9', '6', '\n'], data := [] } = (Conf.TopRes.badopt) := rfl
  simp [parse, parse_accum, parse_toks, htok, h0, h1]

/-! ## C1: round-trip -/

/-- C1 counterexample: the data `{"true": Int 1}` has no string value at
all (so the claim's hypothesis holds), but `create` renders `true = 1`,
whose first token is the boolean keyword, not an `Ident`: re-parsing
reports `NoIdent` and does not return the original data. -/
theorem C1_round_trip_counterexample :
    create_text [("true".toList, Value.vInt 1)] = some "true = 1\n".toList ∧
    parse "true = 1\n".toList =
      .errs [{ kind := .noIdent, line := 1, col := 1, prev := [], cur := [] }] ∧
    parse "true = 1\n".toList ≠ .ok [("true".toList, Value.vInt 1)] := by
  have hp : parse "true = 1\n".toList =
      .errs [{ kind := .noIdent, line := 1, col := 1, prev := [], cur := [] }] := by
    have htok : tokenize ['t', 'r', 'u', 'e', ' ', '=', ' ', '1', '\n'] = LexRes.toks [({ type := Conf.TokType.tTrue, text := ['t', 'r', 'u', 'e'], pos := 0 }, false), ({ type := Conf.TokType.tEqual, text := ['='], pos := 5 }, false), ({ type := Conf.TokType.tInt, text := ['1'], pos := 7 }, false), ({ type := Conf.TokType.tNewline, text := ['\n'], pos := 8 }, true), ({ type := Conf.TokType.tEnd, text := [], pos := 9 }, true)] := rfl
    have h0 : padvance (initSt ['t', 'r', 'u', 'e', ' ', '=', ' ', '1', '\n'] [({ type := Conf.TokType.tTrue, text := ['t', 'r', 'u', 'e'], pos := 0 }, false), ({ type := Conf.TokType.tEqual, text := ['='], pos := 5 }, false), ({ type := Conf.TokType.tInt, text := ['1'], pos := 7 }, false), ({ type := Conf.TokType.tNewline, text := ['\n'], pos := 8 }, true), ({ type := Conf.TokType.tEnd, text := [], pos := 9 }, true)]) = PRes.ok () { prev := { type := Conf.TokType.tIdent, text := [], pos := 0 }, cur := { type := Conf.TokType.tTrue, text := ['t', 'r', 'u', 'e'], pos := 0 }, curAtEnd := false, rest := [({ type := Conf.TokType.tEqual, text := ['='], pos := 5 }, false), ({ type := Conf.TokType.tInt, text := ['1'], pos := 7 }, false), ({ type := Conf.TokType.tNewline, text := ['\n'], pos := 8 }, true), ({ type := Conf.TokType.tEnd, text := [], pos := 9 }, true)], text := ['t', 'r', 'u', 'e', ' ', '=', ' ', '1', '\n'], data := [] } := by
      rfl
    have h1 : parse_loopF 6 [] { prev := { type := Conf.TokType.tIdent, text := [], pos := 0 }, cur := { type := Conf.TokType.tTrue, text := ['t', 'r', 'u', 'e'], pos := 0 }, curAtEnd := false, rest := [({ type := Conf.TokType.tEqual, text := ['='], pos := 5 }, false), ({ type := Conf.TokType.tInt, text := ['1'], pos := 7 }, false), ({ type := Conf.TokType.tNewline, text := ['\n'], pos := 8 }, true), ({ type := Conf.TokType.tEnd, text := [], pos := 9 }, true)], text := ['t', 'r', 'u', 'e', ' ', '=', ' ', '1', '\n'], data := [] } = parse_loopF 5 [{ kind := Conf.EKind.noIdent, line := 1, col := 1, prev := [], cur := [] }] { prev := { type := Conf.TokType.tNewline, text := ['\n'], pos := 8 }, cur := { type := Conf.TokType.tEnd, text := [], pos := 9 }, curAtEnd := true, rest := [], text := ['t', 'r', 'u', 'e', ' ', '=', ' ', '1', '\n'], data := [] } := rfl
    have h2 : parse_loopF 5 [{ kind := Conf.EKind.noIdent, line := 1, col := 1, prev := [], cur := [] }] { prev := { type := Conf.TokType.tNewline, text := ['\n'], pos := 8 }, cur := { type := Conf.TokType.tEnd, text := [], pos := 9 }, curAtEnd := true, rest := [], text := ['t', 'r', 'u', 'e', ' ', '=', ' ', '1', '\n'], data := [] } = (Conf.TopRes.done [{ kind := Conf.EKind.noIdent, line := 1, col := 1, prev := [], cur := [] }] { prev := { type := Conf.TokType.tNewline, text := ['\n'], pos := 8 }, cur := { type := Conf.TokType.tEnd, text := [], pos := 9 }, curAtEnd := true, rest := [], text := ['t', 'r', 'u', 'e', ' ', '=', ' ', '1', '\n'], data := [] }) := rfl
    simp [parse, parse_accum, parse_toks, htok, h0, h1, h2]
  refine ⟨rfl, hp, ?_⟩
  rw [hp]
  intro hcontra
  exact ParseOut.noConfusion hcontra

/-! ## Order and map lemmas (shared) -/

/-! Order facts about `keyLt`. -/

theorem keyLt_irrefl : ∀ k : Key, keyLt k k = false := by
  intro k
  induction k with
  | nil => rfl
  | cons c cs ih => simp [keyLt, ih]

theorem keyLt_ne : ∀ a b : Key, keyLt a b = true → a ≠ b := by
  intro a b h heq
  subst heq
  rw [keyLt_irrefl] at h
  exact Bool.false_ne_true h

theorem keyLt_asymm : ∀ a b : Key, keyLt a b = true → keyLt b a = false := by
  intro a
  induction a with
  | nil =>
      intro b h
      cases b with
      | nil => simpa [keyLt] using h
      | cons d ds => rfl
  | cons c cs ih =>
      intro b h
      cases b with
      | nil => simp [keyLt] at h
      | cons d ds =>
          simp only [keyLt] at h ⊢
          rcases lt_trichotomy c d with hlt | heq | hgt
          · simp [hlt, not_lt_of_gt hlt]
          · subst heq
            simp only [lt_irrefl, if_false, if_neg (lt_irrefl c)] at h ⊢
            exact ih ds h
          · simp [hgt, not_lt_of_gt hgt] at h

/-! `find?` / `insertD` / `eraseD` interaction. -/

theorem find?_insertD_self : ∀ (d : Data) (k : Key) (v : Value),
    find? (insertD d k v) k = some v := by
  intro d k v
  induction d with
  | nil => simp [insertD, find?]
  | cons kv t ih =>
      obtain ⟨k', v'⟩ := kv
      by_cases h1 : keyLt k k' = true
      · simp [insertD, h1, find?]
      · by_cases h2 : k = k'
        · subst h2
          simp [insertD, keyLt_irrefl, find?]
        · simp only [insertD, if_neg h1, if_neg h2]
          simp [find?, Ne.symm h2, ih]

theorem find?_insertD_ne : ∀ (d : Data) (k : Key) (v : Value) (k'' : Key),
    k ≠ k'' → find? (insertD d k v) k'' = find? d k'' := by
  intro d k v k'' hne
  induction d with
  | nil => simp [insertD, find?, hne]
  | cons kv t ih =>
      obtain ⟨k', v'⟩ := kv
      by_cases h1 : keyLt k k' = true
      · simp [insertD, h1, find?, hne]
      · by_cases h2 : k = k'
        · subst h2
          simp [insertD, keyLt_irrefl, find?, hne]
        · simp [insertD, h1, h2, find?, ih]

theorem find?_mem : ∀ (d : Data) (k : Key) (v : Value),
    find? d k = some v → (k, v) ∈ d := by
  intro d k v h
  induction d with
  | nil => simp [find?] at h
  | cons kv t ih =>
      obtain ⟨k', v'⟩ := kv
      by_cases he : k' = k
      · subst he
        simp [find?] at h
        simp [h]
      · simp [find?, he] at h
        exact List.mem_cons_of_mem _ (ih h)

theorem mem_find? : ∀ (d : Data) (k : Key) (v : Value),
    (k, v) ∈ d → ∃ w, find? d k = some w := by
  intro d k v h
  induction d with
  | nil => simp at h
  | cons kv t ih =>
      obtain ⟨k', v'⟩ := kv
      by_cases he : k' = k
      · exact ⟨v', by simp [find?, he]⟩
      · rcases List.mem_cons.mp h with hh | ht
        · exact absurd (congrArg Prod.fst hh).symm he
        · simpa [find?, he] using ih ht

theorem find?_eq_none : ∀ (d : Data) (k : Key),
    find? d k = none ↔ ∀ kv ∈ d, kv.1 ≠ k := by
  intro d k
  induction d with
  | nil => simp [find?]
  | cons kv t ih =>
      obtain ⟨k', v'⟩ := kv
      by_cases he : k' = k
      · simp [find?, he]
      · simp [find?, he, ih]

theorem find?_of_mem_nodup : ∀ (d : Data) (k : Key) (v : Value),
    NoDupKeys d → (k, v) ∈ d → find? d k = some v := by
  intro d k v hnd hm
  induction d with
  | nil => simp at hm
  | cons kv t ih =>
      obtain ⟨k', v'⟩ := kv
      rcases List.mem_cons.mp hm with hh | ht
      · have h1 : k = k' := congrArg Prod.fst hh
        have h2 : v = v' := congrArg Prod.snd hh
        subst h1; subst h2
        simp [find?]
      · have hk : k' ≠ k := by
          intro he
          subst he
          have : k' ∈ t.map Prod.fst := List.mem_map.mpr ⟨(k', v), ht, rfl⟩
          exact (List.nodup_cons.mp hnd).1 this
        simp only [find?, if_neg hk]
        exact ih (List.nodup_cons.mp hnd).2 ht

theorem eraseD_sublist : ∀ (d : Data) (k : Key), List.Sublist (eraseD d k) d := by
  intro d k
  induction d with
  | nil => exact List.Sublist.refl _
  | cons kv t ih =>
      obtain ⟨k', v'⟩ := kv
      by_cases he : k' = k
      · simp only [eraseD, if_pos he]
        exact List.sublist_cons_self _ _
      · simp only [eraseD, if_neg he]
        exact List.Sublist.cons₂ _ ih

theorem NoDupKeys_eraseD : ∀ (d : Data) (k : Key),
    NoDupKeys d → NoDupKeys (eraseD d k) := by
  intro d k h
  exact List.Nodup.sublist (List.Sublist.map Prod.fst (eraseD_sublist d k)) h

theorem find?_eraseD_self : ∀ (d : Data) (k : Key),
    NoDupKeys d → find? (eraseD d k) k = none := by
  intro d k hnd
  induction d with
  | nil => simp [eraseD, find?]
  | cons kv t ih =>
      obtain ⟨k', v'⟩ := kv
      by_cases he : k' = k
      · subst he
        simp only [eraseD, if_pos rfl]
        rw [find?_eq_none]
        intro kv hm hk
        exact (List.nodup_cons.mp hnd).1
          (List.mem_map.mpr ⟨kv, hm, hk⟩)
      · simp only [eraseD, if_neg he, find?, if_neg he]
        exact ih (List.nodup_cons.mp hnd).2

/-! The prune phase. -/

theorem pruneF_defined : ∀ (s : Data) (items : List (Key × Value)) (d : Data),
    (∀ kv ∈ items, (find? s kv.1).isSome) → pruneF s items d = some ([], d) := by
  intro s items
  induction items with
  | nil => intro d _; rfl
  | cons kv items ih =>
      intro d h
      obtain ⟨k0, v0⟩ := kv
      cases hf : find? s k0 with
      | none =>
          have := h (k0, v0) (List.mem_cons_self _ _)
          rw [hf] at this
          simp at this
      | some w =>
          simp only [pruneF, hf]
          exact ih d fun kv hm => h kv (List.mem_cons_of_mem _ hm)

theorem pruneF_some : ∀ (s : Data) (items : List (Key × Value)) (d : Data)
    (p : List Warning × Data), pruneF s items d = some p →
    p = ([], d) ∧ ∀ kv ∈ items, (find? s kv.1).isSome := by
  intro s items
  induction items with
  | nil =>
      intro d p h
      refine ⟨?_, by simp⟩
      have h' : some (([] : List Warning), d) = some p := h
      injection h' with h''
      exact h''.symm
  | cons kv items ih =>
      intro d p h
      obtain ⟨k0, v0⟩ := kv
      cases hf : find? s k0 with
      | none =>
          simp only [pruneF, hf] at h
          exact Option.noConfusion h
      | some w =>
          simp only [pruneF, hf] at h
          obtain ⟨hp, hall⟩ := ih d p h
          refine ⟨hp, ?_⟩
          intro kv hm
          rcases List.mem_cons.mp hm with hh | ht
          · subst hh; simp [hf]
          · exact hall kv ht

/-! The fill/repair phase. -/

theorem fillF_warn : ∀ (items : List (Key × Value)) (d : Data),
    ∀ w ∈ (fillF items d).1,
      w.type = WKind.missingKey ∨ w.type = WKind.mismatchedTypes := by
  intro items
  induction items with
  | nil => intro d w hw; simp [fillF] at hw
  | cons kv items ih =>
      intro d w hw
      obtain ⟨k0, v0⟩ := kv
      cases hf : find? d k0 with
      | none =>
          simp only [fillF, hf] at hw
          rcases List.mem_cons.mp hw with hh | ht
          · subst hh; exact Or.inl rfl
          · exact ih _ w ht
      | some w0 =>
          simp only [fillF, hf] at hw
          by_cases ht : v0.vtype ≠ w0.vtype
          · rw [if_pos ht] at hw
            rcases List.mem_cons.mp hw with hh | hh
            · subst hh; exact Or.inr rfl
            · exact ih _ w hh
          · rw [if_neg ht] at hw
            exact ih _ w hw

theorem fillF_not_in : ∀ (items : List (Key × Value)) (d : Data) (k : Key),
    (∀ kv ∈ items, kv.1 ≠ k) → find? (fillF items d).2 k = find? d k := by
  intro items
  induction items with
  | nil => intro d k _; rfl
  | cons kv items ih =>
      intro d k h
      obtain ⟨k0, v0⟩ := kv
      have hk0 : k0 ≠ k := h (k0, v0) (List.mem_cons_self _ _)
      have htail : ∀ kv ∈ items, kv.1 ≠ k := fun kv hm => h kv (List.mem_cons_of_mem _ hm)
      cases hf : find? d k0 with
      | none =>
          simp only [fillF, hf]
          rw [ih _ k htail]
          exact find?_insertD_ne d k0 v0 k hk0
      | some w0 =>
          by_cases ht : v0.vtype ≠ w0.vtype
          · simp only [fillF, hf, if_pos ht]
            rw [ih _ k htail]
            exact find?_insertD_ne d k0 v0 k hk0
          · simp only [fillF, hf, if_neg ht]
            exact ih _ k htail

theorem fillF_conform : ∀ (items : List (Key × Value)) (d : Data) (k : Key) (v : Value),
    (k, v) ∈ items → (items.map Prod.fst).Nodup →
    ∃ w, find? (fillF items d).2 k = some w ∧ w.vtype = v.vtype := by
  intro items
  induction items with
  | nil => intro d k v hm; simp at hm
  | cons kv items ih =>
      intro d k v hm hnd
      obtain ⟨k0, v0⟩ := kv
      rcases List.mem_cons.mp hm with hh | hmt
      · have h1 : k = k0 := congrArg Prod.fst hh
        have h2 : v = v0 := congrArg Prod.snd hh
        subst h1; subst h2
        have hni : ∀ kv ∈ items, kv.1 ≠ k := by
          intro kv hm2 he
          exact (List.nodup_cons.mp hnd).1 (List.mem_map.mpr ⟨kv, hm2, he⟩)
        cases hf : find? d k with
        | none =>
            simp only [fillF, hf]
            refine ⟨v, ?_, rfl⟩
            rw [fillF_not_in items _ k hni]
            exact find?_insertD_self d k v
        | some w0 =>
            by_cases ht : v.vtype ≠ w0.vtype
            · simp only [fillF, hf, if_pos ht]
              refine ⟨v, ?_, rfl⟩
              rw [fillF_not_in items _ k hni]
              exact find?_insertD_self d k v
            · simp only [fillF, hf, if_neg ht]
              refine ⟨w0, ?_, ?_⟩
              · rw [fillF_not_in items _ k hni]
                exact hf
              · exact (not_ne_iff.mp ht).symm
      · have hnd' := (List.nodup_cons.mp hnd).2
        cases hf : find? d k0 with
        | none => simp only [fillF, hf]; exact ih _ k v hmt hnd'
        | some w0 =>
            by_cases ht : v0.vtype ≠ w0.vtype
            · simp only [fillF, hf, if_pos ht]; exact ih _ k v hmt hnd'
            · simp only [fillF, hf, if_neg ht]; exact ih _ k v hmt hnd'

theorem fillF_id : ∀ (items : List (Key × Value)) (d : Data),
    (∀ kv ∈ items, ∃ w, find? d kv.1 = some w ∧ w.vtype = kv.2.vtype) →
    fillF items d = ([], d) := by
  intro items
  induction items with
  | nil => intro d _; rfl
  | cons kv items ih =>
      intro d h
      obtain ⟨k0, v0⟩ := kv
      obtain ⟨w, hw, hty⟩ := h (k0, v0) (List.mem_cons_self _ _)
      have hne : ¬(v0.vtype ≠ w.vtype) := by simp [hty]
      simp only [fillF, hw]
      rw [if_neg hne]
      exact ih d fun kv hm => h kv (List.mem_cons_of_mem _ hm)

/-! `validate`-level consequences. -/

theorem validate_eq (d s : Data) :
    validate d s = match pruneF s d d with
      | none => none
      | some p => some (p.1 ++ (fillF s p.2).1, (fillF s p.2).2) := rfl

theorem validate_some : ∀ (d s : Data) (r : List Warning × Data),
    validate d s = some r →
    r = fillF s d ∧ ∀ kv ∈ d, (find? s kv.1).isSome := by
  intro d s r h
  rw [validate_eq] at h
  cases hp : pruneF s d d with
  | none => rw [hp] at h; exact Option.noConfusion h
  | some p =>
      rw [hp] at h
      obtain ⟨hpe, hall⟩ := pruneF_some s d d p hp
      subst hpe
      simp only [] at h
      injection h with h'
      refine ⟨?_, hall⟩
      rw [← h']
      simp

theorem validate_find_none : ∀ (d s : Data) (r : List Warning × Data) (k : Key),
    validate d s = some r → find? s k = none → find? r.2 k = none := by
  intro d s r k h hn
  obtain ⟨hr, hall⟩ := validate_some d s r h
  subst hr
  show find? (fillF s d).2 k = none
  rw [fillF_not_in s d k ((find?_eq_none s k).mp hn)]
  cases hf : find? d k with
  | none => rfl
  | some v =>
      have := hall (k, v) (find?_mem d k v hf)
      simp [hn] at this

theorem validate_conform : ∀ (d s : Data) (r : List Warning × Data)
    (k : Key) (v : Value), validate d s = some r → NoDupKeys s →
    find? s k = some v →
    ∃ w, find? r.2 k = some w ∧ w.vtype = v.vtype := by
  intro d s r k v h hs hk
  obtain ⟨hr, -⟩ := validate_some d s r h
  subst hr
  exact fillF_conform s d k v (find?_mem s k v hk) hs


/-! ## C5 / C6: the validator -/

/-- C5 (code bug): `validate` does not "return normally, never fail" —
its prune loop erases the current entry from the `std::map` it is
range-iterating, `std::map::erase` invalidates the iterator to the erased
node, and the loop's next increment uses that invalidated iterator:
undefined behaviour (modelled `none`) on every input whose data holds a
key outside the schema, i.e. exactly the inputs the prune phase exists
for.  When every data key is in the schema no erase happens and the
validator completes, repairing mismatched types with a warning. -/
theorem C5_validator_prune_ub :
    validate [("junk".toList, Value.vInt 1)] [("height".toList, Value.vInt 0)]
      = none ∧
    validate [("height".toList, Value.vStr "x".toList)]
        [("height".toList, Value.vInt 0)] =
      some ([{ type := WKind.mismatchedTypes, key := "height".toList,
               newval := Value.vInt 0, orig := Value.vStr "x".toList }],
            [("height".toList, Value.vInt 0)]) := by
  exact ⟨rfl, rfl⟩

/-- C6 counterexample: idempotence does not hold "for any D, S": when the
data holds a key outside the schema, the *first* `validate` already
erases from the map it is range-iterating and hits undefined behaviour
(`none`), so there is no defined first result whose re-validation could
return an empty warning list. -/
theorem C6_validator_idempotent_counterexample :
    validate [("a".toList, Value.vInt 1)] [] = none ∧
    ¬ ∃ r, validate [("a".toList, Value.vInt 1)] [] = some r := by
  refine ⟨rfl, ?_⟩
  intro hex
  obtain ⟨r, hr⟩ := hex
  exact Option.noConfusion
    (show (none : Option (List Warning × Data)) = some r from hr)

/-- C6 (corrected): `validate` is idempotent exactly where its first pass
is defined at all: whenever `validate d s` completes (which requires every
key of `d` to be in the duplicate-free schema `s`, or the prune loop's
erase-during-iteration is undefined behaviour), re-validating the
resulting data against the same schema returns that data unchanged with
an empty warning list. -/
theorem C6_validator_idempotent (d s : Data) (r : List Warning × Data)
    (hs : NoDupKeys s) (h : validate d s = some r) :
    validate r.2 s = some ([], r.2) := by
  have h1 : ∀ kv ∈ r.2, (find? s kv.1).isSome := by
    intro kv hm
    obtain ⟨w, hw⟩ := mem_find? _ kv.1 kv.2 (by simpa using hm)
    cases hf : find? s kv.1 with
    | none => exact absurd (validate_find_none d s r kv.1 h hf) (by simp [hw])
    | some _ => simp
  have h2 : ∀ kv ∈ s, ∃ w, find? r.2 kv.1 = some w ∧
      w.vtype = kv.2.vtype := by
    intro kv hm
    exact validate_conform d s r kv.1 kv.2 h hs
      (find?_of_mem_nodup s kv.1 kv.2 hs (by simpa using hm))
  have hp := pruneF_defined s r.2 r.2 h1
  have hfl := fillF_id s r.2 h2
  rw [validate_eq, hp]
  simp only []
  rw [hfl]
  rfl

/-- Witness for C6: a first pass that repairs a mismatched type, then the
second pass returns the repaired data unchanged with no warnings. -/
theorem C6_validator_idempotent_witness :
    NoDupKeys [("height".toList, Value.vInt 0)] ∧
    validate [("height".toList, Value.vStr "x".toList)]
        [("height".toList, Value.vInt 0)] =
      some ([{ type := WKind.mismatchedTypes, key := "height".toList,
               newval := Value.vInt 0, orig := Value.vStr "x".toList }],
            [("height".toList, Value.vInt 0)]) ∧
    validate [("height".toList, Value.vInt 0)] [("height".toList, Value.vInt 0)] =
      some ([], [("height".toList, Value.vInt 0)]) :=
  ⟨by decide, by decide,
    C6_validator_idempotent [("height".toList, Value.vStr "x".toList)]
      [("height".toList, Value.vInt 0)]
      ([{ type := WKind.mismatchedTypes, key := "height".toList,
          newval := Value.vInt 0, orig := Value.vStr "x".toList }],
        [("height".toList, Value.vInt 0)])
      (by decide) (by decide)⟩


/-! ## C10: serialization width -/

/-! Bounds for the `std::max_element` fold. -/


theorem foldl_max_le_init : ∀ (l : List Nat) (a : Nat), a ≤ l.foldl max a := by
  intro l
  induction l with
  | nil => intro a; exact Nat.le_refl a
  | cons x xs ih =>
      intro a
      calc a ≤ max a x := Nat.le_max_left a x
      _ ≤ xs.foldl max (max a x) := ih (max a x)

theorem foldl_max_le_mem : ∀ (l : List Nat) (a x : Nat), x ∈ l → x ≤ l.foldl max a := by
  intro l
  induction l with
  | nil => intro a x hx; simp at hx
  | cons y ys ih =>
      intro a x hx
      rcases List.mem_cons.mp hx with hh | ht
      · subst hh
        calc x ≤ max a x := Nat.le_max_right a x
        _ ≤ ys.foldl max (max a x) := foldl_max_le_init ys (max a x)
      · exact ih (max a y) x ht

theorem foldl_max_mem : ∀ (l : List Nat) (a : Nat),
    l.foldl max a = a ∨ l.foldl max a ∈ l := by
  intro l
  induction l with
  | nil => intro a; exact Or.inl rfl
  | cons y ys ih =>
      intro a
      rcases ih (max a y) with h | h
      · rcases max_choice a y with hm | hm
        · exact Or.inl (by rw [List.foldl_cons, h, hm])
        · refine Or.inr ?_
          rw [List.foldl_cons, h, hm]
          exact List.mem_cons_self _ _
      · exact Or.inr (List.mem_cons_of_mem _ h)


/-- C10: on an empty map `create`'s width computation dereferences
`max_element`'s `end()` iterator (the `none` of `max_key_width`, hence no
defined output text); on a non-empty map the width is exactly the length
of the longest key, and every entry's key is padded to that width. -/
theorem C10_create_width (d : Data) (h : d ≠ []) :
    create_text [] = none ∧
    ∃ w, max_key_width d = some w ∧
      create_text d = some ((d.map (entry_line w)).flatten) ∧
      (∀ kv ∈ d, kv.1.length ≤ w) ∧
      (∃ kv ∈ d, kv.1.length = w) ∧
      (∀ kv ∈ d, (pad_key kv.1 w).length = w) := by
  refine ⟨rfl, ?_⟩
  cases d with
  | nil => exact absurd rfl h
  | cons kv0 rest =>
      cases hwx : max_key_width (kv0 :: rest) with
      | none => simp [max_key_width] at hwx
      | some w =>
          have hweq : (((kv0 :: rest).map fun kv => kv.1.length).foldl max 0) = w := by
            simp [max_key_width] at hwx
            simpa using hwx
          have hc : create_text (kv0 :: rest) =
              some (((kv0 :: rest).map (entry_line w)).flatten) := by
            rw [create_text, hwx]
            rfl
          refine ⟨w, rfl, hc, ?_, ?_, ?_⟩
          · intro kv hm
            rw [← hweq]
            exact foldl_max_le_mem _ 0 _ (List.mem_map.mpr ⟨kv, hm, rfl⟩)
          · rcases foldl_max_mem ((kv0 :: rest).map fun kv => kv.1.length) 0 with h0 | hm
            · refine ⟨kv0, List.mem_cons_self _ _, ?_⟩
              have hle : kv0.1.length ≤
                  ((kv0 :: rest).map fun kv => kv.1.length).foldl max 0 :=
                foldl_max_le_mem _ 0 _ (List.mem_map.mpr ⟨kv0, List.mem_cons_self _ _, rfl⟩)
              omega
            · obtain ⟨kv, hkv, he⟩ := List.mem_map.mp hm
              exact ⟨kv, hkv, by rw [← hweq]; exact he⟩
          · intro kv hm
            have hle : kv.1.length ≤
                ((kv0 :: rest).map fun kv => kv.1.length).foldl max 0 :=
              foldl_max_le_mem _ 0 _ (List.mem_map.mpr ⟨kv, hm, rfl⟩)
            simp [pad_key]
            omega


/-- Witness for C10 at a concrete non-empty map. -/
theorem C10_create_width_witness :
    ([('k' :: 'e' :: 'y' :: [], Value.vInt 3), (['k'], Value.vBool true)] : Data) ≠ [] ∧
    (create_text [] = none ∧
    ∃ w, max_key_width [('k' :: 'e' :: 'y' :: [], Value.vInt 3), (['k'], Value.vBool true)] = some w ∧
      create_text [('k' :: 'e' :: 'y' :: [], Value.vInt 3), (['k'], Value.vBool true)] =
        some (([('k' :: 'e' :: 'y' :: [], Value.vInt 3), (['k'], Value.vBool true)].map (entry_line w)).flatten) ∧
      (∀ kv ∈ ([('k' :: 'e' :: 'y' :: [], Value.vInt 3), (['k'], Value.vBool true)] : Data), kv.1.length ≤ w) ∧
      (∃ kv ∈ ([('k' :: 'e' :: 'y' :: [], Value.vInt 3), (['k'], Value.vBool true)] : Data), kv.1.length = w) ∧
      (∀ kv ∈ ([('k' :: 'e' :: 'y' :: [], Value.vInt 3), (['k'], Value.vBool true)] : Data), (pad_key kv.1 w).length = w)) :=
  ⟨by decide,
    C10_create_width [('k' :: 'e' :: 'y' :: [], Value.vInt 3), (['k'], Value.vBool true)] (by decide)⟩

/-! ## Decimal rendering and conversion lemmas -/


theorem natToDigitsF_succ (f n : Nat) :
    natToDigitsF (f + 1) n =
      (if n < 10 then [digitChar n] else natToDigitsF f (n / 10) ++ [digitChar (n % 10)]) := rfl

theorem digitsToNat_append (ds1 ds2 : List Char) : ∀ acc,
    digitsToNat acc (ds1 ++ ds2) = digitsToNat (digitsToNat acc ds1) ds2 := by
  induction ds1 with
  | nil => intro acc; rfl
  | cons c cs ih => intro acc; exact ih (acc * 10 + digitVal c)

theorem digitChar_is_digit (d : Nat) (h : d < 10) : is_digit (digitChar d) = true := by
  interval_cases d <;> decide

theorem digitVal_digitChar (d : Nat) (h : d < 10) : digitVal (digitChar d) = d := by
  interval_cases d <;> decide

theorem natToDigitsF_spec : ∀ (fuel n : Nat), n < fuel →
    (natToDigitsF fuel n).all is_digit = true ∧
    natToDigitsF fuel n ≠ [] ∧
    ∀ acc, digitsToNat acc (natToDigitsF fuel n) =
      acc * 10 ^ (natToDigitsF fuel n).length + n := by
  intro fuel
  induction fuel with
  | zero => intro n h; omega
  | succ f ih =>
      intro n h
      by_cases h10 : n < 10
      · rw [natToDigitsF_succ, if_pos h10]
        refine ⟨?_, List.cons_ne_nil _ _, ?_⟩
        · show (is_digit (digitChar n) && true) = true
          rw [digitChar_is_digit n h10]
          rfl
        · intro acc
          show acc * 10 + digitVal (digitChar n) = acc * 10 ^ (1 : Nat) + n
          rw [digitVal_digitChar n h10, pow_one]
      · have hdiv : n / 10 < f := by
          have h1 : n / 10 < n := Nat.div_lt_self (by omega) (by omega)
          omega
        obtain ⟨iha, ihn, ihv⟩ := ih (n / 10) hdiv
        rw [natToDigitsF_succ, if_neg h10]
        refine ⟨?_, by simp, ?_⟩
        · rw [List.all_append, iha]
          show (true && (is_digit (digitChar (n % 10)) && true)) = true
          rw [digitChar_is_digit (n % 10) (Nat.mod_lt n (by omega))]
          rfl
        · intro acc
          rw [digitsToNat_append, ihv acc]
          have hlen : (natToDigitsF f (n / 10) ++ [digitChar (n % 10)]).length =
              (natToDigitsF f (n / 10)).length + 1 := by
            rw [List.length_append, List.length_cons, List.length_nil]
          show (acc * 10 ^ (natToDigitsF f (n / 10)).length + n / 10) * 10 +
              digitVal (digitChar (n % 10)) =
            acc * 10 ^ (natToDigitsF f (n / 10) ++ [digitChar (n % 10)]).length + n
          rw [digitVal_digitChar (n % 10) (Nat.mod_lt n (by omega)), hlen, pow_succ,
            ← Nat.mul_assoc]
          have hdm := Nat.div_add_mod n 10
          set X := acc * 10 ^ (natToDigitsF f (n / 10)).length
          omega

theorem natToDigits_all_digit (n : Nat) : (natToDigits n).all is_digit = true :=
  (natToDigitsF_spec (n + 1) n (by omega)).1

theorem natToDigits_ne_nil (n : Nat) : natToDigits n ≠ [] :=
  (natToDigitsF_spec (n + 1) n (by omega)).2.1

theorem digitsToNat_natToDigits (n : Nat) : digitsToNat 0 (natToDigits n) = n := by
  have := (natToDigitsF_spec (n + 1) n (by omega)).2.2 0
  simpa using this

theorem to_number_int_natToDigits (n : Nat) (h : n ≤ 2147483647) :
    to_number_int (natToDigits n) = some (n : Int) := by
  obtain ⟨c, t, hds⟩ : ∃ c t, natToDigits n = c :: t := by
    cases hd : natToDigits n with
    | nil => exact absurd hd (natToDigits_ne_nil n)
    | cons c t => exact ⟨c, t, rfl⟩
  have hall : (c :: t).all is_digit = true := hds ▸ natToDigits_all_digit n
  have hval : digitsToNat 0 (c :: t) = n := hds ▸ digitsToNat_natToDigits n
  have hc : is_digit c = true := by
    have := List.all_eq_true.mp hall c (List.mem_cons_self _ _)
    simpa using this
  rw [hds]
  unfold to_number_int
  split
  · rename_i ds heq
    have hcm : c = '-' := (List.cons.inj heq.symm).1.symm
    rw [hcm] at hc
    simp [is_digit] at hc
  · rename_i hne
    rw [hval]
    simp [hall, h]

theorem int_to_string_natCast (n : Nat) : int_to_string (n : Int) = natToDigits n := by
  rw [int_to_string, if_neg (by omega)]
  congr 1

theorem to_number_int_int_to_string (n : Int) (h0 : 0 ≤ n) (h : n ≤ 2147483647) :
    to_number_int (int_to_string n) = some n := by
  obtain ⟨m, rfl⟩ : ∃ m : Nat, n = (m : Int) := ⟨n.toNat, by omega⟩
  rw [int_to_string_natCast]
  exact to_number_int_natToDigits m (by omega)


/-! ## Lexer-run machinery -/


/-! Character-class facts. -/

theorem is_digit_ne_specials (c : Char) (h : is_digit c = true) :
    c ≠ ' ' ∧ c ≠ '\r' ∧ c ≠ '\t' ∧ c ≠ '#' ∧ c ≠ '=' ∧ c ≠ '\n' ∧ c ≠ '[' ∧
    c ≠ ']' ∧ c ≠ ',' ∧ c ≠ '"' ∧ c ≠ '.' := by
  refine ⟨?_, ?_, ?_, ?_, ?_, ?_, ?_, ?_, ?_, ?_, ?_⟩ <;>
    (rintro rfl; revert h; decide)

theorem is_ident_char_ne_specials (c : Char) (h : is_ident_char c = true) :
    c ≠ ' ' ∧ c ≠ '\r' ∧ c ≠ '\t' ∧ c ≠ '#' ∧ c ≠ '=' ∧ c ≠ '\n' ∧ c ≠ '[' ∧
    c ≠ ']' ∧ c ≠ ',' ∧ c ≠ '"' := by
  refine ⟨?_, ?_, ?_, ?_, ?_, ?_, ?_, ?_, ?_, ?_⟩ <;>
    (rintro rfl; revert h; decide)

theorem is_ident_char_not_digit (c : Char) (h : is_ident_char c = true) :
    is_digit c = false := by
  cases hx : is_digit c
  · rfl
  · exfalso
    simp only [is_digit, Bool.and_eq_true, decide_eq_true_eq] at hx
    obtain ⟨h0, h9⟩ := hx
    simp only [is_ident_char, is_alpha, Bool.or_eq_true, Bool.and_eq_true,
      decide_eq_true_eq] at h
    rcases h with ((⟨ha, _⟩ | ⟨hA, _⟩) | hu) | hm
    · exact absurd (le_trans ha h9) (by decide)
    · exact absurd (le_trans hA h9) (by decide)
    · subst hu; exact absurd h9 (by decide)
    · subst hm; exact absurd h0 (by decide)

/-! `skip` lemmas. -/

theorem skip_space (X : List Char) : skip (' ' :: X) = skip X := by
  simp [skip]

theorem skip_replicate (m : Nat) (X : List Char) :
    skip (List.replicate m ' ' ++ X) = skip X := by
  induction m with
  | zero => rfl
  | succ n ih =>
      rw [List.replicate_succ, List.cons_append, skip_space]
      exact ih

theorem skip_not_ws (c : Char) (cs : List Char) (h1 : c ≠ ' ') (h2 : c ≠ '\r')
    (h3 : c ≠ '\t') (h4 : c ≠ '#') : skip (c :: cs) = some (c :: cs) := by
  simp [skip, h1, h2, h3, h4]

/-! Scanner lemmas. -/

theorem scan_digits_append (ds : List Char) (h : ds.all is_digit = true)
    (c : Char) (rest : List Char) (hc : is_digit c = false) :
    scan_digits (ds ++ c :: rest) = (ds, c :: rest) := by
  induction ds with
  | nil => simp [scan_digits, hc]
  | cons d dt ih =>
      rw [List.all_cons, Bool.and_eq_true] at h
      rw [List.cons_append, scan_digits, if_pos h.1, ih h.2]

theorem scan_ident_append (w : List Char)
    (h : w.all (fun c => is_ident_char c || is_digit c) = true)
    (c : Char) (rest : List Char) (hc : (is_ident_char c || is_digit c) = false) :
    scan_ident (w ++ c :: rest) = (w, c :: rest) := by
  induction w with
  | nil => simp [scan_ident, hc]
  | cons d dt ih =>
      rw [List.all_cons, Bool.and_eq_true] at h
      rw [List.cons_append, scan_ident, if_pos h.1, ih h.2]

theorem scan_string_body_append (s : List Char) (h : ∀ c ∈ s, c ≠ '"')
    (rest : List Char) :
    scan_string_body (s ++ '"' :: rest) = some (s ++ ['"'], rest) := by
  induction s with
  | nil => simp [scan_string_body]
  | cons c ct ih =>
      have hc : c ≠ '"' := h c (List.mem_cons_self _ _)
      rw [List.cons_append, scan_string_body]
      rw [if_neg hc, ih (fun x hx => h x (List.mem_cons_of_mem _ hx))]
      simp

/-! `lex1` through `skip` + `lex1Core`. -/

theorem lex1_eq_core (pos : Nat) (rem : List Char) :
    lex1 pos rem =
      (match skip rem with
      | none => none
      | some rem' => lex1Core (pos + (rem.length - rem'.length)) rem') := rfl

theorem lex1Core_equal (q : Nat) (cs : List Char) :
    lex1Core q ('=' :: cs) = some (⟨.tEqual, ['='], q⟩, q + 1, cs) := rfl

theorem lex1Core_newline (q : Nat) (cs : List Char) :
    lex1Core q ('\n' :: cs) = some (⟨.tNewline, ['\n'], q⟩, q + 1, cs) := rfl

theorem lex1Core_lbracket (q : Nat) (cs : List Char) :
    lex1Core q ('[' :: cs) = some (⟨.tLBracket, ['['], q⟩, q + 1, cs) := rfl

theorem lex1Core_rbracket (q : Nat) (cs : List Char) :
    lex1Core q (']' :: cs) = some (⟨.tRBracket, [']'], q⟩, q + 1, cs) := rfl

theorem lex1Core_comma (q : Nat) (cs : List Char) :
    lex1Core q (',' :: cs) = some (⟨.tComma, [','], q⟩, q + 1, cs) := rfl

theorem lex1Core_string (q : Nat) (s rest : List Char) (h : ∀ c ∈ s, c ≠ '"') :
    lex1Core q ('"' :: (s ++ '"' :: rest)) =
      some (⟨.tString, '"' :: (s ++ ['"']), q⟩, q + 1 + (s ++ ['"']).length, rest) := by
  have hs := scan_string_body_append s h rest
  simp [lex1Core, hs]

theorem lex1Core_int (ds : List Char) (c : Char) (rest : List Char)
    (hall : ds.all is_digit = true) (hne : ds ≠ [])
    (hc : is_digit c = false) (hdot : c ≠ '.') :
    ∀ q, ∃ st p', lex1Core q (ds ++ c :: rest) =
      some (⟨.tInt, ds, st⟩, p', c :: rest) := by
  intro q
  cases ds with
  | nil => exact absurd rfl hne
  | cons d dt =>
      rw [List.all_cons, Bool.and_eq_true] at hall
      obtain ⟨-, -, -, -, h5, h6, h7, h8, h9, h10, -⟩ := is_digit_ne_specials d hall.1
      have hcomp : lex1Core q ((d :: dt) ++ c :: rest) =
          some (⟨.tInt, d :: dt, q⟩, q + 1 + dt.length, c :: rest) := by
        rw [List.cons_append, lex1Core]
        rw [if_neg h5, if_neg h6, if_neg h7, if_neg h8, if_neg h9, if_neg h10,
          if_pos hall.1]
        rw [scan_digits_append dt hall.2 c rest hc]
        split
        rename_i d1 r1 heq
        have hd1 : d1 = dt := (congrArg Prod.fst heq).symm
        have hr1 : r1 = c :: rest := (congrArg Prod.snd heq).symm
        subst hd1; subst hr1
        split
        · rename_i r2 heq2
          exact absurd (List.cons.inj heq2).1 hdot
        · rfl
      exact ⟨q, q + 1 + dt.length, hcomp⟩

theorem lex1Core_word (i : Char) (w : List Char) (c : Char) (rest : List Char)
    (hi : is_ident_char i = true)
    (hw : w.all (fun c => is_ident_char c || is_digit c) = true)
    (hc : (is_ident_char c || is_digit c) = false) :
    ∀ q, ∃ st p', lex1Core q ((i :: w) ++ c :: rest) =
      some (⟨if i :: w = "true".toList then .tTrue
             else if i :: w = "false".toList then .tFalse
             else .tIdent, i :: w, st⟩, p', c :: rest) := by
  intro q
  obtain ⟨-, -, -, -, h5, h6, h7, h8, h9, h10⟩ := is_ident_char_ne_specials i hi
  have hid : is_digit i = false := is_ident_char_not_digit i hi
  have hcomp : lex1Core q ((i :: w) ++ c :: rest) =
      some (⟨if i :: w = "true".toList then .tTrue
             else if i :: w = "false".toList then .tFalse
             else .tIdent, i :: w, q⟩, q + 1 + w.length, c :: rest) := by
    rw [List.cons_append, lex1Core]
    rw [if_neg h5, if_neg h6, if_neg h7, if_neg h8, if_neg h9, if_neg h10,
      if_neg (by rw [hid]; exact Bool.false_ne_true), if_pos hi]
    rw [scan_ident_append w hw c rest hc]
  exact ⟨q, q + 1 + w.length, hcomp⟩

/-! Building one `LexSteps` step. -/

theorem lexStep_build (X X₀ rem' : List Char) (ty : TokType) (tx : List Char)
    (hskip : skip X = some X₀)
    (hcore : ∀ q, ∃ st p', lex1Core q X₀ = some (⟨ty, tx, st⟩, p', rem')) :
    ∀ sp pos, ∃ st p', lex1 pos (List.replicate sp ' ' ++ X) =
      some (⟨ty, tx, st⟩, p', rem') := by
  intro sp pos
  obtain ⟨st, p', hc⟩ :=
    hcore (pos + ((List.replicate sp ' ' ++ X).length - X₀.length))
  refine ⟨st, p', ?_⟩
  rw [lex1_eq_core, skip_replicate, hskip]
  exact hc

theorem LexSteps_compose (k : List Char → Prop) (mid : List Char) :
    ∀ (ps1 ps2 : List (TokType × List Char)) (rem : List Char),
    LexSteps (fun r => r = mid) ps1 rem → LexSteps k ps2 mid →
    LexSteps k (ps1 ++ ps2) rem := by
  intro ps1
  induction ps1 with
  | nil =>
      intro ps2 rem h1 h2
      have he : rem = mid := h1
      exact he ▸ h2
  | cons p ps ih =>
      intro ps2 rem h1 h2
      obtain ⟨ty, tx⟩ := p
      obtain ⟨rem', hstep, hne, hrest⟩ := h1
      exact ⟨rem', hstep, hne, ih ps2 rem' hrest h2⟩

/-! `lexAllF` unfolding and fuel monotonicity. -/

theorem lexAllF_succ_any (f pos : Nat) (rem : List Char) :
    lexAllF (f + 1) pos rem =
      (match lex1 pos rem with
      | none => .diverge
      | some (t, pos', rem') =>
        if t.type = .tEnd then .toks [(t, rem'.isEmpty)]
        else
          match lexAllF f pos' rem' with
          | .toks l => .toks ((t, rem'.isEmpty) :: l)
          | r => r) := rfl

theorem lexAllF_zero (pos : Nat) (rem : List Char) :
    lexAllF 0 pos rem = .fuelOut := rfl

theorem lexAllF_mono : ∀ (f : Nat) (pos : Nat) (rem : List Char)
    (l : List (Tok × Bool)), lexAllF f pos rem = .toks l →
    ∀ g, f ≤ g → lexAllF g pos rem = .toks l := by
  intro f
  induction f with
  | zero =>
      intro pos rem l h
      rw [lexAllF_zero] at h
      exact absurd h (by simp)
  | succ f ih =>
      intro pos rem l h g hg
      obtain ⟨g', rfl⟩ : ∃ g', g = g' + 1 := ⟨g - 1, by omega⟩
      rw [lexAllF_succ_any] at h
      rw [lexAllF_succ_any]
      cases hl : lex1 pos rem with
      | none =>
          rw [hl] at h
          exact absurd h (by simp)
      | some tpr =>
          obtain ⟨t, pos', rem'⟩ := tpr
          rw [hl] at h
          simp only [] at h ⊢
          by_cases hend : t.type = .tEnd
          · rw [if_pos hend] at h ⊢
            exact h
          · rw [if_neg hend] at h ⊢
            cases hrec : lexAllF f pos' rem' with
            | toks l' =>
                rw [hrec] at h
                rw [ih pos' rem' l' hrec g' (by omega)]
                exact h
            | diverge => rw [hrec] at h; exact absurd h (by simp)
            | fuelOut => rw [hrec] at h; exact absurd h (by simp)


/-! ## Lexing of rendered values -/


theorem sepHead_facts (rest : List Char) (h : sepHead rest) :
    ∃ c t, rest = c :: t ∧ is_digit c = false ∧ c ≠ '.' ∧
      (is_ident_char c || is_digit c) = false := by
  obtain ⟨c, t, rfl, hc⟩ := h
  rcases hc with rfl | rfl | rfl
  · exact ⟨_, _, rfl, by decide, by decide, by decide⟩
  · exact ⟨_, _, rfl, by decide, by decide, by decide⟩
  · exact ⟨_, _, rfl, by decide, by decide, by decide⟩

theorem lexStep_build0 (X X₀ rem' : List Char) (ty : TokType) (tx : List Char)
    (hskip : skip X = some X₀)
    (hcore : ∀ q, ∃ st p', lex1Core q X₀ = some (⟨ty, tx, st⟩, p', rem')) :
    ∀ pos, ∃ st p', lex1 pos X = some (⟨ty, tx, st⟩, p', rem') :=
  lexStep_build X X₀ rem' ty tx hskip hcore 0

mutual

theorem val_lexSteps : ∀ (v : Value), WFVal v → ∀ (sp : Nat) (rest : List Char),
    sepHead rest →
    LexSteps (fun r => r = rest) (valPats v)
      (List.replicate sp ' ' ++ (Value.to_string v ++ rest)) := by
  intro v hwf sp rest hsep
  obtain ⟨c, t, hrest, hcd, hcdot, hcw⟩ := sepHead_facts rest hsep
  cases hwf with
  | int n h0 h31 =>
      obtain ⟨m, rfl⟩ : ∃ m : Nat, n = (m : Int) := ⟨n.toNat, by omega⟩
      show LexSteps _ [(.tInt, int_to_string (m : Int))] _
      refine ⟨rest, ?_, hrest ▸ List.cons_ne_nil c t, rfl⟩
      rw [int_to_string_natCast]
      show ∀ pos, ∃ st pos',
        lex1 pos (List.replicate sp ' ' ++ (natToDigits m ++ rest)) =
          some (⟨.tInt, natToDigits m, st⟩, pos', rest)
      obtain ⟨d, dt, hds⟩ : ∃ d dt, natToDigits m = d :: dt := by
        cases hd : natToDigits m with
        | nil => exact absurd hd (natToDigits_ne_nil m)
        | cons d dt => exact ⟨d, dt, rfl⟩
      have hall : (natToDigits m).all is_digit = true := natToDigits_all_digit m
      have hd1 : is_digit d = true := by
        rw [hds] at hall
        rw [List.all_cons, Bool.and_eq_true] at hall
        exact hall.1
      obtain ⟨w1, w2, w3, w4, -⟩ := is_digit_ne_specials d hd1
      refine lexStep_build _ (natToDigits m ++ rest) _ _ _ ?_ ?_ sp
      · rw [hds, List.cons_append]
        exact skip_not_ws d (dt ++ rest) w1 w2 w3 w4
      · intro q
        rw [hrest]
        exact lex1Core_int (natToDigits m) c t (natToDigits_all_digit m)
          (natToDigits_ne_nil m) hcd hcdot q
  | bool b =>
      cases b with
      | true =>
          show LexSteps _ [(.tTrue, "true".toList)] _
          refine ⟨rest, ?_, hrest ▸ List.cons_ne_nil c t, rfl⟩
          refine lexStep_build _ ("true".toList ++ rest) _ _ _ ?_ ?_ sp
          · exact skip_not_ws 't' _ (by decide) (by decide) (by decide) (by decide)
          · intro q
            rw [hrest]
            obtain ⟨st, p', hh⟩ := lex1Core_word 't' ['r', 'u', 'e'] c t
              (by decide) (by decide) hcw q
            rw [show (if 't' :: ['r', 'u', 'e'] = "true".toList then TokType.tTrue
                 else if 't' :: ['r', 'u', 'e'] = "false".toList then TokType.tFalse
                 else TokType.tIdent) = TokType.tTrue from by decide] at hh
            exact ⟨st, p', hh⟩
      | false =>
          show LexSteps _ [(.tFalse, "false".toList)] _
          refine ⟨rest, ?_, hrest ▸ List.cons_ne_nil c t, rfl⟩
          refine lexStep_build _ ("false".toList ++ rest) _ _ _ ?_ ?_ sp
          · exact skip_not_ws 'f' _ (by decide) (by decide) (by decide) (by decide)
          · intro q
            rw [hrest]
            obtain ⟨st, p', hh⟩ := lex1Core_word 'f' ['a', 'l', 's', 'e'] c t
              (by decide) (by decide) hcw q
            rw [show (if 'f' :: ['a', 'l', 's', 'e'] = "true".toList then TokType.tTrue
                 else if 'f' :: ['a', 'l', 's', 'e'] = "false".toList then TokType.tFalse
                 else TokType.tIdent) = TokType.tFalse from by decide] at hh
            exact ⟨st, p', hh⟩
  | str s hs =>
      show LexSteps _ [(.tString, '"' :: s ++ ['"'])] _
      refine ⟨rest, ?_, hrest ▸ List.cons_ne_nil c t, rfl⟩
      have hnq : ∀ x ∈ s, x ≠ '"' := fun x hx => (hs x hx).1
      refine lexStep_build _ ('"' :: (s ++ '"' :: rest)) _ _ _ ?_ ?_ sp
      · have htext : (Value.vStr s).to_string ++ rest = '"' :: (s ++ '"' :: rest) := by
          simp [Value.to_string]
        rw [htext]
        exact skip_not_ws '"' _ (by decide) (by decide) (by decide) (by decide)
      · intro q
        refine ⟨q, q + 1 + (s ++ ['"']).length, ?_⟩
        rw [lex1Core_string q s rest hnq]
        simp
  | list l hl =>
      show LexSteps _ ((.tLBracket, ['[']) :: elemsPats l ++ [(.tRBracket, [']'])]) _
      refine ⟨elemsString l ++ ']' :: rest, ?_, by simp, ?_⟩
      · refine lexStep_build _ ('[' :: (elemsString l ++ ']' :: rest)) _ _ _ ?_ ?_ sp
        · have htext : (Value.vList l).to_string ++ rest =
              '[' :: (elemsString l ++ ']' :: rest) := by
            simp [Value.to_string]
          rw [htext]
          exact skip_not_ws '[' _ (by decide) (by decide) (by decide) (by decide)
        · intro q
          exact ⟨q, q + 1, lex1Core_lbracket q _⟩
      · refine LexSteps_compose _ (']' :: rest) _ _ _ (elems_lexSteps l hl rest) ?_
        refine ⟨rest, ?_, hrest ▸ List.cons_ne_nil c t, rfl⟩
        refine lexStep_build0 _ (']' :: rest) _ _ _ ?_ ?_
        · exact skip_not_ws ']' _ (by decide) (by decide) (by decide) (by decide)
        · intro q
          exact ⟨q, q + 1, lex1Core_rbracket q _⟩

theorem elems_lexSteps : ∀ (l : List Value), (∀ v ∈ l, WFVal v) →
    ∀ (rest : List Char),
    LexSteps (fun r => r = ']' :: rest) (elemsPats l)
      (elemsString l ++ ']' :: rest) := by
  intro l hl rest
  cases l with
  | nil => show (([] : List Char) ++ ']' :: rest) = ']' :: rest; simp
  | cons v vs =>
      show LexSteps _ (valPats v ++ restPats vs) ((Value.to_string v ++ restString vs) ++ ']' :: rest)
      have htext : (Value.to_string v ++ restString vs) ++ ']' :: rest =
          Value.to_string v ++ (restString vs ++ ']' :: rest) := by
        simp
      rw [htext]
      refine LexSteps_compose _ (restString vs ++ ']' :: rest) _ _ _ ?_ ?_
      · have hsep : sepHead (restString vs ++ ']' :: rest) := by
          cases vs with
          | nil => exact ⟨']', rest, rfl, Or.inr (Or.inr rfl)⟩
          | cons v' vs' => exact ⟨',', _, rfl, Or.inr (Or.inl rfl)⟩
        have := val_lexSteps v (hl v (List.mem_cons_self _ _)) 0
          (restString vs ++ ']' :: rest) hsep
        exact this
      · exact rest_lexSteps vs (fun x hx => hl x (List.mem_cons_of_mem _ hx)) rest

theorem rest_lexSteps : ∀ (l : List Value), (∀ v ∈ l, WFVal v) →
    ∀ (rest : List Char),
    LexSteps (fun r => r = ']' :: rest) (restPats l)
      (restString l ++ ']' :: rest) := by
  intro l hl rest
  cases l with
  | nil => show (([] : List Char) ++ ']' :: rest) = ']' :: rest; simp
  | cons v vs =>
      show LexSteps _ ((.tComma, [',']) :: valPats v ++ restPats vs)
        ((',' :: ' ' :: Value.to_string v ++ restString vs) ++ ']' :: rest)
      refine ⟨' ' :: (Value.to_string v ++ (restString vs ++ ']' :: rest)), ?_, by simp, ?_⟩
      · refine lexStep_build0 _
          (',' :: (' ' :: (Value.to_string v ++ (restString vs ++ ']' :: rest)))) _ _ _ ?_ ?_
        · have : (',' :: ' ' :: Value.to_string v ++ restString vs) ++ ']' :: rest =
              ',' :: (' ' :: (Value.to_string v ++ (restString vs ++ ']' :: rest))) := by
            simp
          rw [this]
          exact skip_not_ws ',' _ (by decide) (by decide) (by decide) (by decide)
        · intro q
          exact ⟨q, q + 1, lex1Core_comma q _⟩
      · have hsep : sepHead (restString vs ++ ']' :: rest) := by
          cases vs with
          | nil => exact ⟨']', rest, rfl, Or.inr (Or.inr rfl)⟩
          | cons v' vs' => exact ⟨',', _, rfl, Or.inr (Or.inl rfl)⟩
        refine LexSteps_compose _ (restString vs ++ ']' :: rest) _ _ _ ?_ ?_
        · have := val_lexSteps v (hl v (List.mem_cons_self _ _)) 1
            (restString vs ++ ']' :: rest) hsep
          exact this
        · exact rest_lexSteps vs (fun x hx => hl x (List.mem_cons_of_mem _ hx)) rest

end


/-! ## Lexing of serialized entries -/


theorem replicate_cons_shift (m : Nat) (a : Char) (Z : List Char) :
    List.replicate m a ++ a :: Z = a :: (List.replicate m a ++ Z) := by
  induction m with
  | zero => rfl
  | succ n ih => simp only [List.replicate_succ, List.cons_append, ih]

theorem lexAllF_of_LexSteps (fin : List Char) (C : List (Tok × Bool) → Prop) :
    ∀ (ps : List (TokType × List Char)) (rem : List Char),
    LexSteps (fun r => r = fin) ps rem →
    (∀ pt ∈ ps, pt.1 ≠ TokType.tEnd) →
    ∀ f, (∀ pos, ∃ out, lexAllF f pos fin = .toks out ∧ C out) →
    ∀ pos, ∃ pre out, lexAllF (ps.length + f) pos rem = .toks (pre ++ out) ∧
      pre.map (fun tb => (tb.1.type, tb.1.text)) = ps ∧
      (∀ tb ∈ pre, tb.2 = false) ∧ C out := by
  intro ps
  induction ps with
  | nil =>
      intro rem hsteps hne f hk pos
      have he : rem = fin := hsteps
      obtain ⟨out, hout, hC⟩ := hk pos
      refine ⟨[], out, ?_, rfl, by simp, hC⟩
      have hlen : ([] : List (TokType × List Char)).length + f = f := by simp
      rw [hlen, he, List.nil_append]
      exact hout
  | cons p ps ih =>
      intro rem hsteps hne f hk pos
      obtain ⟨ty, tx⟩ := p
      obtain ⟨rem', hstep, hrne, hrest⟩ := hsteps
      obtain ⟨st, pos', hlex⟩ := hstep pos
      obtain ⟨pre, out, hrec, hmap, hfl, hC⟩ :=
        ih rem' hrest (fun pt hm => hne pt (List.mem_cons_of_mem _ hm)) f hk pos'
      have hnotend : (⟨ty, tx, st⟩ : Tok).type ≠ TokType.tEnd :=
        hne (ty, tx) (List.mem_cons_self _ _)
      have hempty : rem'.isEmpty = false := by
        cases rem' with
        | nil => exact absurd rfl hrne
        | cons a l => rfl
      refine ⟨(⟨ty, tx, st⟩, false) :: pre, out, ?_, ?_, ?_, hC⟩
      · have hlen : ((ty, tx) :: ps).length + f = (ps.length + f) + 1 := by
          rw [List.length_cons]; omega
        rw [hlen, lexAllF_succ_any, hlex]
        simp only []
        rw [if_neg hnotend, hrec, hempty]
        simp
      · rw [List.map_cons, hmap]
      · intro tb htb
        rcases List.mem_cons.mp htb with hh | ht
        · rw [hh]
        · exact hfl tb ht

theorem identKeyB_facts (k : Key) (h : identKeyB k = true) :
    ∃ i kw, k = i :: kw ∧ is_ident_char i = true ∧
      kw.all (fun c => is_ident_char c || is_digit c) = true ∧
      k ≠ "true".toList ∧ k ≠ "false".toList := by
  cases k with
  | nil => exact absurd h (by decide)
  | cons i kw =>
      simp only [identKeyB, Bool.and_eq_true, Bool.not_eq_true'] at h
      obtain ⟨⟨⟨h1, h2⟩, h3⟩, h4⟩ := h
      refine ⟨i, kw, rfl, h1, h2, ?_, ?_⟩
      · intro he
        rw [he] at h3
        simp at h3
      · intro he
        rw [he] at h4
        simp at h4

mutual

theorem valPats_kinds : ∀ (v : Value), ∀ pt ∈ valPats v,
    pt.1 ≠ TokType.tEnd ∧ pt.1 ≠ TokType.tUnterminated ∧
    pt.1 ≠ TokType.tInvalidChar := by
  intro v pt hm
  cases v with
  | vInt n =>
      rw [valPats] at hm
      rcases List.mem_singleton.mp hm with rfl
      exact ⟨(fun h => nomatch h), (fun h => nomatch h), (fun h => nomatch h)⟩
  | vFloat lit =>
      rw [valPats] at hm
      rcases List.mem_singleton.mp hm with rfl
      exact ⟨(fun h => nomatch h), (fun h => nomatch h), (fun h => nomatch h)⟩
  | vBool b =>
      rw [valPats] at hm
      cases b with
      | true =>
          rw [if_pos rfl] at hm
          rcases List.mem_singleton.mp hm with rfl
          exact ⟨(fun h => nomatch h), (fun h => nomatch h), (fun h => nomatch h)⟩
      | false =>
          rw [if_neg (by decide)] at hm
          rcases List.mem_singleton.mp hm with rfl
          exact ⟨(fun h => nomatch h), (fun h => nomatch h), (fun h => nomatch h)⟩
  | vStr s =>
      rw [valPats] at hm
      rcases List.mem_singleton.mp hm with rfl
      exact ⟨(fun h => nomatch h), (fun h => nomatch h), (fun h => nomatch h)⟩
  | vList l =>
      rw [valPats] at hm
      rcases List.mem_cons.mp hm with rfl | hm2
      · exact ⟨(fun h => nomatch h), (fun h => nomatch h), (fun h => nomatch h)⟩
      · rcases List.mem_append.mp hm2 with hm3 | hm4
        · exact elemsPats_kinds l pt hm3
        · rcases List.mem_singleton.mp hm4 with rfl
          exact ⟨(fun h => nomatch h), (fun h => nomatch h), (fun h => nomatch h)⟩

theorem elemsPats_kinds : ∀ (l : List Value), ∀ pt ∈ elemsPats l,
    pt.1 ≠ TokType.tEnd ∧ pt.1 ≠ TokType.tUnterminated ∧
    pt.1 ≠ TokType.tInvalidChar := by
  intro l pt hm
  cases l with
  | nil => rw [elemsPats] at hm; exact absurd hm (List.not_mem_nil pt)
  | cons v vs =>
      rw [elemsPats] at hm
      rcases List.mem_append.mp hm with hm1 | hm2
      · exact valPats_kinds v pt hm1
      · exact restPats_kinds vs pt hm2

theorem restPats_kinds : ∀ (l : List Value), ∀ pt ∈ restPats l,
    pt.1 ≠ TokType.tEnd ∧ pt.1 ≠ TokType.tUnterminated ∧
    pt.1 ≠ TokType.tInvalidChar := by
  intro l pt hm
  cases l with
  | nil => rw [restPats] at hm; exact absurd hm (List.not_mem_nil pt)
  | cons v vs =>
      rw [restPats] at hm
      rcases List.mem_cons.mp hm with rfl | hm2
      · exact ⟨(fun h => nomatch h), (fun h => nomatch h), (fun h => nomatch h)⟩
      · rcases List.mem_append.mp hm2 with hm3 | hm4
        · exact valPats_kinds v pt hm3
        · exact restPats_kinds vs pt hm4

end

theorem entry_steps (w : Nat) (k : Key) (v : Value)
    (hkey : identKeyB k = true) (hval : WFVal v) (tail : List Char) :
    LexSteps (fun r => r = '\n' :: tail)
      ((.tIdent, k) :: (.tEqual, ['=']) :: valPats v)
      (entry_line w (k, v) ++ tail) := by
  obtain ⟨i, kw, hk, hik, hkw, hnt, hnf⟩ := identKeyB_facts k hkey
  obtain ⟨w1, w2, w3, w4, -⟩ := is_ident_char_ne_specials i hik
  have htext : entry_line w (k, v) ++ tail =
      k ++ (' ' :: (List.replicate (w - k.length) ' ' ++
        ('=' :: (' ' :: (Value.to_string v ++ ('\n' :: tail)))))) := by
    simp [entry_line, pad_key, List.append_assoc, replicate_cons_shift]
  rw [htext]
  refine ⟨' ' :: (List.replicate (w - k.length) ' ' ++
      ('=' :: (' ' :: (Value.to_string v ++ ('\n' :: tail))))), ?_, List.cons_ne_nil _ _, ?_⟩
  · -- the Ident token
    refine lexStep_build0
      (k ++ (' ' :: (List.replicate (w - k.length) ' ' ++
        ('=' :: (' ' :: (Value.to_string v ++ ('\n' :: tail)))))))
      (k ++ (' ' :: (List.replicate (w - k.length) ' ' ++
        ('=' :: (' ' :: (Value.to_string v ++ ('\n' :: tail)))))))
      _ _ _ ?_ ?_
    · rw [hk]
      exact skip_not_ws i _ w1 w2 w3 w4
    · intro q
      rw [hk]
      obtain ⟨st, p', hh⟩ := lex1Core_word i kw ' '
        (List.replicate (w - (i :: kw).length) ' ' ++
          ('=' :: (' ' :: (Value.to_string v ++ ('\n' :: tail)))))
        hik hkw (by decide) q
      rw [if_neg (show i :: kw ≠ "true".toList from hk ▸ hnt),
        if_neg (show i :: kw ≠ "false".toList from hk ▸ hnf)] at hh
      exact ⟨st, p', hh⟩
  · -- the Equal token
    refine ⟨' ' :: (Value.to_string v ++ ('\n' :: tail)), ?_, List.cons_ne_nil _ _, ?_⟩
    · intro pos
      exact lexStep_build ('=' :: (' ' :: (Value.to_string v ++ ('\n' :: tail))))
        ('=' :: (' ' :: (Value.to_string v ++ ('\n' :: tail))))
        (' ' :: (Value.to_string v ++ ('\n' :: tail))) .tEqual ['=']
        (skip_not_ws '=' _ (by decide) (by decide) (by decide) (by decide))
        (fun q => ⟨q, q + 1, lex1Core_equal q _⟩) (w - k.length + 1) pos
    · -- the value tokens
      exact val_lexSteps v hval 1 ('\n' :: tail) ⟨'\n', tail, rfl, Or.inl rfl⟩

theorem entries_lexAll : ∀ (es : List (Key × Value)) (w : Nat),
    (∀ kv ∈ es, identKeyB kv.1 = true ∧ WFVal kv.2) →
    ∀ f, entryTokCount es ≤ f →
    ∀ pos, ∃ ts, lexAllF f pos ((es.map (entry_line w)).flatten) = .toks ts ∧
      EntryToks es ts := by
  intro es
  induction es with
  | nil =>
      intro w _ f hf pos
      obtain ⟨g, rfl⟩ : ∃ g, f = g + 1 := by
        rw [entryTokCount] at hf
        exact ⟨f - 1, by omega⟩
      refine ⟨[(⟨.tEnd, [], pos⟩, true)], ?_, ⟨pos, rfl⟩⟩
      show lexAllF (g + 1) pos ([] : List Char) = _
      rw [lexAllF_succ_nil]
  | cons kv es' ih =>
      intro w hwf f hf pos
      obtain ⟨k, v⟩ := kv
      obtain ⟨hkey, hval⟩ := hwf (k, v) (List.mem_cons_self _ _)
      have hwf' : ∀ kv ∈ es', identKeyB kv.1 = true ∧ WFVal kv.2 :=
        fun kv hm => hwf kv (List.mem_cons_of_mem _ hm)
      have hflat : ((((k, v) :: es').map (entry_line w)).flatten : List Char) =
          entry_line w (k, v) ++ (es'.map (entry_line w)).flatten := by
        simp
      have hsteps := entry_steps w k v hkey hval ((es'.map (entry_line w)).flatten)
      have hnotend : ∀ pt ∈ ((.tIdent, k) :: (.tEqual, ['=']) :: valPats v :
          List (TokType × List Char)), pt.1 ≠ TokType.tEnd := by
        intro pt hm
        rcases List.mem_cons.mp hm with rfl | hm2
        · exact fun h => nomatch h
        · rcases List.mem_cons.mp hm2 with rfl | hm3
          · exact fun h => nomatch h
          · exact (valPats_kinds v pt hm3).1
      have hcont : ∀ pos0, ∃ out,
          lexAllF (entryTokCount es' + 1) pos0
            ('\n' :: (es'.map (entry_line w)).flatten) = .toks out ∧
          (∃ pNl bNl ts', out = (⟨.tNewline, ['\n'], pNl⟩, bNl) :: ts' ∧
            EntryToks es' ts') := by
        intro pos0
        obtain ⟨st, p', hlex⟩ := lexStep_build0
          ('\n' :: (es'.map (entry_line w)).flatten)
          ('\n' :: (es'.map (entry_line w)).flatten)
          ((es'.map (entry_line w)).flatten) .tNewline ['\n']
          (skip_not_ws '\n' _ (by decide) (by decide) (by decide) (by decide))
          (fun q => ⟨q, q + 1, lex1Core_newline q _⟩) pos0
        obtain ⟨ts', hts', hE⟩ := ih w hwf' (entryTokCount es') (Nat.le_refl _) p'
        refine ⟨(⟨.tNewline, ['\n'], st⟩, ((es'.map (entry_line w)).flatten).isEmpty) :: ts',
          ?_, st, _, ts', rfl, hE⟩
        rw [lexAllF_succ_any, hlex]
        simp only []
        rw [if_neg (by decide), hts']
  -- run the bridge and assemble the stream
      obtain ⟨pre, out, hrun, hmap, hfl, hC⟩ :=
        lexAllF_of_LexSteps ('\n' :: (es'.map (entry_line w)).flatten)
          (fun out => ∃ pNl bNl ts', out = (⟨.tNewline, ['\n'], pNl⟩, bNl) :: ts' ∧
            EntryToks es' ts')
          ((.tIdent, k) :: (.tEqual, ['=']) :: valPats v)
          ((((k, v) :: es').map (entry_line w)).flatten)
          (by rw [hflat]; exact hsteps) hnotend
          (entryTokCount es' + 1) hcont pos
      have hles : ((.tIdent, k) :: (.tEqual, ['=']) :: valPats v :
          List (TokType × List Char)).length + (entryTokCount es' + 1) ≤ f := by
        rw [entryTokCount] at hf
        simp only [List.length_cons] at hf ⊢
        omega
      have hrun' := lexAllF_mono _ pos _ _ hrun f hles
      refine ⟨pre ++ out, hrun', ?_⟩
      -- destructure pre into ident, equal and the value tokens
      cases pre with
      | nil => simp at hmap
      | cons tb1 pre1 =>
          cases pre1 with
          | nil =>
              rw [List.map_cons] at hmap
              have := congrArg List.length hmap
              simp at this
          | cons tb2 tsV =>
              rw [List.map_cons, List.map_cons] at hmap
              have h1 := (List.cons.inj hmap).1
              have hmap2 := (List.cons.inj hmap).2
              have h2 := (List.cons.inj hmap2).1
              have hmapV := (List.cons.inj hmap2).2
              obtain ⟨⟨ty1, tx1, po1⟩, b1⟩ := tb1
              obtain ⟨⟨ty2, tx2, po2⟩, b2⟩ := tb2
              simp only [Prod.mk.injEq] at h1 h2
              obtain ⟨hty1, htx1⟩ := h1
              obtain ⟨hty2, htx2⟩ := h2
              have hb1 : b1 = false := hfl _ (List.mem_cons_self _ _)
              have hb2 : b2 = false :=
                hfl _ (List.mem_cons_of_mem _ (List.mem_cons_self _ _))
              obtain ⟨pNl, bNl, ts', hout, hE⟩ := hC
              show EntryToks ((k, v) :: es') _
              refine ⟨po1, po2, tsV, pNl, bNl, ts', ?_, hmapV, ?_, hE⟩
              · subst hty1; subst htx1; subst hty2; subst htx2
                subst hb1; subst hb2; subst hout
                simp
              · intro tb htb
                exact hfl tb
                  (List.mem_cons_of_mem _ (List.mem_cons_of_mem _ htb))


/-! ## Token-count bounds and tokenization of serialized data -/


mutual

theorem valPats_len : ∀ (v : Value), WFVal v →
    (valPats v).length ≤ (Value.to_string v).length := by
  intro v h
  cases h with
  | int n h0 h31 =>
      obtain ⟨m, rfl⟩ : ∃ m : Nat, n = (m : Int) := ⟨n.toNat, by omega⟩
      show 1 ≤ (int_to_string (m : Int)).length
      rw [int_to_string_natCast]
      have := natToDigits_ne_nil m
      have hpos : 0 < (natToDigits m).length := List.length_pos.mpr this
      omega
  | bool b =>
      cases b with
      | true => show 1 ≤ (Value.to_string (.vBool true)).length; decide
      | false => show 1 ≤ (Value.to_string (.vBool false)).length; decide
  | str s hstr =>
      show 1 ≤ ('"' :: s ++ ['"']).length
      simp
  | list l hl =>
      show ((TokType.tLBracket, ['[']) :: elemsPats l ++ [(TokType.tRBracket, [']'])]).length ≤
        ('[' :: elemsString l ++ [']']).length
      have := elemsPats_len l hl
      simp only [List.length_cons, List.length_append, List.length_cons,
        List.length_nil]
      omega

theorem elemsPats_len : ∀ (l : List Value), (∀ v ∈ l, WFVal v) →
    (elemsPats l).length ≤ (elemsString l).length := by
  intro l hl
  cases l with
  | nil => exact Nat.le_refl _
  | cons v vs =>
      show (valPats v ++ restPats vs).length ≤
        (Value.to_string v ++ restString vs).length
      have h1 := valPats_len v (hl v (List.mem_cons_self _ _))
      have h2 := restPats_len vs (fun x hx => hl x (List.mem_cons_of_mem _ hx))
      simp only [List.length_append]
      omega

theorem restPats_len : ∀ (l : List Value), (∀ v ∈ l, WFVal v) →
    (restPats l).length ≤ (restString l).length := by
  intro l hl
  cases l with
  | nil => exact Nat.le_refl _
  | cons v vs =>
      show ((TokType.tComma, [',']) :: valPats v ++ restPats vs).length ≤
        (',' :: ' ' :: Value.to_string v ++ restString vs).length
      have h1 := valPats_len v (hl v (List.mem_cons_self _ _))
      have h2 := restPats_len vs (fun x hx => hl x (List.mem_cons_of_mem _ hx))
      simp only [List.length_cons, List.length_append]
      omega

end

theorem entryTokCount_le : ∀ (es : List (Key × Value)) (w : Nat),
    (∀ kv ∈ es, identKeyB kv.1 = true ∧ WFVal kv.2) →
    entryTokCount es ≤ ((es.map (entry_line w)).flatten).length + 1 := by
  intro es
  induction es with
  | nil => intro w _; rw [entryTokCount]; simp
  | cons kv es' ih =>
      intro w hwf
      obtain ⟨k, v⟩ := kv
      obtain ⟨hkey, hval⟩ := hwf (k, v) (List.mem_cons_self _ _)
      have ihh := ih w (fun kv hm => hwf kv (List.mem_cons_of_mem _ hm))
      have hk1 : 1 ≤ k.length := by
        cases k with
        | nil => exact absurd hkey (by simp [identKeyB])
        | cons a t => simp
      have hvp := valPats_len v hval
      have hflat : ((((k, v) :: es').map (entry_line w)).flatten : List Char) =
          entry_line w (k, v) ++ (es'.map (entry_line w)).flatten := by
        simp
      rw [entryTokCount, hflat]
      have hel : (entry_line w (k, v)).length =
          k.length + (w - k.length) + 3 + (Value.to_string v).length + 1 := by
        simp [entry_line, pad_key]
        omega
      simp only [List.length_append, hel]
      omega

theorem tokenize_entries (es : List (Key × Value)) (w : Nat)
    (hwf : ∀ kv ∈ es, identKeyB kv.1 = true ∧ WFVal kv.2) :
    ∃ ts, tokenize ((es.map (entry_line w)).flatten) = .toks ts ∧
      EntryToks es ts := by
  have hcnt := entryTokCount_le es w hwf
  exact entries_lexAll es w hwf (((es.map (entry_line w)).flatten).length + 1) hcnt 0


/-! ## Parser micro-steps -/


/-! Parser micro-steps on materialised states. -/

theorem pmatch_miss (ty : TokType) (p : Tok) (cty : TokType) (ctx : List Char)
    (cpos : Nat) (b : Bool) (r : List (Tok × Bool)) (tx : List Char) (d : Data)
    (h : cty ≠ ty) :
    pmatch ty ⟨p, ⟨cty, ctx, cpos⟩, b, r, tx, d⟩ =
      .ok false ⟨p, ⟨cty, ctx, cpos⟩, b, r, tx, d⟩ := by
  simp [pmatch, h]

theorem pmatch_hit (ty : TokType) (p : Tok) (cty : TokType) (ctx : List Char)
    (cpos : Nat) (b : Bool) (t : Tok) (b' : Bool) (r : List (Tok × Bool))
    (tx : List Char) (d : Data) (hty : cty = ty)
    (h1 : t.type ≠ .tUnterminated) (h2 : t.type ≠ .tInvalidChar) :
    pmatch ty ⟨p, ⟨cty, ctx, cpos⟩, b, (t, b') :: r, tx, d⟩ =
      .ok true ⟨⟨cty, ctx, cpos⟩, t, b', r, tx, d⟩ := by
  simp [pmatch, hty, padvance, popTok, h1, h2, PRes.bind]

theorem pconsume_hit (ty : TokType) (k : EKind) (p : Tok) (cty : TokType)
    (ctx : List Char) (cpos : Nat) (b : Bool) (t : Tok) (b' : Bool)
    (r : List (Tok × Bool)) (tx : List Char) (d : Data) (hty : cty = ty)
    (h1 : t.type ≠ .tUnterminated) (h2 : t.type ≠ .tInvalidChar) :
    pconsume ty k ⟨p, ⟨cty, ctx, cpos⟩, b, (t, b') :: r, tx, d⟩ =
      .ok () ⟨⟨cty, ctx, cpos⟩, t, b', r, tx, d⟩ := by
  simp [pconsume, hty, padvance, popTok, h1, h2]

/-- `parse_value` on a non-value token: every `match_token` fails and the
state is unchanged. -/
theorem parse_valueF_none (g : Nat) (p : Tok) (cty : TokType) (ctx : List Char)
    (cpos : Nat) (b : Bool) (r : List (Tok × Bool)) (tx : List Char) (d : Data)
    (h1 : cty ≠ .tInt) (h2 : cty ≠ .tFloat) (h3 : cty ≠ .tString)
    (h4 : cty ≠ .tTrue) (h5 : cty ≠ .tFalse) (h6 : cty ≠ .tLBracket) :
    parse_valueF (g + 1) ⟨p, ⟨cty, ctx, cpos⟩, b, r, tx, d⟩ =
      .ok none ⟨p, ⟨cty, ctx, cpos⟩, b, r, tx, d⟩ := by
  rw [parse_valueF_succ]
  rw [pmatch_miss _ _ _ _ _ _ _ _ _ h1, bind_ok]
  rw [if_neg (by simp)]
  rw [pmatch_miss _ _ _ _ _ _ _ _ _ h2, bind_ok]
  rw [if_neg (by simp)]
  rw [pmatch_miss _ _ _ _ _ _ _ _ _ h3, bind_ok]
  rw [if_neg (by simp)]
  rw [pmatch_miss _ _ _ _ _ _ _ _ _ h4, bind_ok]
  rw [if_neg (by simp)]
  rw [pmatch_miss _ _ _ _ _ _ _ _ _ h5, bind_ok]
  rw [if_neg (by simp)]
  rw [pmatch_miss _ _ _ _ _ _ _ _ _ h6, bind_ok]
  rw [if_neg (by simp)]


/-! ## Stream-state lemmas -/


theorem map_eq_append_split {α β : Type} (f : α → β) :
    ∀ (s1 : List β) (l : List α) (s2 : List β), l.map f = s1 ++ s2 →
    ∃ l1 l2, l = l1 ++ l2 ∧ l1.map f = s1 ∧ l2.map f = s2 := by
  intro s1
  induction s1 with
  | nil => intro l s2 h; exact ⟨[], l, rfl, rfl, h⟩
  | cons x s1' ih =>
      intro l s2 h
      cases l with
      | nil => simp at h
      | cons a l' =>
          rw [List.map_cons, List.cons_append] at h
          have h1 := (List.cons.inj h).1
          have h2 := (List.cons.inj h).2
          obtain ⟨l1, l2, rfl, hm1, hm2⟩ := ih l' s2 h2
          exact ⟨a :: l1, l2, rfl, by rw [List.map_cons, hm1, h1], hm2⟩

theorem valPats_ne_nil (v : Value) : valPats v ≠ [] := by
  cases v with
  | vInt n => exact List.cons_ne_nil _ _
  | vFloat lit => exact List.cons_ne_nil _ _
  | vBool b =>
      cases b with
      | true => rw [valPats, if_pos rfl]; exact List.cons_ne_nil _ _
      | false => rw [valPats, if_neg (by decide)]; exact List.cons_ne_nil _ _
  | vStr s => exact List.cons_ne_nil _ _
  | vList l => exact List.cons_ne_nil _ _

theorem toks_kinds_of_map (ts : List (Tok × Bool)) (ps : List (TokType × List Char))
    (hmap : ts.map (fun tb => (tb.1.type, tb.1.text)) = ps)
    (hps : ∀ pt ∈ ps, pt.1 ≠ TokType.tEnd ∧ pt.1 ≠ TokType.tUnterminated ∧
      pt.1 ≠ TokType.tInvalidChar) :
    ∀ tb ∈ ts, tb.1.type ≠ TokType.tUnterminated ∧
      tb.1.type ≠ TokType.tInvalidChar := by
  intro tb htb
  have hm : (tb.1.type, tb.1.text) ∈ ps := by
    rw [← hmap]
    exact List.mem_map.mpr ⟨tb, htb, rfl⟩
  exact ⟨(hps _ hm).2.1, (hps _ hm).2.2⟩

theorem popTok_stream (p c : Tok) (b : Bool) (ts : List (Tok × Bool)) (ta : Tok)
    (ba : Bool) (aft : List (Tok × Bool)) (tx : List Char) (d : Data) :
    popTok ⟨p, c, b, ts ++ (ta, ba) :: aft, tx, d⟩ = stream_st c ts ta ba aft tx d := by
  cases ts with
  | nil => rfl
  | cons tb ts' => obtain ⟨t, b'⟩ := tb; rfl

theorem stream_cur_ok (c : Tok) (ts : List (Tok × Bool)) (ta : Tok) (ba : Bool)
    (aft : List (Tok × Bool)) (tx : List Char) (d : Data)
    (hts : ∀ tb ∈ ts, tb.1.type ≠ TokType.tUnterminated ∧
      tb.1.type ≠ TokType.tInvalidChar)
    (hR1 : ta.type ≠ TokType.tUnterminated) (hR2 : ta.type ≠ TokType.tInvalidChar) :
    (stream_st c ts ta ba aft tx d).cur.type ≠ TokType.tUnterminated ∧
    (stream_st c ts ta ba aft tx d).cur.type ≠ TokType.tInvalidChar := by
  cases ts with
  | nil => exact ⟨hR1, hR2⟩
  | cons tb ts' =>
      obtain ⟨t, b'⟩ := tb
      exact hts (t, b') (List.mem_cons_self _ _)

theorem padvance_stream (p c : Tok) (b : Bool) (ts : List (Tok × Bool)) (ta : Tok)
    (ba : Bool) (aft : List (Tok × Bool)) (tx : List Char) (d : Data)
    (h1 : (stream_st c ts ta ba aft tx d).cur.type ≠ TokType.tUnterminated)
    (h2 : (stream_st c ts ta ba aft tx d).cur.type ≠ TokType.tInvalidChar) :
    padvance ⟨p, c, b, ts ++ (ta, ba) :: aft, tx, d⟩ =
      .ok () (stream_st c ts ta ba aft tx d) := by
  rw [padvance, popTok_stream]
  rw [if_neg h1, if_neg h2]

theorem pmatch_hit_stream (ty : TokType) (p : Tok) (cty : TokType) (ctx : List Char)
    (cpos : Nat) (b : Bool) (ts : List (Tok × Bool)) (ta : Tok) (ba : Bool)
    (aft : List (Tok × Bool)) (tx : List Char) (d : Data) (hty : cty = ty)
    (h1 : (stream_st ⟨cty, ctx, cpos⟩ ts ta ba aft tx d).cur.type ≠ TokType.tUnterminated)
    (h2 : (stream_st ⟨cty, ctx, cpos⟩ ts ta ba aft tx d).cur.type ≠ TokType.tInvalidChar) :
    pmatch ty ⟨p, ⟨cty, ctx, cpos⟩, b, ts ++ (ta, ba) :: aft, tx, d⟩ =
      .ok true (stream_st ⟨cty, ctx, cpos⟩ ts ta ba aft tx d) := by
  rw [pmatch, if_neg (by simp [hty])]
  rw [padvance_stream _ _ _ _ _ _ _ _ _ h1 h2]
  rfl

theorem pconsume_hit_stream (ty : TokType) (k : EKind) (p : Tok) (cty : TokType)
    (ctx : List Char) (cpos : Nat) (b : Bool) (ts : List (Tok × Bool)) (ta : Tok)
    (ba : Bool) (aft : List (Tok × Bool)) (tx : List Char) (d : Data) (hty : cty = ty)
    (h1 : (stream_st ⟨cty, ctx, cpos⟩ ts ta ba aft tx d).cur.type ≠ TokType.tUnterminated)
    (h2 : (stream_st ⟨cty, ctx, cpos⟩ ts ta ba aft tx d).cur.type ≠ TokType.tInvalidChar) :
    pconsume ty k ⟨p, ⟨cty, ctx, cpos⟩, b, ts ++ (ta, ba) :: aft, tx, d⟩ =
      .ok () (stream_st ⟨cty, ctx, cpos⟩ ts ta ba aft tx d) := by
  rw [pconsume, if_pos (by simp [hty])]
  exact padvance_stream _ _ _ _ _ _ _ _ _ h1 h2


/-! ## Parsing of rendered values -/


theorem parse_listF_succ_any (f : Nat) (s : St) :
    parse_listF (f + 1) s =
      ((parse_list_loopF f [] s).bind fun vs s' =>
      (pconsume .tRBracket .expectedComma s').bind fun _ s'' =>
      .ok (.vList vs) s'') := rfl

theorem parse_list_loopF_succ_any (f : Nat) (acc : List Value) (s : St) :
    parse_list_loopF (f + 1) acc s =
      ((parse_valueF f s).bind fun v? s₁ =>
      let acc' := match v? with
        | some v => acc ++ [v]
        | none => acc
      (pmatch .tComma s₁).bind fun m s₂ =>
      if m then parse_list_loopF f acc' s₂ else .ok acc' s₂) := rfl

mutual

theorem value_parses : ∀ (v : Value), WFVal v → ∀ (f : Nat), vfuel v ≤ f →
    ∀ (t0 : Tok) (tsV : List (Tok × Bool)) (ta : Tok) (ba : Bool)
      (aft : List (Tok × Bool)) (prev : Tok) (tx : List Char) (d : Data),
    ((t0, false) :: tsV).map (fun tb => (tb.1.type, tb.1.text)) = valPats v →
    (∀ tb ∈ tsV, tb.2 = false) →
    ta.type ≠ TokType.tUnterminated → ta.type ≠ TokType.tInvalidChar →
    ∃ prev', parse_valueF f ⟨prev, t0, false, tsV ++ (ta, ba) :: aft, tx, d⟩ =
      .ok (some v) ⟨prev', ta, ba, aft, tx, d⟩ := by
  intro v hwf f hf t0 tsV ta ba aft prev tx d hmap hfl hta1 hta2
  obtain ⟨ty0, tx0, po0⟩ := t0
  rw [List.map_cons] at hmap
  cases hwf with
  | int n h0 h31 =>
      rw [valPats] at hmap
      have hty0 : ty0 = .tInt := congrArg Prod.fst (List.cons.inj hmap).1
      have htx0 : tx0 = int_to_string n := congrArg Prod.snd (List.cons.inj hmap).1
      have htsV : tsV = [] := List.map_eq_nil.mp (List.cons.inj hmap).2
      subst hty0; subst htx0; subst htsV
      obtain ⟨g, rfl⟩ : ∃ g, f = g + 1 := ⟨f - 1, by have hf1 : 1 ≤ f := hf; omega⟩
      refine ⟨⟨.tInt, int_to_string n, po0⟩, ?_⟩
      rw [List.nil_append, parse_valueF_succ]
      rw [pmatch_hit .tInt prev .tInt (int_to_string n) po0 false ta ba aft tx d
        rfl hta1 hta2, bind_ok]
      rw [if_pos rfl]
      simp only []
      rw [to_number_int_int_to_string n h0 h31]
  | bool b =>
      rw [valPats] at hmap
      cases b with
      | true =>
          rw [if_pos rfl] at hmap
          have hty0 : ty0 = .tTrue := congrArg Prod.fst (List.cons.inj hmap).1
          have htx0 : tx0 = "true".toList := congrArg Prod.snd (List.cons.inj hmap).1
          have htsV : tsV = [] := List.map_eq_nil.mp (List.cons.inj hmap).2
          subst hty0; subst htx0; subst htsV
          obtain ⟨g, rfl⟩ : ∃ g, f = g + 1 := ⟨f - 1, by have hf1 : 1 ≤ f := hf; omega⟩
          refine ⟨⟨.tTrue, "true".toList, po0⟩, ?_⟩
          rw [List.nil_append, parse_valueF_succ]
          rw [pmatch_miss _ _ _ _ _ _ _ _ _ (by decide), bind_ok, if_neg (by simp)]
          rw [pmatch_miss _ _ _ _ _ _ _ _ _ (by decide), bind_ok, if_neg (by simp)]
          rw [pmatch_miss _ _ _ _ _ _ _ _ _ (by decide), bind_ok, if_neg (by simp)]
          rw [pmatch_hit .tTrue prev .tTrue ("true".toList) po0 false ta ba aft tx d
            rfl hta1 hta2, bind_ok]
          rw [if_pos rfl]
          simp
      | false =>
          rw [if_neg (by decide)] at hmap
          have hty0 : ty0 = .tFalse := congrArg Prod.fst (List.cons.inj hmap).1
          have htx0 : tx0 = "false".toList := congrArg Prod.snd (List.cons.inj hmap).1
          have htsV : tsV = [] := List.map_eq_nil.mp (List.cons.inj hmap).2
          subst hty0; subst htx0; subst htsV
          obtain ⟨g, rfl⟩ : ∃ g, f = g + 1 := ⟨f - 1, by have hf1 : 1 ≤ f := hf; omega⟩
          refine ⟨⟨.tFalse, "false".toList, po0⟩, ?_⟩
          rw [List.nil_append, parse_valueF_succ]
          rw [pmatch_miss _ _ _ _ _ _ _ _ _ (by decide), bind_ok, if_neg (by simp)]
          rw [pmatch_miss _ _ _ _ _ _ _ _ _ (by decide), bind_ok, if_neg (by simp)]
          rw [pmatch_miss _ _ _ _ _ _ _ _ _ (by decide), bind_ok, if_neg (by simp)]
          rw [pmatch_miss _ _ _ _ _ _ _ _ _ (by decide), bind_ok, if_neg (by simp)]
          rw [pmatch_hit .tFalse prev .tFalse ("false".toList) po0 false ta ba aft tx d
            rfl hta1 hta2, bind_ok]
          rw [if_pos rfl]
          simp
  | str s hstr =>
      rw [valPats] at hmap
      have hty0 : ty0 = .tString := congrArg Prod.fst (List.cons.inj hmap).1
      have htx0 : tx0 = '"' :: s ++ ['"'] := congrArg Prod.snd (List.cons.inj hmap).1
      have htsV : tsV = [] := List.map_eq_nil.mp (List.cons.inj hmap).2
      subst hty0; subst htx0; subst htsV
      obtain ⟨g, rfl⟩ : ∃ g, f = g + 1 := ⟨f - 1, by have hf1 : 1 ≤ f := hf; omega⟩
      refine ⟨⟨.tString, '"' :: s ++ ['"'], po0⟩, ?_⟩
      rw [List.nil_append, parse_valueF_succ]
      rw [pmatch_miss _ _ _ _ _ _ _ _ _ (by decide), bind_ok, if_neg (by simp)]
      rw [pmatch_miss _ _ _ _ _ _ _ _ _ (by decide), bind_ok, if_neg (by simp)]
      rw [pmatch_hit .tString prev .tString ('"' :: s ++ ['"']) po0 false ta ba aft
        tx d rfl hta1 hta2, bind_ok]
      rw [if_pos rfl]
      simp
  | list l hl =>
      rw [valPats] at hmap
      have hty0 : ty0 = .tLBracket := congrArg Prod.fst (List.cons.inj hmap).1
      have h2 := (List.cons.inj hmap).2
      obtain ⟨tsE, tsR, htsV, hmE, hmR⟩ :=
        map_eq_append_split _ (elemsPats l) tsV [(.tRBracket, [']'])] h2
      obtain ⟨tbR, htsR⟩ : ∃ tbR, tsR = [tbR] := by
        cases tsR with
        | nil => simp at hmR
        | cons a t =>
            cases t with
            | nil => exact ⟨a, rfl⟩
            | cons b t' => simp at hmR
      subst htsR; subst htsV; subst hty0
      obtain ⟨⟨tyR, txR, poR⟩, bR⟩ := tbR
      simp only [List.map_cons, List.map_nil] at hmR
      have htyR : tyR = .tRBracket := congrArg Prod.fst (List.cons.inj hmR).1
      have htxR : txR = [']'] := congrArg Prod.snd (List.cons.inj hmR).1
      subst htyR; subst htxR
      have hbR : bR = false :=
        hfl _ (List.mem_append_right _ (List.mem_cons_self _ _))
      subst hbR
      obtain ⟨g, rfl⟩ : ∃ g, f = g + 2 := ⟨f - 2, by have hf1 : lfuel l + 2 ≤ f := hf; omega⟩
      have hkindsE : ∀ tb ∈ tsE, tb.1.type ≠ TokType.tUnterminated ∧
          tb.1.type ≠ TokType.tInvalidChar :=
        toks_kinds_of_map tsE _ hmE (elemsPats_kinds l)
      have hflE : ∀ tb ∈ tsE, tb.2 = false :=
        fun tb htb => hfl tb (List.mem_append_left _ htb)
      have hstream : (tsE ++ [(⟨.tRBracket, [']'], poR⟩, false)]) ++ (ta, ba) :: aft =
          tsE ++ ((⟨.tRBracket, [']'], poR⟩, false) :: (ta, ba) :: aft) := by
        simp
      have hcur := stream_cur_ok ⟨.tLBracket, tx0, po0⟩ tsE ⟨.tRBracket, [']'], poR⟩
        false ((ta, ba) :: aft) tx d hkindsE (fun h => nomatch h) (fun h => nomatch h)
      obtain ⟨pv, hrun⟩ := elems_parses l hl g
        (by have hf1 : lfuel l + 2 ≤ g + 2 := hf; omega) tsE ⟨.tRBracket, [']'], poR⟩ false
        ((ta, ba) :: aft) ⟨.tLBracket, tx0, po0⟩ tx d [] hmE hflE rfl
      rw [List.nil_append] at hrun
      refine ⟨⟨.tRBracket, [']'], poR⟩, ?_⟩
      show parse_valueF (g + 1 + 1) _ = _
      rw [parse_valueF_succ]
      rw [pmatch_miss _ _ _ _ _ _ _ _ _ (by decide), bind_ok, if_neg (by simp)]
      rw [pmatch_miss _ _ _ _ _ _ _ _ _ (by decide), bind_ok, if_neg (by simp)]
      rw [pmatch_miss _ _ _ _ _ _ _ _ _ (by decide), bind_ok, if_neg (by simp)]
      rw [pmatch_miss _ _ _ _ _ _ _ _ _ (by decide), bind_ok, if_neg (by simp)]
      rw [pmatch_miss _ _ _ _ _ _ _ _ _ (by decide), bind_ok, if_neg (by simp)]
      rw [hstream]
      rw [pmatch_hit_stream .tLBracket prev .tLBracket tx0 po0 false tsE
        ⟨.tRBracket, [']'], poR⟩ false ((ta, ba) :: aft) tx d rfl hcur.1 hcur.2,
        bind_ok]
      rw [if_pos rfl]
      rw [parse_listF_succ_any]
      rw [hrun, bind_ok]
      rw [pconsume_hit .tRBracket .expectedComma pv .tRBracket [']'] poR false ta ba
        aft tx d rfl hta1 hta2, bind_ok]
      rfl

theorem elems_parses : ∀ (l : List Value), (∀ v ∈ l, WFVal v) → ∀ (f : Nat),
    lfuel l ≤ f →
    ∀ (tsE : List (Tok × Bool)) (tR : Tok) (bR : Bool) (aft : List (Tok × Bool))
      (prev : Tok) (tx : List Char) (d : Data) (acc : List Value),
    tsE.map (fun tb => (tb.1.type, tb.1.text)) = elemsPats l →
    (∀ tb ∈ tsE, tb.2 = false) →
    tR.type = .tRBracket →
    ∃ prev', parse_list_loopF f acc (stream_st prev tsE tR bR aft tx d) =
      .ok (acc ++ l) ⟨prev', tR, bR, aft, tx, d⟩ := by
  intro l hl f hf tsE tR bR aft prev tx d acc hmap hfl hRty
  obtain ⟨tyR, txR, poR⟩ := tR
  simp only [] at hRty
  subst hRty
  cases l with
  | nil =>
      have htsE : tsE = [] := List.map_eq_nil.mp hmap
      subst htsE
      obtain ⟨g, rfl⟩ : ∃ g, f = g + 2 := ⟨f - 2, by have hf1 : 2 ≤ f := hf; omega⟩
      refine ⟨prev, ?_⟩
      show parse_list_loopF (g + 1 + 1) acc ⟨prev, ⟨.tRBracket, txR, poR⟩, bR, aft, tx, d⟩ = _
      rw [parse_list_loopF_succ_any]
      rw [parse_valueF_none g prev .tRBracket txR poR bR aft tx d (by decide)
        (by decide) (by decide) (by decide) (by decide) (by decide), bind_ok]
      simp only []
      rw [pmatch_miss _ _ _ _ _ _ _ _ _ (by decide), bind_ok, if_neg (by simp)]
      rw [List.append_nil]
  | cons v vs =>
      have hmap' : tsE.map (fun tb => (tb.1.type, tb.1.text)) =
          valPats v ++ restPats vs := hmap
      obtain ⟨ts1, ts2, htsE, hm1, hm2⟩ :=
        map_eq_append_split _ (valPats v) tsE (restPats vs) hmap'
      subst htsE
      have hwfv : WFVal v := hl v (List.mem_cons_self _ _)
      have hwfvs : ∀ x ∈ vs, WFVal x := fun x hx => hl x (List.mem_cons_of_mem _ hx)
      obtain ⟨t1, ts1', hts1⟩ : ∃ t1 ts1', ts1 = (t1, false) :: ts1' := by
        cases ts1 with
        | nil => rw [List.map_nil] at hm1; exact absurd hm1.symm (valPats_ne_nil v)
        | cons tb ts1' =>
            obtain ⟨t1, b1⟩ := tb
            have hb1 : b1 = false :=
              hfl (t1, b1) (List.mem_append_left _ (List.mem_cons_self _ _))
            subst hb1
            exact ⟨t1, ts1', rfl⟩
      subst hts1
      obtain ⟨g, rfl⟩ : ∃ g, f = g + 1 := ⟨f - 1, by have hf1 : max (vfuel v) (lfuel vs) + 1 ≤ f := hf; omega⟩
      have hfl1' : ∀ tb ∈ ts1', tb.2 = false :=
        fun tb htb => hfl tb (List.mem_append_left _ (List.mem_cons_of_mem _ htb))
      cases vs with
      | nil =>
          have hts2 : ts2 = [] := by
            rw [restPats] at hm2
            exact List.map_eq_nil.mp hm2
          subst hts2
          obtain ⟨pv, hval⟩ := value_parses v hwfv g
            (by have hf1 : max (vfuel v) (lfuel ([] : List Value)) + 1 ≤ g + 1 := hf
                have h2 := Nat.le_max_left (vfuel v) (lfuel ([] : List Value))
                omega) t1 ts1'
            ⟨.tRBracket, txR, poR⟩ bR aft prev tx d hm1 hfl1'
            (fun h => nomatch h) (fun h => nomatch h)
          refine ⟨pv, ?_⟩
          show parse_list_loopF (g + 1) acc
            ⟨prev, t1, false, (ts1' ++ []) ++ (⟨.tRBracket, txR, poR⟩, bR) :: aft, tx, d⟩ = _
          rw [parse_list_loopF_succ_any]
          rw [List.append_nil]
          rw [hval, bind_ok]
          simp only []
          rw [pmatch_miss _ _ _ _ _ _ _ _ _ (by decide), bind_ok, if_neg (by simp)]
      | cons v' vs' =>
          rw [restPats] at hm2
          obtain ⟨tbC, ts2'copy, hts2⟩ : ∃ tbC ts2', ts2 = tbC :: ts2' := by
            cases ts2 with
            | nil => simp at hm2
            | cons a t => exact ⟨a, t, rfl⟩
          subst hts2
          obtain ⟨⟨tyC, txC, poC⟩, bC⟩ := tbC
          rw [List.map_cons] at hm2
          have htyC : tyC = .tComma := congrArg Prod.fst (List.cons.inj hm2).1
          have hmE2 : ts2'copy.map (fun tb => (tb.1.type, tb.1.text)) =
              valPats v' ++ restPats vs' := (List.cons.inj hm2).2
          subst htyC
          have hbC : bC = false :=
            hfl _ (List.mem_append_right _ (List.mem_cons_self _ _))
          subst hbC
          -- the value run ends with the comma under the cursor
          obtain ⟨pv, hval⟩ := value_parses v hwfv g
            (by have hf1 : max (vfuel v) (lfuel (v' :: vs')) + 1 ≤ g + 1 := hf
                have h2 := Nat.le_max_left (vfuel v) (lfuel (v' :: vs'))
                omega) t1 ts1'
            ⟨.tComma, txC, poC⟩ false (ts2'copy ++ (⟨.tRBracket, txR, poR⟩, bR) :: aft)
            prev tx d hm1 hfl1' (fun h => nomatch h) (fun h => nomatch h)
          have hstream : (ts1' ++ (⟨.tComma, txC, poC⟩, false) :: ts2'copy) ++
              (⟨.tRBracket, txR, poR⟩, bR) :: aft =
              ts1' ++ (⟨.tComma, txC, poC⟩, false) ::
                (ts2'copy ++ (⟨.tRBracket, txR, poR⟩, bR) :: aft) := by
            simp
          have hkinds2 : ∀ tb ∈ ts2'copy, tb.1.type ≠ TokType.tUnterminated ∧
              tb.1.type ≠ TokType.tInvalidChar := by
            refine toks_kinds_of_map ts2'copy _ hmE2 ?_
            intro pt hpt
            rcases List.mem_append.mp hpt with hp1 | hp2
            · exact valPats_kinds v' pt hp1
            · exact restPats_kinds vs' pt hp2
          have hcur := stream_cur_ok ⟨.tComma, txC, poC⟩ ts2'copy
            ⟨.tRBracket, txR, poR⟩ bR aft tx d hkinds2 (fun h => nomatch h) (fun h => nomatch h)
          have hfl2' : ∀ tb ∈ ts2'copy, tb.2 = false := fun tb htb =>
            hfl tb (List.mem_append_right _ (List.mem_cons_of_mem _ htb))
          obtain ⟨pr, hrec⟩ := elems_parses (v' :: vs') hwfvs g
            (by have hf1 : max (vfuel v) (lfuel (v' :: vs')) + 1 ≤ g + 1 := hf
                have h2 := Nat.le_max_right (vfuel v) (lfuel (v' :: vs'))
                omega) ts2'copy
            ⟨.tRBracket, txR, poR⟩ bR aft ⟨.tComma, txC, poC⟩ tx d (acc ++ [v])
            hmE2 hfl2' rfl
          refine ⟨pr, ?_⟩
          show parse_list_loopF (g + 1) acc
            ⟨prev, t1, false, (ts1' ++ (⟨.tComma, txC, poC⟩, false) :: ts2'copy) ++
              (⟨.tRBracket, txR, poR⟩, bR) :: aft, tx, d⟩ = _
          rw [parse_list_loopF_succ_any]
          rw [hstream, hval, bind_ok]
          simp only []
          rw [pmatch_hit_stream .tComma pv .tComma txC poC false ts2'copy
            ⟨.tRBracket, txR, poR⟩ bR aft tx d rfl hcur.1 hcur.2, bind_ok]
          rw [if_pos rfl]
          rw [hrec]
          simp

end


/-! ## Parsing of serialized entry lists -/


theorem insertD_insertD : ∀ (d : Data) (k : Key) (v1 v2 : Value),
    insertD (insertD d k v1) k v2 = insertD d k v2 := by
  intro d k v1 v2
  induction d with
  | nil => simp [insertD, keyLt_irrefl]
  | cons kv t ih =>
      obtain ⟨k', v'⟩ := kv
      by_cases h1 : keyLt k k' = true
      · simp [insertD, h1, keyLt_irrefl]
      · by_cases h2 : k = k'
        · subst h2
          simp [insertD, keyLt_irrefl, h1]
        · simp [insertD, h1, h2, keyLt_irrefl, ih]

theorem insertD_gt_append : ∀ (d : Data) (k : Key) (v : Value),
    (∀ kv ∈ d, keyLt kv.1 k = true) → insertD d k v = d ++ [(k, v)] := by
  intro d k v h
  induction d with
  | nil => rfl
  | cons kv t ih =>
      obtain ⟨k', v'⟩ := kv
      have hlt : keyLt k' k = true := h (k', v') (List.mem_cons_self _ _)
      have h1 : ¬ keyLt k k' = true := by
        rw [keyLt_asymm k' k hlt]
        exact Bool.false_ne_true
      have h2 : k ≠ k' := fun he => keyLt_ne k' k hlt he.symm
      simp only [insertD, if_neg h1, if_neg h2, List.cons_append]
      rw [ih (fun kv hm => h kv (List.mem_cons_of_mem _ hm))]

mutual

theorem vfuel_le_pats : ∀ (v : Value), vfuel v ≤ 2 * (valPats v).length + 1 := by
  intro v
  cases v with
  | vInt n => exact Nat.le_refl 1 |>.trans (by simp [valPats])
  | vFloat lit => exact Nat.le_refl 1 |>.trans (by simp [valPats])
  | vBool b =>
      cases b with
      | true => show vfuel (.vBool true) ≤ _; rw [valPats, if_pos rfl]; show 1 ≤ 3; omega
      | false => show vfuel (.vBool false) ≤ _; rw [valPats, if_neg (by decide)]; show 1 ≤ 3; omega
  | vStr s => show 1 ≤ 2 * [(TokType.tString, '"' :: s ++ ['"'])].length + 1; simp
  | vList l =>
      have h := lfuel_le_pats l
      show lfuel l + 2 ≤ 2 * ((TokType.tLBracket, ['[']) :: elemsPats l ++
        [(TokType.tRBracket, [']'])]).length + 1
      simp only [List.length_cons, List.length_append, List.length_nil]
      omega

theorem lfuel_le_pats : ∀ (l : List Value), lfuel l ≤ 2 * (elemsPats l).length + 2 := by
  intro l
  cases l with
  | nil => show 2 ≤ 2 * ([] : List (TokType × List Char)).length + 2; simp
  | cons v vs =>
      have h1 := vfuel_le_pats v
      have h2 := lfuel_le_pats vs
      show max (vfuel v) (lfuel vs) + 1 ≤ 2 * (valPats v ++ restPats vs).length + 2
      have hm1 := Nat.le_max_left (vfuel v) (lfuel vs)
      have hm2 := Nat.le_max_right (vfuel v) (lfuel vs)
      have hmax : max (vfuel v) (lfuel vs) = vfuel v ∨
          max (vfuel v) (lfuel vs) = lfuel vs := max_choice _ _
      have hrest : (restPats vs).length =
          (match vs with | [] => 0 | v' :: vs' => 1 + (valPats v' ++ restPats vs').length) := by
        cases vs with
        | nil => rfl
        | cons v' vs' => simp [restPats]; omega
      cases vs with
      | nil =>
          simp only [] at hrest
          simp only [List.length_append, hrest]
          have hl2 : lfuel ([] : List Value) = 2 := rfl
          have hpv : 1 ≤ (valPats v).length := List.length_pos.mpr (valPats_ne_nil v)
          rcases hmax with hx | hx <;> rw [hx] <;> omega
      | cons v' vs' =>
          have h3 : (elemsPats (v' :: vs')).length = (valPats v' ++ restPats vs').length := rfl
          simp only [List.length_append] at h2 ⊢
          simp only [hrest]
          rw [h3] at h2
          simp only [List.length_append] at h2
          rcases hmax with hx | hx <;> rw [hx] <;> omega

end

theorem entryToks_head (es : List (Key × Value)) (ts : List (Tok × Bool))
    (h : EntryToks es ts) :
    ∃ ta ba aft, ts = (ta, ba) :: aft ∧ ta.type ≠ TokType.tUnterminated ∧
      ta.type ≠ TokType.tInvalidChar := by
  cases es with
  | nil =>
      obtain ⟨p, hp⟩ := h
      exact ⟨_, _, _, hp, (fun hh => nomatch hh), (fun hh => nomatch hh)⟩
  | cons kv es' =>
      obtain ⟨k, v⟩ := kv
      obtain ⟨p1, p2, tsV, pNl, bNl, ts', hts, _, _, _⟩ := h
      exact ⟨_, _, _, hts, (fun hh => nomatch hh), (fun hh => nomatch hh)⟩

theorem entryToks_length : ∀ (es : List (Key × Value)) (ts : List (Tok × Bool)),
    EntryToks es ts → es.length + 1 ≤ ts.length := by
  intro es
  induction es with
  | nil =>
      intro ts h
      obtain ⟨p, hp⟩ := h
      subst hp
      simp
  | cons kv es' ih =>
      intro ts h
      obtain ⟨k, v⟩ := kv
      obtain ⟨p1, p2, tsV, pNl, bNl, ts', hts, _, _, hE⟩ := h
      subst hts
      have := ih ts' hE
      simp only [List.length_cons, List.length_append]
      omega

theorem entry_parses (f : Nat) (k : Key) (v : Value) (hwf : WFVal v)
    (hfv : vfuel v ≤ f) (pI pE pN : Nat) (bN : Bool)
    (tsV : List (Tok × Bool)) (ta : Tok) (ba : Bool) (aft : List (Tok × Bool))
    (prev : Tok) (tx : List Char) (d : Data)
    (hmapV : tsV.map (fun tb => (tb.1.type, tb.1.text)) = valPats v)
    (hflV : ∀ tb ∈ tsV, tb.2 = false)
    (hta1 : ta.type ≠ TokType.tUnterminated) (hta2 : ta.type ≠ TokType.tInvalidChar)
    (hd : find? d k = none) :
    ∃ prev', entryF f ⟨prev, ⟨.tIdent, k, pI⟩, false,
      (⟨.tEqual, ['='], pE⟩, false) ::
        (tsV ++ (⟨.tNewline, ['\n'], pN⟩, bN) :: (ta, ba) :: aft), tx, d⟩ =
      .ok () ⟨prev', ta, ba, aft, tx, insertD d k v⟩ := by
  obtain ⟨t0, tsV', hts⟩ : ∃ t0 tsV', tsV = (t0, false) :: tsV' := by
    cases tsV with
    | nil => rw [List.map_nil] at hmapV; exact absurd hmapV.symm (valPats_ne_nil v)
    | cons tb tsV' =>
        obtain ⟨t0, b0⟩ := tb
        have hb0 : b0 = false := hflV (t0, b0) (List.mem_cons_self _ _)
        subst hb0
        exact ⟨t0, tsV', rfl⟩
  subst hts
  rw [List.cons_append]
  have hflV' : ∀ tb ∈ tsV', tb.2 = false :=
    fun tb htb => hflV tb (List.mem_cons_of_mem _ htb)
  have hkinds0 : t0.type ≠ TokType.tUnterminated ∧ t0.type ≠ TokType.tInvalidChar := by
    have := toks_kinds_of_map _ _ hmapV (valPats_kinds v)
    exact this (t0, false) (List.mem_cons_self _ _)
  obtain ⟨pv, hval⟩ := value_parses v hwf f hfv t0 tsV'
    ⟨.tNewline, ['\n'], pN⟩ bN ((ta, ba) :: aft) ⟨.tEqual, ['='], pE⟩ tx
    (insertD d k defaultValue) hmapV hflV' (fun h => nomatch h) (fun h => nomatch h)
  refine ⟨⟨.tNewline, ['\n'], pN⟩, ?_⟩
  rw [entryF_eq]
  rw [pmatch_miss _ _ _ _ _ _ _ _ _ (by decide), bind_ok, if_neg (by simp)]
  rw [pconsume_hit .tIdent .noIdent prev .tIdent k pI false ⟨.tEqual, ['='], pE⟩
    false ((t0, false) :: (tsV' ++ (⟨.tNewline, ['\n'], pN⟩, bN) :: (ta, ba) :: aft))
    tx d rfl (fun h => nomatch h) (fun h => nomatch h), bind_ok]
  rw [pconsume_hit .tEqual .noEqualAfterIdent ⟨.tIdent, k, pI⟩ .tEqual ['='] pE false
    t0 false (tsV' ++ (⟨.tNewline, ['\n'], pN⟩, bN) :: (ta, ba) :: aft) tx d rfl
    hkinds0.1 hkinds0.2, bind_ok]
  simp only []
  rw [hd]
  simp only [Option.isSome_none, Bool.false_eq_true, if_false]
  rw [hval, bind_ok]
  simp only []
  rw [insertD_insertD]
  rw [pconsume_hit .tNewline .noNewlineAfterValue pv .tNewline ['\n'] pN bN ta ba aft
    tx (insertD d k v) rfl hta1 hta2, bind_ok]

theorem loop_parses : ∀ (es : List (Key × Value)) (ts : List (Tok × Bool)),
    EntryToks es ts →
    (∀ kv ∈ es, identKeyB kv.1 = true ∧ WFVal kv.2) →
    List.Pairwise (fun a b => keyLt a.1 b.1 = true) es →
    ∀ (d : Data), (∀ kv ∈ d, ∀ kv' ∈ es, keyLt kv.1 kv'.1 = true) →
    ∀ (t0 : Tok) (b0 : Bool) (ts1 : List (Tok × Bool)), ts = (t0, b0) :: ts1 →
    ∀ f, es.length + 1 ≤ f →
    ∀ (errs : List PError) (prev : Tok) (tx : List Char),
    ∃ prev' pEnd, parse_loopF f errs ⟨prev, t0, b0, ts1, tx, d⟩ =
      .done errs ⟨prev', ⟨.tEnd, [], pEnd⟩, true, [], tx, d ++ es⟩ := by
  intro es
  induction es with
  | nil =>
      intro ts hE hwf hsort d hord t0 b0 ts1 hts f hf errs prev tx
      obtain ⟨p, hp⟩ := hE
      rw [hts] at hp
      have ht0 : t0 = ⟨.tEnd, [], p⟩ := congrArg Prod.fst (List.cons.inj hp).1
      have hb0 : b0 = true := congrArg Prod.snd (List.cons.inj hp).1
      have hts1 : ts1 = [] := (List.cons.inj hp).2
      subst ht0; subst hb0; subst hts1
      obtain ⟨g, rfl⟩ : ∃ g, f = g + 1 := ⟨f - 1, by omega⟩
      refine ⟨prev, p, ?_⟩
      rw [parse_loopF_succ]
      rw [if_pos rfl, List.append_nil]
  | cons kv es' ih =>
      intro ts hE hwf hsort d hord t0 b0 ts1 hts f hf errs prev tx
      obtain ⟨k, v⟩ := kv
      obtain ⟨p1, p2, tsV, pNl, bNl, ts', htsh, hmapV, hflV, hE'⟩ := hE
      rw [hts] at htsh
      have ht0 : t0 = ⟨.tIdent, k, p1⟩ := congrArg Prod.fst (List.cons.inj htsh).1
      have hb0 : b0 = false := congrArg Prod.snd (List.cons.inj htsh).1
      have hts1 : ts1 = (⟨.tEqual, ['='], p2⟩, false) ::
          (tsV ++ (⟨.tNewline, ['\n'], pNl⟩, bNl) :: ts') := (List.cons.inj htsh).2
      subst ht0; subst hb0; subst hts1
      obtain ⟨hkey, hval⟩ := hwf (k, v) (List.mem_cons_self _ _)
      obtain ⟨ta, ba, aft, hts', hta1, hta2⟩ := entryToks_head es' ts' hE'
      subst hts'
      obtain ⟨g, rfl⟩ : ∃ g, f = g + 1 := ⟨f - 1, by omega⟩
      -- the entry fuel is large enough
      have hlenV : tsV.length = (valPats v).length := by
        rw [← hmapV, List.length_map]
      have hfv : vfuel v ≤ 2 * ((⟨.tEqual, ['='], p2⟩, false) ::
          (tsV ++ (⟨.tNewline, ['\n'], pNl⟩, bNl) :: (ta, ba) :: aft)).length + 8 := by
        have h1 := vfuel_le_pats v
        simp only [List.length_cons, List.length_append]
        omega
      obtain ⟨pv, hentry⟩ := entry_parses
        (2 * ((⟨.tEqual, ['='], p2⟩, false) ::
          (tsV ++ (⟨.tNewline, ['\n'], pNl⟩, bNl) :: (ta, ba) :: aft)).length + 8)
        k v hval hfv p1 p2 pNl bNl tsV ta ba aft prev tx d hmapV hflV hta1 hta2
        ((find?_eq_none d k).mpr fun kv hm =>
          keyLt_ne _ _ (hord kv hm (k, v) (List.mem_cons_self _ _)))
      have hdata : insertD d k v = d ++ [(k, v)] :=
        insertD_gt_append d k v fun kv hm => hord kv hm (k, v) (List.mem_cons_self _ _)
      rw [hdata] at hentry
      have hord' : ∀ kv ∈ d ++ [(k, v)], ∀ kv' ∈ es', keyLt kv.1 kv'.1 = true := by
        intro kv hm kv' hm'
        rcases List.mem_append.mp hm with hm1 | hm2
        · exact hord kv hm1 kv' (List.mem_cons_of_mem _ hm')
        · rcases List.mem_singleton.mp hm2 with rfl
          exact (List.pairwise_cons.mp hsort).1 kv' hm'
      obtain ⟨prev', pEnd, hrec⟩ := ih ((ta, ba) :: aft) hE'
        (fun kv hm => hwf kv (List.mem_cons_of_mem _ hm))
        (List.pairwise_cons.mp hsort).2 (d ++ [(k, v)]) hord' ta ba aft rfl g
        (by simp only [List.length_cons] at hf; omega) errs pv tx
      refine ⟨prev', pEnd, ?_⟩
      rw [parse_loopF_succ]
      rw [if_neg (by simp)]
      rw [hentry]
      simp only []
      rw [hrec]
      simp

theorem parse_entries (es : List (Key × Value)) (w : Nat)
    (hwf : ∀ kv ∈ es, identKeyB kv.1 = true ∧ WFVal kv.2)
    (hsort : List.Pairwise (fun a b => keyLt a.1 b.1 = true) es)
    (hne : es ≠ []) :
    parse ((es.map (entry_line w)).flatten) = .ok es := by
  obtain ⟨ts, htok, hE⟩ := tokenize_entries es w hwf
  obtain ⟨tI, bI, ts1, hts, htI1, htI2⟩ := entryToks_head es ts hE
  have hbI : bI = false := by
    cases es with
    | nil => exact absurd rfl hne
    | cons kv es' =>
        obtain ⟨k, v⟩ := kv
        obtain ⟨p1, p2, tsV, pNl, bNl, ts', htsh, _, _, _⟩ := hE
        rw [hts] at htsh
        exact congrArg Prod.snd (List.cons.inj htsh).1
  subst hbI
  have hlen := entryToks_length es ts hE
  obtain ⟨prev', pEnd, hloop⟩ := loop_parses es ts hE hwf hsort [] (by simp)
    tI false ts1 hts (ts1.length + 2)
    (by rw [hts] at hlen; simp only [List.length_cons] at hlen; omega)
    [] ⟨.tIdent, [], 0⟩ ((es.map (entry_line w)).flatten)
  rw [List.nil_append] at hloop
  unfold parse
  rw [htok]
  simp only []
  unfold parse_toks
  rw [show initSt ((es.map (entry_line w)).flatten) ts =
    ⟨⟨.tIdent, [], 0⟩, ⟨.tIdent, [], 0⟩, false, ts, (es.map (entry_line w)).flatten, []⟩
    from rfl]
  rw [hts]
  rw [padvance_eq]
  simp only [popTok_cons]
  rw [if_neg htI1, if_neg htI2]
  simp only []
  rw [hloop]
  simp



/-! ## C1 / C8: the corrected universal statements -/

/-- C1 (corrected): the round trip holds on the well-formed fragment the
serializer and parser actually agree on: non-empty data whose keys lex as
single `Ident` tokens (and are not the boolean keywords), and whose values
avoid the `int`-overflow, float-formatting and string-escaping pitfalls
(`WFVal`): serializing and re-parsing returns exactly the original map.
The original claim fails outside this fragment (see the counterexample:
a key like `true` serializes to a keyword token and does not read back). -/
theorem C1_round_trip (D : Data) (hwf : WFData D) (hne : D ≠ []) :
    ∃ txt, create_text D = some txt ∧ parse txt = .ok D := by
  obtain ⟨hsort, hkv⟩ := hwf
  cases D with
  | nil => exact absurd rfl hne
  | cons kv0 rest =>
      cases hwx : max_key_width (kv0 :: rest) with
      | none => simp [max_key_width] at hwx
      | some w =>
          refine ⟨((kv0 :: rest).map (entry_line w)).flatten, ?_, ?_⟩
          · rw [create_text, hwx]
            rfl
          · exact parse_entries (kv0 :: rest) w hkv hsort (by simp)

/-- Witness for C1 at a concrete one-entry map. -/
theorem C1_round_trip_witness :
    WFData [(['a'], Value.vInt 1)] ∧ ([(['a'], Value.vInt 1)] : Data) ≠ [] ∧
    ∃ txt, create_text [(['a'], Value.vInt 1)] = some txt ∧
      parse txt = .ok [(['a'], Value.vInt 1)] :=
  have hwf : WFData [(['a'], Value.vInt 1)] := by
    refine ⟨List.pairwise_singleton _ _, ?_⟩
    intro kv hm
    rcases List.mem_singleton.mp hm with rfl
    exact ⟨by decide, WFVal.int 1 (by decide) (by decide)⟩
  ⟨hwf, by decide, C1_round_trip [(['a'], Value.vInt 1)] hwf (by decide)⟩

/-- C8 (corrected): the `int` alternative of `Value` is the 32-bit C++
`int`, not a 64-bit integer: `string::to_number<int>` bounds the value at
`INT_MAX`.  Within that range the claim's parsing behaviour holds: every
decimal literal whose value fits parses to an `Int` holding exactly that
value (`4294967296` instead raises `bad_optional_access`, see the
counterexample). -/
theorem C8_int_range (n : Nat) (h : n ≤ 2147483647) :
    parse ("a = ".toList ++ (natToDigits n ++ ['\n'])) =
      .ok [(['a'], Value.vInt n)] := by
  have htext : "a = ".toList ++ (natToDigits n ++ ['\n']) =
      (([(['a'], Value.vInt (n : Int))].map (entry_line 1)).flatten) := by
    simp [entry_line, pad_key, Value.to_string, int_to_string_natCast]
  rw [htext]
  refine parse_entries [(['a'], Value.vInt (n : Int))] 1 ?_ ?_ (by simp)
  · intro kv hm
    rcases List.mem_singleton.mp hm with rfl
    refine ⟨?_, WFVal.int (n : Int) (by omega) (by exact_mod_cast h)⟩
    show identKeyB ['a'] = true
    decide
  · exact List.pairwise_singleton _ _

/-- Witness for C8 at the literal `305`. -/
theorem C8_int_range_witness :
    305 ≤ 2147483647 ∧
    parse ("a = ".toList ++ (natToDigits 305 ++ ['\n'])) =
      .ok [(['a'], Value.vInt 305)] :=
  ⟨by decide, C8_int_range 305 (by decide)⟩

end Conf
